import Mathlib

/-!
# ACL policy engine of netmaker (`logic/acls.go`)

A shallow embedding of the policy engine, followed by the properties proved
about it:

* the evaluator: `GetDefaultPolicy`, `IsPeerAllowed`,
  `IsNodeAllowedToCommunicate`, `IsUserAllowedToCommunicate` and the listing
  helpers they call;
* the validation: `IsAclPolicyValid`, `ValidateCreateAclReq`;
* the registry over the database table and the cache: `InsertAcl`, `GetAcl`,
  `UpsertAcl`, `UpdateAcl`, `DeleteAcl`, `ListAcls`, the seeding
  `CreateDefaultAclNetworkPolicies` with `CreateDefaultUserPolicies` of
  `pro/logic/user_mgmt.go`;
* the rule compiler: `GetAclRulesForNode`, `getUserAclRulesForNode`,
  `UniqueIPNetList`, `sortIPNets`;
* the re-tagging helpers: `UpdateDeviceTag`, `RemoveDeviceTagFromAclPolicies`,
  `CheckIfTagAsActivePolicy`;
* the role functions `DeleteRole` and `HasNetworkRsrcScope` of
  `pro/logic/user_mgmt.go`;
* the connection settings of `db/postgres.go`: `GetSQLHost`, `GetSQLPort`,
  `GetSQLUser`, `GetSQLPass`, `GetSQLDB`, `GetSQLSSLMode`.

Conventions of the embedding

* Go maps used as sets (`map[TagID]struct{}`, the value maps built by
  `convAclTagToValueMap`) are lists of their keys, in the order `range`
  yields them; a lookup `_, ok := m[k]` is list membership.
* A `for ... range` loop is a structural recursion over that list.  A loop
  that only appends to a slice is embedded as the list of the items it
  appends, in order.
* A Go result pair `(value, error)` is a pair whose second component is
  `none` for a nil error.
* The policy registry is read through `GetAcl` and `ListAcls`, whose results
  depend on the database and on the cache.  The evaluator is embedded over
  what these two reads return during one call (`World.GetAcl`,
  `World.ListAcls`); nothing is assumed on how the two relate.  The registry
  itself is embedded as state passing over `Registry`, which holds the table,
  the cache and the condition of the backend.  `Registry.GetDefaultPolicy` and
  `Registry.IsUserAllowedToCommunicate` follow the reads of one evaluator call
  through the cache, one after the other.
* A Go map with values is an association list (`mapGet`, `mapSet`,
  `mapDelete`); a loop that updates a map is a left fold.
* A Go slice that is cut while a `range` loop runs over it is a backing array
  with a length; an out-of-range slice expression is a panic, the result
  `none`.
* Go fixes neither the order of a `range` over a map nor the order in which
  `sort.Slice` leaves entries that the comparison does not separate.  A
  function on lists is one run; where the order decides a claim, the order is
  part of the input (the tag list of a node) or the possible results are
  described by a predicate (`UniqueIPNetList.outcome`).
* A write to a nil map is a panic, the result `none`
  (`GetAclRulesForNode.run`).
* Go's `int` is the 64-bit integer; the conversion `int32(n)` keeps the low
  32 bits, in two's complement.  The environment is a function from variable
  names to strings, the empty string for an unset variable.
-/

namespace Netmaker

/-! ## Data model (package `models`, as far as `acls.go` reads it) -/

/-- Modelled from the spec: `models.AclPolicyType` is declared outside the
files at hand; the rule type of a policy is `DevicePolicy` or `UserPolicy`. -/
def DevicePolicy : String := "device-policy"

/-- Modelled from the spec: the second value of `models.AclPolicyType`. -/
def UserPolicy : String := "user-policy"

/-- Modelled from the spec: `models.AclGroupType` values, the ID class of a
policy tag (`DeviceAclID`, `UserAclID`, `UserGroupAclID`). -/
def DeviceAclID : String := "tag"

/-- Modelled from the spec: ID class of a user entry. -/
def UserAclID : String := "user"

/-- Modelled from the spec: ID class of a user-group entry. -/
def UserGroupAclID : String := "user-group"

/-- Modelled from the spec: `models.AllowedTrafficDirection` is an integer
type with the two legal values `Uni` and `Bi`. -/
def TrafficDirectionUni : Int := 0

/-- Modelled from the spec: the bidirectional value of
`models.AllowedTrafficDirection`. -/
def TrafficDirectionBi : Int := 1

/-- The pair `models.AclPolicyTag{ID, Value}`. -/
structure AclPolicyTag where
  ID : String
  Value : String
deriving DecidableEq, Repr

/-- The record `models.Acl`, with the fields `acls.go` reads or writes. -/
structure Acl where
  ID : String
  Default : Bool
  MetaData : String
  Name : String
  NetworkID : String
  RuleType : String
  Src : List AclPolicyTag
  Dst : List AclPolicyTag
  Proto : String
  ServiceType : String
  Port : List String
  AllowedDirection : Int
  Enabled : Bool
  CreatedBy : String
  CreatedAt : Nat
deriving DecidableEq, Repr

/-- The Go zero value `models.Acl{}`. -/
def Acl.zero : Acl :=
  { ID := "", Default := false, MetaData := "", Name := "", NetworkID := "",
    RuleType := "", Src := [], Dst := [], Proto := "", ServiceType := "",
    Port := [], AllowedDirection := 0, Enabled := false, CreatedBy := "",
    CreatedAt := 0 }

/-- Go's `net.IP`: a byte slice that is nil (no bytes), an IPv4 address of 4
bytes or an address of 16 bytes; these are the lengths the library's parsers
produce.  Bytes are natural numbers. -/
structure IP where
  bytes : List Nat
  wf : bytes.length = 0 ∨ bytes.length = 4 ∨ bytes.length = 16
deriving DecidableEq, Repr

/-- Go's `net.IPNet`: an address and a mask (a byte slice). -/
structure IPNet where
  IP : IP
  Mask : List Nat
deriving DecidableEq, Repr

/-- The nil address. -/
def IP.nil : IP := ⟨[], Or.inl rfl⟩

/-- The Go zero value `net.IPNet{}`. -/
def IPNet.zero : IPNet := { IP := IP.nil, Mask := [] }

/-- The record `models.ExtClient` embedded in a static node: the fields the
engine reads (`Enabled`, `OwnerID`, `Address`, `Address6`) and the client's
identity, network and tags, from which `ConvertToStaticNode` builds a node. -/
structure ExtClient where
  ClientID : String
  Network : String
  OwnerID : String
  Enabled : Bool
  Address : String
  Address6 : String
  Tags : List String
deriving DecidableEq, Repr

/-- The record `models.Node` as the evaluator and the rule compiler read it.
`Tags` is the key list of `map[TagID]struct{}`; `Mutex` says whether the
optional mutex is present (`node.Mutex != nil`); `Address` and `Address6` are
the IPv4 and IPv6 networks of the node, the zero value when it has none.
`TagsNil` says whether the map `Tags` is the nil map, which has no keys: Go
reads a nil map like an empty one, but an assignment to it is a run-time
panic. -/
structure Node where
  ID : String
  Network : String
  Tags : List String
  IsStatic : Bool
  IsIngressGateway : Bool
  StaticNode : ExtClient
  Mutex : Bool
  Address : IPNet := IPNet.zero
  Address6 : IPNet := IPNet.zero
  TagsNil : Bool := false
deriving DecidableEq, Repr

/-- The record `models.User` as `acls.go` reads it: `NetworkRoles` and
`UserGroups` are the key lists of the two maps, as `range` yields them. -/
structure User where
  UserName : String
  PlatformRoleID : String
  NetworkRoles : List String
  UserGroups : List String
deriving DecidableEq, Repr

/-- What one evaluator call observes of the rest of the system: the records
`ListAcls` returns (lines 412-433), in the order it yields them; what
`GetAcl` returns for a key (lines 197-219), `none` for an error; the user
registry behind `GetUser`, `none` for an error; and the conversion
`ExtClient.ConvertToStaticNode` of package `models`.  The two reads are
independent fields: how a `GetAcl` changes what the `ListAcls` after it
returns is a matter of the cache, which `Registry.GetDefaultPolicy` and
`Registry.IsUserAllowedToCommunicate` follow call by call. -/
structure World where
  ListAcls : List Acl
  GetAcl : String → Option Acl
  GetUser : String → Option User
  ConvertToStaticNode : ExtClient → Node

/-! ## Registry reads -/

/-- `IsAclExists` (lines 222-225). -/
def IsAclExists (w : World) (aclID : String) : Bool :=
  (w.GetAcl aclID).isSome

/-- `convAclTagToValueMap` (lines 526-532): the set of `Value`s of a tag
list, each value kept once, in order of first occurrence. -/
def convAclTagToValueMap : List AclPolicyTag → List String
  | [] => []
  | aclTagI :: rest =>
    aclTagI.Value :: (convAclTagToValueMap rest).filter (fun v => decide (v ≠ aclTagI.Value))

/-- `ListAclsByNetwork` (lines 514-524); its error result is always nil. -/
def ListAclsByNetwork (w : World) (netID : String) : List Acl :=
  w.ListAcls.filter (fun acl => decide (acl.NetworkID = netID))

/-- `listDevicePolicies` (lines 490-499). -/
def listDevicePolicies (w : World) (netID : String) : List Acl :=
  w.ListAcls.filter
    (fun acl => decide (acl.NetworkID = netID ∧ acl.RuleType = DevicePolicy))

/-- `listUserPolicies` (lines 502-511). -/
def listUserPolicies (w : World) (netID : String) : List Acl :=
  w.ListAcls.filter
    (fun acl => decide (acl.NetworkID = netID ∧ acl.RuleType = UserPolicy))

/-- The loop of `GetDefaultPolicy` over the network's policies (lines
393-407): the first enabled policy of the rule type with `"*"` in both value
maps. -/
def GetDefaultPolicy.scan (ruleType : String) : List Acl → Option Acl
  | [] => none
  | policy :: rest =>
    if policy.Enabled = false then GetDefaultPolicy.scan ruleType rest
    else if policy.RuleType = ruleType ∧
        "*" ∈ convAclTagToValueMap policy.Src ∧
        "*" ∈ convAclTagToValueMap policy.Dst then some policy
    else GetDefaultPolicy.scan ruleType rest

/-- `GetDefaultPolicy` (lines 373-410). -/
def GetDefaultPolicy (w : World) (netID ruleType : String) : Acl × Option String :=
  let aclID := if ruleType = DevicePolicy then "all-nodes" else "all-users"
  match w.GetAcl (netID ++ "." ++ aclID) with
  | none => (Acl.zero, some "default rule not found")
  | some acl =>
    if acl.Enabled then (acl, none)
    else
      match GetDefaultPolicy.scan ruleType (ListAclsByNetwork w netID) with
      | some policy => (policy, none)
      | none => (acl, none)

/-- One inner loop of `listPoliciesOfUser` (lines 471-476 and 477-482): the
copies of `acl` appended while ranging over `keys`; the `continue` inside
only continues this inner loop. -/
def listPoliciesOfUser.inner (acl : Acl) (srcMap : List String) : List String → List Acl
  | [] => []
  | key :: rest =>
    if key ∈ srcMap then acl :: listPoliciesOfUser.inner acl srcMap rest
    else listPoliciesOfUser.inner acl srcMap rest

/-- The loop of `listPoliciesOfUser` over all policies (lines 464-485). -/
def listPoliciesOfUser.loop (user : User) (netID : String) : List Acl → List Acl
  | [] => []
  | acl :: rest =>
    if acl.NetworkID = netID ∧ acl.RuleType = UserPolicy then
      let srcMap := convAclTagToValueMap acl.Src
      if user.UserName ∈ srcMap then
        acl :: listPoliciesOfUser.loop user netID rest
      else
        listPoliciesOfUser.inner acl srcMap user.NetworkRoles ++
          (listPoliciesOfUser.inner acl srcMap user.UserGroups ++
            listPoliciesOfUser.loop user netID rest)
    else listPoliciesOfUser.loop user netID rest

/-- `listPoliciesOfUser` (lines 461-487). -/
def listPoliciesOfUser (w : World) (user : User) (netID : String) : List Acl :=
  listPoliciesOfUser.loop user netID w.ListAcls

/-- A loop `for tagID := range tags { if _, ok := m[tagID]; ok { hit } }`
that stops at the first hit: whether it hits. -/
def anyTagIn (tags : List String) (m : List String) : Bool :=
  tags.any (fun tagID => decide (tagID ∈ m))

/-! ## Evaluator -/

/-- The opening of each evaluator, `if node.IsStatic { node =
node.StaticNode.ConvertToStaticNode() }` (lines 536-538, 574-579, 672-677). -/
def staticNormal (w : World) (node : Node) : Node :=
  if node.IsStatic then w.ConvertToStaticNode node.StaticNode else node

/-- The tag snapshot (lines 580-594, 678-692): a clone taken under the mutex
when there is one, the tag set itself otherwise. -/
def snapshotTags (node : Node) : List String :=
  if node.Mutex then node.Tags else node.Tags

/-- One tag loop of `IsPeerAllowed`: lines 620-641 with `tags = nodeTags`,
`others = peerTags`, and lines 643-665 with the two exchanged.  True when the
loop executes a `return true`. -/
def IsPeerAllowed.tagLoop (srcMap dstMap others : List String) : List String → Bool
  | [] => false
  | tagID :: rest =>
    if tagID ∈ dstMap ∧ ("*" ∈ srcMap ∨ anyTagIn others srcMap = true) then true
    else if tagID ∈ srcMap ∧ ("*" ∈ dstMap ∨ anyTagIn others dstMap = true) then true
    else IsPeerAllowed.tagLoop srcMap dstMap others rest

/-- The loop of `IsPeerAllowed` over the device policies (lines 614-666). -/
def IsPeerAllowed.policyLoop (nodeTags peerTags : List String) : List Acl → Bool
  | [] => false
  | policy :: rest =>
    if policy.Enabled = false then IsPeerAllowed.policyLoop nodeTags peerTags rest
    else
      let srcMap := convAclTagToValueMap policy.Src
      let dstMap := convAclTagToValueMap policy.Dst
      if IsPeerAllowed.tagLoop srcMap dstMap peerTags nodeTags = true then true
      else if IsPeerAllowed.tagLoop srcMap dstMap nodeTags peerTags = true then true
      else IsPeerAllowed.policyLoop nodeTags peerTags rest

/-- `IsPeerAllowed` (lines 573-668). -/
def IsPeerAllowed (w : World) (node peer : Node) (checkDefaultPolicy : Bool) : Bool :=
  let node := staticNormal w node
  let peer := staticNormal w peer
  let nodeTags := snapshotTags node
  let peerTags := snapshotTags peer
  let defaultPolicy := GetDefaultPolicy w node.Network DevicePolicy
  if checkDefaultPolicy = true ∧ defaultPolicy.2 = none ∧ defaultPolicy.1.Enabled = true then
    true
  else
    IsPeerAllowed.policyLoop nodeTags peerTags (listDevicePolicies w peer.Network)

/-- The loop over `nodeTags` in `IsNodeAllowedToCommunicate` (lines 717-753):
the policies it appends.  Every append is followed by `break`. -/
def IsNodeAllowedToCommunicate.nodeLoop (policy : Acl) (srcMap dstMap peerTags : List String) :
    List String → List Acl
  | [] => []
  | tagID :: rest =>
    if policy.AllowedDirection = TrafficDirectionBi ∧ tagID ∈ dstMap ∧ "*" ∈ srcMap then
      [policy]
    else if policy.AllowedDirection = TrafficDirectionBi ∧ tagID ∈ dstMap ∧
        anyTagIn peerTags srcMap = true then
      [policy]
    else if tagID ∈ srcMap ∧ "*" ∈ dstMap then
      [policy]
    else if tagID ∈ srcMap ∧ anyTagIn peerTags dstMap = true then
      [policy]
    else IsNodeAllowedToCommunicate.nodeLoop policy srcMap dstMap peerTags rest

/-- The loop over `peerTags` in `IsNodeAllowedToCommunicate` (lines 754-792):
the policies it appends.  Every append is followed by `break`. -/
def IsNodeAllowedToCommunicate.peerLoop (policy : Acl) (srcMap dstMap nodeTags : List String) :
    List String → List Acl
  | [] => []
  | tagID :: rest =>
    if tagID ∈ dstMap ∧ "*" ∈ srcMap then
      [policy]
    else if tagID ∈ dstMap ∧ anyTagIn nodeTags srcMap = true then
      [policy]
    else if policy.AllowedDirection = TrafficDirectionBi ∧ tagID ∈ srcMap ∧ "*" ∈ dstMap then
      [policy]
    else if policy.AllowedDirection = TrafficDirectionBi ∧ tagID ∈ srcMap ∧
        anyTagIn nodeTags dstMap = true then
      [policy]
    else IsNodeAllowedToCommunicate.peerLoop policy srcMap dstMap nodeTags rest

/-- The loop of `IsNodeAllowedToCommunicate` over the device policies (lines
711-793): the policies appended to `allowedPolicies`, in order. -/
def IsNodeAllowedToCommunicate.policyLoop (nodeTags peerTags : List String) :
    List Acl → List Acl
  | [] => []
  | policy :: rest =>
    if policy.Enabled = false then
      IsNodeAllowedToCommunicate.policyLoop nodeTags peerTags rest
    else
      let srcMap := convAclTagToValueMap policy.Src
      let dstMap := convAclTagToValueMap policy.Dst
      IsNodeAllowedToCommunicate.nodeLoop policy srcMap dstMap peerTags nodeTags ++
        (IsNodeAllowedToCommunicate.peerLoop policy srcMap dstMap nodeTags peerTags ++
          IsNodeAllowedToCommunicate.policyLoop nodeTags peerTags rest)

/-- `IsNodeAllowedToCommunicate` (lines 671-799). -/
def IsNodeAllowedToCommunicate (w : World) (node peer : Node) (checkDefaultPolicy : Bool) :
    Bool × List Acl :=
  let node := staticNormal w node
  let peer := staticNormal w peer
  let nodeTags := snapshotTags node
  let peerTags := snapshotTags peer
  let defaultPolicy := GetDefaultPolicy w node.Network DevicePolicy
  if checkDefaultPolicy = true ∧ defaultPolicy.2 = none ∧ defaultPolicy.1.Enabled = true then
    (true, [defaultPolicy.1])
  else
    let allowedPolicies :=
      IsNodeAllowedToCommunicate.policyLoop nodeTags peerTags
        (listDevicePolicies w peer.Network)
    if allowedPolicies.length > 0 then (true, allowedPolicies)
    else (false, allowedPolicies)

/-- The loop of `IsUserAllowedToCommunicate` over the user's policies (lines
549-565): the policies appended to `allowedPolicies`, in order. -/
def IsUserAllowedToCommunicate.policyLoop (peerTags : List String) : List Acl → List Acl
  | [] => []
  | policy :: rest =>
    if policy.Enabled = false then IsUserAllowedToCommunicate.policyLoop peerTags rest
    else
      let dstMap := convAclTagToValueMap policy.Dst
      if "*" ∈ dstMap then
        policy :: IsUserAllowedToCommunicate.policyLoop peerTags rest
      else if anyTagIn peerTags dstMap = true then
        policy :: IsUserAllowedToCommunicate.policyLoop peerTags rest
      else IsUserAllowedToCommunicate.policyLoop peerTags rest

/-- `IsUserAllowedToCommunicate` (lines 535-570). -/
def IsUserAllowedToCommunicate (w : World) (userName : String) (peer : Node) :
    Bool × List Acl :=
  let peer := staticNormal w peer
  let acl := (GetDefaultPolicy w peer.Network UserPolicy).1
  if acl.Enabled = true then (true, [acl])
  else
    match w.GetUser userName with
    | none => (false, [])
    | some user =>
      let allowedPolicies :=
        IsUserAllowedToCommunicate.policyLoop peer.Tags
          (listPoliciesOfUser w user peer.Network)
      if allowedPolicies.length > 0 then (true, allowedPolicies)
      else (false, [])

/-! ## Scenario data

The literal scenarios S1, S2 and S4 of the specification, used to evaluate the
evaluator on concrete inputs. -/

/-- A static client that is not attached to any node. -/
def noClient : ExtClient :=
  { ClientID := "", Network := "", OwnerID := "", Enabled := false,
    Address := "", Address6 := "", Tags := [] }

/-- The node a static client is turned into: it lives in the client's
network and carries the client's tags. -/
def clientNode (c : ExtClient) : Node :=
  { ID := c.ClientID, Network := c.Network, Tags := c.Tags, IsStatic := true,
    IsIngressGateway := false, StaticNode := c, Mutex := false }

/-- A plain (non-static) node with the given tags. -/
def plainNode (id net : String) (tags : List String) : Node :=
  { ID := id, Network := net, Tags := tags, IsStatic := false,
    IsIngressGateway := false, StaticNode := noClient, Mutex := false }

/-- A policy with the given ID, network, rule type, direction, enabled flag
and `Src`/`Dst` lists; the remaining fields as the seeding code sets them. -/
def mkAcl (id net ruleType : String) (dir : Int) (enabled : Bool)
    (src dst : List AclPolicyTag) : Acl :=
  { ID := id, Default := false, MetaData := "", Name := id, NetworkID := net,
    RuleType := ruleType, Src := src, Dst := dst, Proto := "ALL",
    ServiceType := "Any", Port := [], AllowedDirection := dir, Enabled := enabled,
    CreatedBy := "auto", CreatedAt := 0 }

/-- The seeded default device policy `netA.all-nodes` with the given enabled
flag (lines 43-67). -/
def allNodes (enabled : Bool) : Acl :=
  { mkAcl "netA.all-nodes" "netA" DevicePolicy TrafficDirectionBi enabled
      [⟨DeviceAclID, "*"⟩] [⟨DeviceAclID, "*"⟩] with Default := true }

/-- The seeded default user policy `netA.all-users` with the given enabled
flag (lines 71-95). -/
def allUsers (enabled : Bool) : Acl :=
  { mkAcl "netA.all-users" "netA" UserPolicy TrafficDirectionUni enabled
      [⟨UserAclID, "*"⟩] [⟨DeviceAclID, "*"⟩] with Default := true }

/-- The policy `netA.webdb` of scenario S2: device, unidirectional,
`web -> db`. -/
def webdb : Acl :=
  mkAcl "netA.webdb" "netA" DevicePolicy TrafficDirectionUni true
    [⟨DeviceAclID, "web"⟩] [⟨DeviceAclID, "db"⟩]

/-- The policy `netA.eng-db` of scenario S4: user policy, group `eng` to tag
`db`. -/
def engdb : Acl :=
  mkAcl "netA.eng-db" "netA" UserPolicy TrafficDirectionUni true
    [⟨UserGroupAclID, "eng"⟩] [⟨DeviceAclID, "db"⟩]

/-- The node `N1` of the scenarios: tag `db`. -/
def N1 : Node := plainNode "N1" "netA" ["db"]

/-- The node `N2` of the scenarios: tag `web`. -/
def N2 : Node := plainNode "N2" "netA" ["web"]

/-- The user registry of scenario S4: `alice` is in group `eng`, `bob` is in
no group, nobody else exists. -/
def usersS4 (name : String) : Option User :=
  if name = "alice" then
    some { UserName := "alice", PlatformRoleID := "service-user", NetworkRoles := [],
           UserGroups := ["eng"] }
  else if name = "bob" then
    some { UserName := "bob", PlatformRoleID := "service-user", NetworkRoles := [],
           UserGroups := [] }
  else none

/-- The observation of a registry that holds the records `acls`, each under
its own ID: `ListAcls` yields them and `GetAcl` finds a record by its ID.
Users are those of scenario S4. -/
def storeView (acls : List Acl) : World :=
  { ListAcls := acls,
    GetAcl := fun aID => acls.find? (fun a => decide (a.ID = aID)),
    GetUser := usersS4,
    ConvertToStaticNode := clientNode }

/-- Scenario S1: the seeded defaults of `netA`, both enabled. -/
def worldS1 : World := storeView [allNodes true, allUsers true]

/-- Scenario S2 (with the user policy of S4): `all-nodes` and `all-users`
disabled, `webdb` and `eng-db` added. -/
def worldS2 : World := storeView [allNodes false, allUsers false, webdb, engdb]

/-- A node of another network, `netB`, with tag `web`. -/
def NB : Node := plainNode "NB" "netB" ["web"]

/-- A store in which the canonical default user policy is disabled and a
custom enabled user policy `netA.any-user` has the wildcard on both sides. -/
def worldCustomAll : World :=
  storeView [allUsers false,
    mkAcl "netA.any-user" "netA" UserPolicy TrafficDirectionUni true
      [⟨UserAclID, "*"⟩] [⟨DeviceAclID, "*"⟩]]

/-! ## Reading the loops as predicates -/

/-- Some tag of `tags` is the `Value` of an entry of `entries`. -/
def hitsEntries (tags : List String) (entries : List AclPolicyTag) : Prop :=
  ∃ t ∈ tags, ∃ e ∈ entries, e.Value = t

/-- The wildcard `"*"` is the `Value` of an entry of `entries`. -/
def hasWildcard (entries : List AclPolicyTag) : Prop :=
  ∃ e ∈ entries, e.Value = "*"

/-- The match that `IsNodeAllowedToCommunicate` accepts for every direction:
the node side meets `Src` and the peer side meets `Dst`, where at least one
of the two is met by a tag and the other by a tag or by the wildcard. -/
def forwardMatch (policy : Acl) (nodeTags peerTags : List String) : Prop :=
  (hitsEntries nodeTags policy.Src ∧
      (hasWildcard policy.Dst ∨ hitsEntries peerTags policy.Dst)) ∨
    (hitsEntries peerTags policy.Dst ∧
      (hasWildcard policy.Src ∨ hitsEntries nodeTags policy.Src))

/-- The match the other way round: the node side meets `Dst` and the peer
side meets `Src`. -/
def reverseMatch (policy : Acl) (nodeTags peerTags : List String) : Prop :=
  forwardMatch policy peerTags nodeTags

/-- The match `IsPeerAllowed` tests on one policy: a tag of one party is in
`Dst` and the `Src` side is met by the wildcard or by a tag of the other
party, or a tag of one party is in `Src` and the `Dst` side is met likewise. -/
def peerMatch (policy : Acl) (nodeTags peerTags : List String) : Prop :=
  forwardMatch policy nodeTags peerTags ∨ reverseMatch policy nodeTags peerTags

/-- The match of `IsPeerAllowed` as the specification words it (section
4.4): one party meets `Src` by a tag or by the wildcard and the other party
meets `Dst` by a tag or by the wildcard, for one of the two assignments. -/
def specPeerMatch (policy : Acl) (nodeTags peerTags : List String) : Prop :=
  ((hitsEntries nodeTags policy.Src ∨ hasWildcard policy.Src) ∧
      (hitsEntries peerTags policy.Dst ∨ hasWildcard policy.Dst)) ∨
    ((hitsEntries peerTags policy.Src ∨ hasWildcard policy.Src) ∧
      (hitsEntries nodeTags policy.Dst ∨ hasWildcard policy.Dst))

instance hitsEntries.decidable (tags : List String) (entries : List AclPolicyTag) :
    Decidable (hitsEntries tags entries) :=
  inferInstanceAs (Decidable (∃ t ∈ tags, ∃ e ∈ entries, e.Value = t))

instance hasWildcard.decidable (entries : List AclPolicyTag) :
    Decidable (hasWildcard entries) :=
  inferInstanceAs (Decidable (∃ e ∈ entries, e.Value = "*"))

instance forwardMatch.decidable (policy : Acl) (nodeTags peerTags : List String) :
    Decidable (forwardMatch policy nodeTags peerTags) :=
  inferInstanceAs (Decidable (_ ∨ _))

instance reverseMatch.decidable (policy : Acl) (nodeTags peerTags : List String) :
    Decidable (reverseMatch policy nodeTags peerTags) :=
  inferInstanceAs (Decidable (forwardMatch policy peerTags nodeTags))

/-- The `Src` of a policy names the user: by username, by a key of the
user's network-role map, or by one of the user's groups. -/
def srcNamesUser (policy : Acl) (user : User) : Prop :=
  (∃ e ∈ policy.Src, e.Value = user.UserName) ∨
    hitsEntries user.NetworkRoles policy.Src ∨ hitsEntries user.UserGroups policy.Src

/-- An enabled user policy of network `netID` that names the user in `Src`
and reaches the peer in `Dst`, by the wildcard or by one of the peer's tags. -/
def userPolicyGrants (policy : Acl) (user : User) (netID : String)
    (peerTags : List String) : Prop :=
  policy.NetworkID = netID ∧ policy.RuleType = UserPolicy ∧ policy.Enabled = true ∧
    srcNamesUser policy user ∧
    (hasWildcard policy.Dst ∨ hitsEntries peerTags policy.Dst)

/-! ## Validation (`IsAclPolicyValid`, `ValidateCreateAclReq`) -/

/-- The record `models.UserGroup` as far as the files read it: its ID and the
key list of `NetworkRoles` with, for each network, the role IDs. -/
structure UserGroup where
  ID : String
  NetworkRoles : List (String × List String)
deriving DecidableEq, Repr

/-- The lookups the validation calls, none of which is in the files at hand:
`GetUser`, `GetTag`, `GetUserGroup` and `GetNetwork` (`none` for an error) and
the key set of `GetUserGroupsInNetwork`. -/
structure Directory where
  GetUser : String → Option User
  GetTag : String → Option Unit
  GetUserGroup : String → Option UserGroup
  GetUserGroupsInNetwork : String → List String
  GetNetwork : String → Option Unit

/-- `IsGroupValid` (`pro/logic/user_mgmt.go`, lines 473-481): the error, if
any. -/
def IsGroupValid (d : Directory) (groupID : String) : Option String :=
  match d.GetUserGroup groupID with
  | none => some ("user group `" ++ groupID ++ "` not found")
  | some _ => none

/-- The loop over `acl.Src` of a user policy (lines 237-267): false when it
executes a `return false`, true when it runs to its end. -/
def IsAclPolicyValid.userSrc (d : Directory) (netID : String) : List AclPolicyTag → Bool
  | [] => true
  | srcI :: rest =>
    if srcI.ID = "" ∨ srcI.Value = "" then false
    else if srcI.Value = "*" then IsAclPolicyValid.userSrc d netID rest
    else if srcI.ID ≠ UserAclID ∧ srcI.ID ≠ UserGroupAclID then false
    else if srcI.ID = UserAclID then
      match d.GetUser srcI.Value with
      | none => false
      | some _ => IsAclPolicyValid.userSrc d netID rest
    else if srcI.ID = UserGroupAclID then
      match IsGroupValid d srcI.Value with
      | some _ => false
      | none =>
        if srcI.Value ∈ d.GetUserGroupsInNetwork netID then
          IsAclPolicyValid.userSrc d netID rest
        else false
    else IsAclPolicyValid.userSrc d netID rest

/-- The loop over a list of device entries: `acl.Dst` of a user policy (lines
268-284), `acl.Src` (lines 286-301) and `acl.Dst` (lines 302-318) of a device
policy, three copies of one text.  False when it executes a `return false`. -/
def IsAclPolicyValid.deviceEntries (d : Directory) : List AclPolicyTag → Bool
  | [] => true
  | dstI :: rest =>
    if dstI.ID = "" ∨ dstI.Value = "" then false
    else if dstI.ID ≠ DeviceAclID then false
    else if dstI.Value = "*" then IsAclPolicyValid.deviceEntries d rest
    else
      match d.GetTag dstI.Value with
      | none => false
      | some _ => IsAclPolicyValid.deviceEntries d rest

/-- `IsAclPolicyValid` (lines 228-321). -/
def IsAclPolicyValid (d : Directory) (acl : Acl) : Bool :=
  if acl.AllowedDirection ≠ TrafficDirectionBi ∧
      acl.AllowedDirection ≠ TrafficDirectionUni then false
  else if acl.RuleType = UserPolicy then
    if IsAclPolicyValid.userSrc d acl.NetworkID acl.Src = false then false
    else if IsAclPolicyValid.deviceEntries d acl.Dst = false then false
    else true
  else if acl.RuleType = DevicePolicy then
    if IsAclPolicyValid.deviceEntries d acl.Src = false then false
    else if IsAclPolicyValid.deviceEntries d acl.Dst = false then false
    else true
  else true

/-- `ValidateCreateAclReq` (lines 142-153): the error, `none` for nil. -/
def ValidateCreateAclReq (d : Directory) (req : Acl) : Option String :=
  match d.GetNetwork req.NetworkID with
  | none => some ("failed to get network details for " ++ req.NetworkID)
  | some _ => none

/-- The rule-type constraint of the data model on one policy: a user policy
has `Src` entries of class `UserAclID` or `UserGroupAclID` and `Dst` entries
of class `DeviceAclID`; a device policy has entries of class `DeviceAclID` on
both sides. -/
def ruleTypeConstraint (p : Acl) : Prop :=
  (p.RuleType = UserPolicy →
    (∀ e ∈ p.Src, e.ID = UserAclID ∨ e.ID = UserGroupAclID) ∧
      (∀ e ∈ p.Dst, e.ID = DeviceAclID)) ∧
  (p.RuleType = DevicePolicy →
    (∀ e ∈ p.Src, e.ID = DeviceAclID) ∧ (∀ e ∈ p.Dst, e.ID = DeviceAclID))

/-- A device entry that the validation accepts: non-empty `Value`, class
`DeviceAclID`, and the wildcard or a tag that `GetTag` finds. -/
def deviceEntryOk (d : Directory) (e : AclPolicyTag) : Prop :=
  e.Value ≠ "" ∧ e.ID = DeviceAclID ∧ (e.Value = "*" ∨ (d.GetTag e.Value).isSome = true)

instance deviceEntryOk.decidable (d : Directory) (e : AclPolicyTag) :
    Decidable (deviceEntryOk d e) :=
  inferInstanceAs (Decidable (_ ∧ _ ∧ _))

/-- The directory of the scenarios: network `netA`, tags `web` and `db`, the
users of scenario S4, group `eng` in `netA`. -/
def directoryS : Directory :=
  { GetUser := usersS4,
    GetTag := fun t => if t = "web" ∨ t = "db" then some () else none,
    GetUserGroup := fun g => if g = "eng" then some { ID := "eng", NetworkRoles := [] } else none,
    GetUserGroupsInNetwork := fun n => if n = "netA" then ["eng"] else [],
    GetNetwork := fun n => if n = "netA" then some () else none }

/-- A user policy whose only `Src` entry is the wildcard under the device
class. -/
def wildSrcUserPolicy : Acl :=
  mkAcl "netA.any-to-db" "netA" UserPolicy TrafficDirectionUni true
    [⟨DeviceAclID, "*"⟩] [⟨DeviceAclID, "db"⟩]

/-- The policy `webdb` with a direction that is neither `Uni` nor `Bi`. -/
def webdbBadDirection : Acl := { webdb with AllowedDirection := 7 }

/-! ## The policy registry: database table and cache -/

/-- Modelled from the spec: `models.ALL`, the protocol value of a policy that
covers every protocol. -/
def ALL : String := "ALL"

/-- Modelled from the spec: `models.Any`, the service type that stands for any
service. -/
def Any : String := "Any"

/-- Modelled from the spec: `models.RemoteAccessTagName`, the tag of the
remote-access gateways of a network. -/
def RemoteAccessTagName : String := "remote-access-gws"

/-- Modelled from the spec: `models.NetworkAdmin`, which names the default
group policy `<net>.NetworkAdmin-grp`. -/
def NetworkAdmin : String := "NetworkAdmin"

/-- Modelled from the spec: `models.NetworkUser`, which names the default
group policy `<net>.NetworkUser-grp`. -/
def NetworkUser : String := "NetworkUser"

/-- Modelled from the spec: the error kinds of the key/value store, the
distinguished `EmptyRecord` kind (`database.IsEmptyRecord`) and the backend
I/O failure. -/
inductive StoreError where
  | EmptyRecord
  | Backend (msg : String)
deriving DecidableEq, Repr

/-- A Go map from string keys, as an association list; the first pair with a
key holds its value. -/
def mapGet {α : Type} (m : List (String × α)) (k : String) : Option α :=
  (m.find? (fun kv => decide (kv.1 = k))).map (fun kv => kv.2)

/-- The assignment `m[k] = v`. -/
def mapSet {α : Type} (m : List (String × α)) (k : String) (v : α) : List (String × α) :=
  m.filter (fun kv => decide (kv.1 ≠ k)) ++ [(k, v)]

/-- The statement `delete(m, k)`. -/
def mapDelete {α : Type} (m : List (String × α)) (k : String) : List (String × α) :=
  m.filter (fun kv => decide (kv.1 ≠ k))

/-- The state the registry works on: the configuration switch
`servercfg.CacheEnabled()`, the cache `aclCacheMap`, the table
`ACLS_TABLE_NAME` of the store, and the I/O error the backend currently
answers with, if it is failing.  A record of the table is kept as the `Acl` it
decodes to: `json.Marshal` does not fail on this record type and
`json.Unmarshal` is taken to invert it. -/
structure Registry where
  CacheEnabled : Bool
  aclCacheMap : List (String × Acl)
  aclsTable : List (String × Acl)
  fault : Option String
deriving DecidableEq, Repr

/-- Modelled from the spec: `database.Insert(key, value, ACLS_TABLE_NAME)`
writes the record under the key, replacing what was there; a failing backend
returns its error and writes nothing. -/
def database.Insert (s : Registry) (key : String) (value : Acl) :
    Option StoreError × Registry :=
  match s.fault with
  | some msg => (some (StoreError.Backend msg), s)
  | none => (none, { s with aclsTable := mapSet s.aclsTable key value })

/-- Modelled from the spec: `database.FetchRecord(ACLS_TABLE_NAME, key)`
returns the record under the key and fails with the `EmptyRecord` kind when
the key is absent; a failing backend returns its error. -/
def database.FetchRecord (s : Registry) (key : String) : Except StoreError Acl :=
  match s.fault with
  | some msg => Except.error (StoreError.Backend msg)
  | none =>
    match mapGet s.aclsTable key with
    | none => Except.error StoreError.EmptyRecord
    | some a => Except.ok a

/-- Modelled from the spec: `database.FetchRecords(ACLS_TABLE_NAME)` returns
all records of the table, the `EmptyRecord` kind when there is none; a failing
backend returns its error. -/
def database.FetchRecords (s : Registry) : Except StoreError (List (String × Acl)) :=
  match s.fault with
  | some msg => Except.error (StoreError.Backend msg)
  | none =>
    if s.aclsTable = [] then Except.error StoreError.EmptyRecord
    else Except.ok s.aclsTable

/-- Modelled from the spec: `database.DeleteRecord(ACLS_TABLE_NAME, key)`
removes the record under the key; a failing backend returns its error and
removes nothing. -/
def database.DeleteRecord (s : Registry) (key : String) : Option StoreError × Registry :=
  match s.fault with
  | some msg => (some (StoreError.Backend msg), s)
  | none => (none, { s with aclsTable := mapDelete s.aclsTable key })

/-- `listAclFromCache` (lines 155-162). -/
def Registry.listAclFromCache (s : Registry) : List Acl :=
  s.aclCacheMap.map (fun kv => kv.2)

/-- `storeAclInCache` (lines 164-169). -/
def Registry.storeAclInCache (s : Registry) (a : Acl) : Registry :=
  { s with aclCacheMap := mapSet s.aclCacheMap a.ID a }

/-- `removeAclFromCache` (lines 171-175). -/
def Registry.removeAclFromCache (s : Registry) (a : Acl) : Registry :=
  { s with aclCacheMap := mapDelete s.aclCacheMap a.ID }

/-- `getAclFromCache` (lines 177-182). -/
def Registry.getAclFromCache (s : Registry) (aID : String) : Option Acl :=
  mapGet s.aclCacheMap aID

/-- `InsertAcl` (lines 185-195): the error and the state it leaves. -/
def Registry.InsertAcl (s : Registry) (a : Acl) : Option StoreError × Registry :=
  let r := database.Insert s a.ID a
  if r.1 = none ∧ s.CacheEnabled = true then (r.1, r.2.storeAclInCache a)
  else r

/-- `GetAcl` (lines 198-219): the result pair and the state it leaves. -/
def Registry.GetAcl (s : Registry) (aID : String) :
    (Acl × Option StoreError) × Registry :=
  match (if s.CacheEnabled = true then s.getAclFromCache aID else none) with
  | some a => ((a, none), s)
  | none =>
    match database.FetchRecord s aID with
    | Except.error err => ((Acl.zero, some err), s)
    | Except.ok a =>
      if s.CacheEnabled = true then ((a, none), s.storeAclInCache a)
      else ((a, none), s)

/-- `IsAclExists` (lines 222-225), on the registry state. -/
def Registry.IsAclExists (s : Registry) (aclID : String) : Bool × Registry :=
  let r := s.GetAcl aclID
  (decide (r.1.2 = none), r.2)

/-- The value `UpdateAcl` writes (lines 325-338): `acl` after the field
assignments. -/
def UpdateAcl.written (newAcl acl : Acl) : Acl :=
  let acl1 :=
    if acl.Default = false then
      { acl with Name := newAcl.Name, Src := newAcl.Src, Dst := newAcl.Dst,
                 AllowedDirection := newAcl.AllowedDirection, Port := newAcl.Port,
                 Proto := newAcl.Proto, ServiceType := newAcl.ServiceType }
    else acl
  let acl2 :=
    if newAcl.ServiceType = Any then { acl1 with Port := [], Proto := ALL }
    else acl1
  { acl2 with Enabled := newAcl.Enabled }

/-- `UpdateAcl` (lines 324-348). -/
def Registry.UpdateAcl (s : Registry) (newAcl acl : Acl) : Option StoreError × Registry :=
  let acl := UpdateAcl.written newAcl acl
  let r := database.Insert s acl.ID acl
  if r.1 = none ∧ s.CacheEnabled = true then (r.1, r.2.storeAclInCache acl)
  else r

/-- `UpsertAcl` (lines 351-361). -/
def Registry.UpsertAcl (s : Registry) (acl : Acl) : Option StoreError × Registry :=
  let r := database.Insert s acl.ID acl
  if r.1 = none ∧ s.CacheEnabled = true then (r.1, r.2.storeAclInCache acl)
  else r

/-- `DeleteAcl` (lines 364-370). -/
def Registry.DeleteAcl (s : Registry) (a : Acl) : Option StoreError × Registry :=
  let r := database.DeleteRecord s a.ID
  if r.1 = none ∧ s.CacheEnabled = true then (r.1, r.2.removeAclFromCache a)
  else r

/-- The loop of `ListAcls` over the fetched records (lines 421-431): the
decoded policies and the state after the cache stores. -/
def Registry.ListAcls.loop : Registry → List (String × Acl) → List Acl × Registry
  | s, [] => ([], s)
  | s, dataI :: rest =>
    let s1 := if s.CacheEnabled = true then s.storeAclInCache dataI.2 else s
    let r := Registry.ListAcls.loop s1 rest
    (dataI.2 :: r.1, r.2)

/-- `ListAcls` (lines 412-433), on the registry state. -/
def Registry.ListAcls (s : Registry) : List Acl × Registry :=
  if s.CacheEnabled = true ∧ s.aclCacheMap.length > 0 then (s.listAclFromCache, s)
  else
    match database.FetchRecords s with
    | Except.error StoreError.EmptyRecord => ([], s)
    | Except.error (StoreError.Backend _) => ([], s)
    | Except.ok data => Registry.ListAcls.loop s data

/-- `ListAclsByNetwork` (lines 514-524), on the registry state. -/
def Registry.ListAclsByNetwork (s : Registry) (netID : String) : List Acl × Registry :=
  let r := s.ListAcls
  (r.1.filter (fun acl => decide (acl.NetworkID = netID)), r.2)

/-- The policy `<net>.all-nodes` that the seeding inserts (lines 43-67);
`now` is the value of `time.Now().UTC()`. -/
def defaultDeviceAcl (netID : String) (now : Nat) : Acl :=
  { ID := netID ++ "." ++ "all-nodes", Name := "All Nodes",
    MetaData := "This Policy allows all nodes in the network to communicate with each other",
    Default := true, NetworkID := netID, Proto := ALL, ServiceType := Any, Port := [],
    RuleType := DevicePolicy, Src := [⟨DeviceAclID, "*"⟩], Dst := [⟨DeviceAclID, "*"⟩],
    AllowedDirection := TrafficDirectionBi, Enabled := true, CreatedBy := "auto",
    CreatedAt := now }

/-- The policy `<net>.all-users` that the seeding inserts (lines 71-95). -/
def defaultUserAcl (netID : String) (now : Nat) : Acl :=
  { ID := netID ++ "." ++ "all-users", Default := true, Name := "All Users",
    MetaData := "This policy gives access to everything in the network for an user",
    NetworkID := netID, Proto := ALL, ServiceType := Any, Port := [],
    RuleType := UserPolicy, Src := [⟨UserAclID, "*"⟩], Dst := [⟨DeviceAclID, "*"⟩],
    AllowedDirection := TrafficDirectionUni, Enabled := true, CreatedBy := "auto",
    CreatedAt := now }

/-- The policy `<net>.all-remote-access-gws` that the seeding inserts (lines
100-125). -/
def defaultGwAcl (netID : String) (now : Nat) : Acl :=
  { ID := netID ++ "." ++ "all-remote-access-gws", Default := true,
    Name := "All Remote Access Gateways", MetaData := "", NetworkID := netID,
    Proto := ALL, ServiceType := Any, Port := [], RuleType := DevicePolicy,
    Src := [⟨DeviceAclID, netID ++ "." ++ RemoteAccessTagName⟩],
    Dst := [⟨DeviceAclID, "*"⟩], AllowedDirection := TrafficDirectionBi,
    Enabled := true, CreatedBy := "auto", CreatedAt := now }

/-- The group policy `<net>.<role>-grp` that `CreateDefaultUserPolicies`
inserts (`pro/logic/user_mgmt.go`, lines 633-653 for `NetworkAdmin`, lines
658-678 for `NetworkUser`); the fields it does not set have their zero
value. -/
def defaultGroupAcl (netID role : String) (now : Nat) : Acl :=
  { ID := netID ++ "." ++ role ++ "-grp", Name := role ++ "-grp", MetaData := "",
    Default := true, NetworkID := netID, RuleType := UserPolicy,
    Src := [⟨UserGroupAclID, netID ++ "-" ++ role ++ "-grp"⟩],
    Dst := [⟨DeviceAclID, netID ++ "." ++ RemoteAccessTagName⟩],
    Proto := "", ServiceType := "", Port := [],
    AllowedDirection := TrafficDirectionUni, Enabled := true, CreatedBy := "auto",
    CreatedAt := now }

/-- The step `if !IsAclExists(id) { InsertAcl(acl) }` of the seeding. -/
def Registry.seed (s : Registry) (aclID : String) (acl : Acl) : Registry :=
  let r := s.IsAclExists aclID
  if r.1 = false then (r.2.InsertAcl acl).2 else r.2

/-- `CreateDefaultUserPolicies` (`pro/logic/user_mgmt.go`, lines 578-681). -/
def Registry.CreateDefaultUserPolicies (s : Registry) (netID : String) (now : Nat) :
    Registry :=
  if netID = "" then s
  else
    let s1 := s.seed (netID ++ "." ++ NetworkAdmin ++ "-grp")
      (defaultGroupAcl netID NetworkAdmin now)
    s1.seed (netID ++ "." ++ NetworkUser ++ "-grp") (defaultGroupAcl netID NetworkUser now)

/-- `CreateDefaultAclNetworkPolicies` (lines 37-129). -/
def Registry.CreateDefaultAclNetworkPolicies (s : Registry) (netID : String) (now : Nat) :
    Registry :=
  if netID = "" then s
  else
    let s0 := (s.ListAclsByNetwork netID).2
    let s1 := s0.seed (netID ++ "." ++ "all-nodes") (defaultDeviceAcl netID now)
    let s2 := s1.seed (netID ++ "." ++ "all-users") (defaultUserAcl netID now)
    let s3 := s2.seed (netID ++ "." ++ "all-remote-access-gws") (defaultGwAcl netID now)
    s3.CreateDefaultUserPolicies netID now

/-- An empty registry with the given cache switch and a working backend. -/
def emptyRegistry (cacheEnabled : Bool) : Registry :=
  { CacheEnabled := cacheEnabled, aclCacheMap := [], aclsTable := [], fault := none }

/-- A registry whose table holds a disabled `netA.all-nodes` and the policy
`webdb`, with a cold cache. -/
def registryS2 (cacheEnabled : Bool) : Registry :=
  { CacheEnabled := cacheEnabled, aclCacheMap := [],
    aclsTable := [("netA.all-nodes", allNodes false), ("netA.webdb", webdb)],
    fault := none }

/-- Every record of the table is stored under its own ID, as all writes of
the registry do it. -/
def Registry.keyed (s : Registry) : Prop :=
  ∀ kv ∈ s.aclsTable, kv.2.ID = kv.1

instance Registry.keyed.decidable (s : Registry) : Decidable s.keyed :=
  inferInstanceAs (Decidable (∀ kv ∈ s.aclsTable, kv.2.ID = kv.1))

/-- An update request with service type `Any` that disables the policy. -/
def disableRequest : Acl :=
  { webdb with ServiceType := Any, Enabled := false }

/-- A registry whose backend fails with `"connection refused"`, with the cache
enabled and holding `webdb`. -/
def failingRegistry : Registry :=
  { CacheEnabled := true, aclCacheMap := [("netA.webdb", webdb)],
    aclsTable := [("netA.webdb", webdb)], fault := some "connection refused" }

/-- A read of `aID` that answers from where `GetAcl` looks first and leaves
the state as it is: from the cache when it is enabled, from the table of a
working backend otherwise. -/
def Registry.hit (s : Registry) (aID : String) : Prop :=
  (s.CacheEnabled = true ∧ (mapGet s.aclCacheMap aID).isSome = true) ∨
    (s.CacheEnabled = false ∧ s.fault = none ∧ (mapGet s.aclsTable aID).isSome = true)

/-- A policy ID that `GetAcl` can find: in the cache when it is enabled, or in
the table of a working backend. -/
def Registry.holds (s : Registry) (aID : String) : Prop :=
  (s.CacheEnabled = true ∧ (mapGet s.aclCacheMap aID).isSome = true) ∨
    (s.fault = none ∧ (mapGet s.aclsTable aID).isSome = true)

/-! ## Go's `net` and `sort`, as far as the rule compiler uses them -/

/-- The prefix of an IPv4 address in its 16-byte form (`v4InV6Prefix`). -/
def v4InV6Prefix : List Nat := [0, 0, 0, 0, 0, 0, 0, 0, 0, 0, 255, 255]

/-- Go's `IP.To16`: the 16-byte form of an address, nil for the nil
address. -/
def IP.To16 (ip : IP) : List Nat :=
  if ip.bytes.length = 4 then v4InV6Prefix ++ ip.bytes
  else if ip.bytes.length = 16 then ip.bytes
  else []

/-- Go's `IP.Equal`: equal byte slices, or an IPv4 address and its 16-byte
form. -/
def IP.Equal (ip x : IP) : Bool :=
  if ip.bytes.length = x.bytes.length then decide (ip.bytes = x.bytes)
  else if ip.bytes.length = 4 ∧ x.bytes.length = 16 then
    decide (x.bytes.take 12 = v4InV6Prefix ∧ ip.bytes = x.bytes.drop 12)
  else if ip.bytes.length = 16 ∧ x.bytes.length = 4 then
    decide (ip.bytes.take 12 = v4InV6Prefix ∧ ip.bytes.drop 12 = x.bytes)
  else false

/-- The number of leading one bits of a mask byte below `0xff` whose other
bits are zero; `none` for a byte of another form. -/
def IPMask.byteOnes (v : Nat) : Option Nat :=
  if v = 0 then some 0 else if v = 128 then some 1 else if v = 192 then some 2
  else if v = 224 then some 3 else if v = 240 then some 4 else if v = 248 then some 5
  else if v = 252 then some 6 else if v = 254 then some 7 else none

/-- Go's `simpleMaskLength`: the number of leading one bits of a mask made of
ones followed by zeros, `none` (the library's `-1`) for another mask. -/
def IPMask.simpleMaskLength : List Nat → Option Nat
  | [] => some 0
  | v :: rest =>
    if v = 255 then (IPMask.simpleMaskLength rest).map (fun n => n + 8)
    else
      match IPMask.byteOnes v with
      | none => none
      | some n => if rest.all (fun b => decide (b = 0)) then some n else none

/-- Go's `IPMask.Size`: the prefix length and the bit length of a mask, `(0,
0)` for a mask that is not of the canonical form. -/
def IPMask.Size (m : List Nat) : Nat × Nat :=
  match IPMask.simpleMaskLength m with
  | none => (0, 0)
  | some ones => (ones, m.length * 8)

/-- `lessIP` (lines 1133-1137): the 16-byte forms compared as Go strings, that
is bytewise in lexicographic order. -/
def lessIP (ip1 ip2 : IP) : Bool :=
  decide (ip1.To16 < ip2.To16)

/-- The comparison function that `sortIPNets` hands to `sort.Slice` (lines
1141-1151). -/
def sortIPNets.less (a b : IPNet) : Bool :=
  let mask1 := (IPMask.Size a.Mask).1
  let mask2 := (IPMask.Size b.Mask).1
  if a.IP.Equal b.IP = true then decide (mask1 < mask2)
  else lessIP a.IP b.IP

/-- The inner loop of the library's insertion sort: `x` moves left past every
element it is less than. -/
def sort.insert {α : Type} (less : α → α → Bool) (x : α) : List α → List α
  | [] => [x]
  | y :: ys => if less x y = true then x :: y :: ys else y :: sort.insert less x ys

/-- Go's `sort.Slice`, as the insertion sort the library runs on short slices;
the order it gives to elements that the comparison does not separate is not
part of the library's contract. -/
def sort.Slice {α : Type} (less : α → α → Bool) (data : List α) : List α :=
  data.foldl (fun sorted x => sort.insert less x sorted) []

/-- `sortIPNets` (lines 1140-1152). -/
def sortIPNets (ipNets : List IPNet) : List IPNet :=
  sort.Slice sortIPNets.less ipNets

/-- `UniqueIPNetList` (lines 1154-1171); `cidr` is Go's `IPNet.String`, the
CIDR notation of a network.  This is the run in which the `range` of line 1166
yields the entries of `uniqueMap` in the order they were inserted and the sort
leaves tied entries in that order; Go fixes neither, and
`UniqueIPNetList.outcome` describes every result the function can return. -/
def UniqueIPNetList (cidr : IPNet → String) (ipnets : List IPNet) : List IPNet :=
  let uniqueMap := ipnets.foldl
    (fun uniqueMap ipnet =>
      if (mapGet uniqueMap (cidr ipnet)).isSome = true then uniqueMap
      else mapSet uniqueMap (cidr ipnet) ipnet) []
  sortIPNets (uniqueMap.map (fun kv => kv.2))

/-- The key `sortIPNets` orders by: the 16-byte form of the address, then the
prefix length, in lexicographic order. -/
def sortKey (n : IPNet) : List Nat ×ₗ Nat :=
  toLex (n.IP.To16, (IPMask.Size n.Mask).1)

/-! ## Rule compiler -/

/-- The record `models.AclRule`. -/
structure AclRule where
  ID : String
  AllowedProtocol : String
  AllowedPorts : List String
  Direction : Int
  Allowed : Bool
  IPList : List IPNet
  IP6List : List IPNet
deriving DecidableEq, Repr

/-- What the rule compiler reads besides the policy list, none of it in the
files at hand: the tag index `GetTagMapWithNodesByNetwork(netID, flag)`, as the
lookup of a tag in the map it returns; `GetStaticUserNodesByNetwork`;
`GetUserGrpMap`, as the lookup of a group, `none` for an absent key; the
methods `AddressIPNet4` and `AddressIPNet6` of a node and of a static client;
and Go's `IPNet.String`. -/
structure Index where
  GetTagMapWithNodesByNetwork : String → Bool → String → List Node
  GetStaticUserNodesByNetwork : String → List Node
  GetUserGrpMap : String → Option (List String)
  NodeAddressIPNet4 : Node → IPNet
  NodeAddressIPNet6 : Node → IPNet
  ClientAddressIPNet4 : ExtClient → IPNet
  ClientAddressIPNet6 : ExtClient → IPNet
  cidr : IPNet → String

/-- The loop over the nodes of a tag that `GetAclRulesForNode` contains four
times (lines 1026-1042, 1053-1069, 1074-1090, 1102-1118): the addresses of
every node other than the target are appended to the rule. -/
def GetAclRulesForNode.addNodes (ix : Index) (targetID : String) :
    AclRule → List Node → AclRule
  | aclRule, [] => aclRule
  | aclRule, node :: rest =>
    if node.ID = targetID then GetAclRulesForNode.addNodes ix targetID aclRule rest
    else
      let r1 :=
        if node.Address.IP.bytes ≠ [] then
          { aclRule with IPList := aclRule.IPList ++ [ix.NodeAddressIPNet4 node] }
        else aclRule
      let r2 :=
        if node.Address6.IP.bytes ≠ [] then
          { r1 with IP6List := r1.IP6List ++ [ix.NodeAddressIPNet6 node] }
        else r1
      let r3 :=
        if node.IsStatic = true ∧ node.StaticNode.Address ≠ "" then
          { r2 with IPList := r2.IPList ++ [ix.ClientAddressIPNet4 node.StaticNode] }
        else r2
      let r4 :=
        if node.IsStatic = true ∧ node.StaticNode.Address6 ≠ "" then
          { r3 with IP6List := r3.IP6List ++ [ix.ClientAddressIPNet6 node.StaticNode] }
        else r3
      GetAclRulesForNode.addNodes ix targetID r4 rest

/-- The loop over the tags of one side of a policy (lines 1020-1043,
1047-1070, 1096-1119): the tag under inspection is skipped, the nodes of every
other tag are added. -/
def GetAclRulesForNode.addTags (ix : Index) (taggedNodes : String → List Node)
    (targetID nodeTag : String) : AclRule → List String → AclRule
  | aclRule, [] => aclRule
  | aclRule, tag :: rest =>
    if tag = nodeTag then
      GetAclRulesForNode.addTags ix taggedNodes targetID nodeTag aclRule rest
    else
      GetAclRulesForNode.addTags ix taggedNodes targetID nodeTag
        (GetAclRulesForNode.addNodes ix targetID aclRule (taggedNodes tag)) rest

/-- The rule computed for one tag of the target and one enabled policy (lines
998-1121), before deduplication. -/
def GetAclRulesForNode.rule (ix : Index) (taggedNodes : String → List Node)
    (targetnode : Node) (nodeTag : String) (acl : Acl) : AclRule :=
  let srcTags := convAclTagToValueMap acl.Src
  let dstTags := convAclTagToValueMap acl.Dst
  let aclRule : AclRule :=
    { ID := acl.ID, AllowedProtocol := acl.Proto, AllowedPorts := acl.Port,
      Direction := acl.AllowedDirection, Allowed := true, IPList := [], IP6List := [] }
  if acl.AllowedDirection = TrafficDirectionBi then
    let existsInSrcTag : Bool := decide (nodeTag ∈ srcTags)
    let existsInDstTag : Bool := decide (nodeTag ∈ dstTags)
    let r1 :=
      if existsInSrcTag = true ∧ existsInDstTag = false then
        GetAclRulesForNode.addTags ix taggedNodes targetnode.ID nodeTag aclRule dstTags
      else aclRule
    let r2 :=
      if existsInDstTag = true ∧ existsInSrcTag = false then
        GetAclRulesForNode.addTags ix taggedNodes targetnode.ID nodeTag r1 srcTags
      else r1
    if existsInDstTag = true ∧ existsInSrcTag = true then
      GetAclRulesForNode.addNodes ix targetnode.ID r2 (taggedNodes nodeTag)
    else r2
  else
    let all : Bool := decide ("*" ∈ dstTags)
    if nodeTag ∈ dstTags ∨ all = true then
      GetAclRulesForNode.addTags ix taggedNodes targetnode.ID nodeTag aclRule srcTags
    else aclRule

/-- The body of the loop over the policies (lines 995-1126): a disabled policy
is skipped; a rule with an address is deduplicated and stored under the
policy ID. -/
def GetAclRulesForNode.policyStep (ix : Index) (taggedNodes : String → List Node)
    (targetnode : Node) (nodeTag : String) (rules : List (String × AclRule)) (acl : Acl) :
    List (String × AclRule) :=
  if acl.Enabled = false then rules
  else
    let aclRule := GetAclRulesForNode.rule ix taggedNodes targetnode nodeTag acl
    if aclRule.IPList.length > 0 ∨ aclRule.IP6List.length > 0 then
      mapSet rules acl.ID
        { aclRule with IPList := UniqueIPNetList ix.cidr aclRule.IPList,
                       IP6List := UniqueIPNetList ix.cidr aclRule.IP6List }
    else rules

/-- `allowedUsers[key] = append(allowedUsers[key], acl)`. -/
def getUserAclRulesForNode.allow (allowedUsers : List (String × List Acl)) (key : String)
    (acl : Acl) : List (String × List Acl) :=
  mapSet allowedUsers key ((mapGet allowedUsers key).getD [] ++ [acl])

/-- The body of the loop over `acl.Src` (lines 906-917). -/
def getUserAclRulesForNode.srcStep (ix : Index) (acl : Acl)
    (allowedUsers : List (String × List Acl)) (srcAcl : AclPolicyTag) :
    List (String × List Acl) :=
  if srcAcl.ID = UserAclID then getUserAclRulesForNode.allow allowedUsers srcAcl.Value acl
  else if srcAcl.ID = UserGroupAclID then
    match ix.GetUserGrpMap srcAcl.Value with
    | some usersMap =>
      usersMap.foldl (fun m userName => getUserAclRulesForNode.allow m userName acl)
        allowedUsers
    | none => allowedUsers
  else allowedUsers

/-- The body of the loop over the user policies (lines 899-920). -/
def getUserAclRulesForNode.aclStep (ix : Index) (nodeTag : String)
    (allowedUsers : List (String × List Acl)) (acl : Acl) : List (String × List Acl) :=
  if acl.Enabled = false then allowedUsers
  else if nodeTag ∈ convAclTagToValueMap acl.Dst then
    acl.Src.foldl (getUserAclRulesForNode.srcStep ix acl) allowedUsers
  else allowedUsers

/-- The body of the loop over the policies of a user node's owner (lines
931-962). -/
def getUserAclRulesForNode.ruleStep (ix : Index) (userNode : Node)
    (rules : List (String × AclRule)) (acl : Acl) : List (String × AclRule) :=
  if acl.Enabled = false then rules
  else
    let r : AclRule :=
      { ID := acl.ID, AllowedProtocol := acl.Proto, AllowedPorts := acl.Port,
        Direction := acl.AllowedDirection, Allowed := true, IPList := [], IP6List := [] }
    let r1 :=
      if userNode.StaticNode.Address ≠ "" then
        { r with IPList := r.IPList ++ [ix.ClientAddressIPNet4 userNode.StaticNode] }
      else r
    let r2 :=
      if userNode.StaticNode.Address6 ≠ "" then
        { r1 with IP6List := r1.IP6List ++ [ix.ClientAddressIPNet6 userNode.StaticNode] }
      else r1
    match mapGet rules acl.ID with
    | some aclRule =>
      mapSet rules acl.ID
        { aclRule with
            IPList := UniqueIPNetList ix.cidr (aclRule.IPList ++ r2.IPList),
            IP6List := UniqueIPNetList ix.cidr (aclRule.IP6List ++ r2.IP6List) }
    | none =>
      mapSet rules acl.ID
        { r2 with IPList := UniqueIPNetList ix.cidr r2.IPList,
                  IP6List := UniqueIPNetList ix.cidr r2.IP6List }

/-- The body of the loop over the user nodes (lines 923-963). -/
def getUserAclRulesForNode.nodeStep (ix : Index) (allowedUsers : List (String × List Acl))
    (rules : List (String × AclRule)) (userNode : Node) : List (String × AclRule) :=
  if userNode.StaticNode.Enabled = false then rules
  else
    match mapGet allowedUsers userNode.StaticNode.OwnerID with
    | none => rules
    | some acls => acls.foldl (getUserAclRulesForNode.ruleStep ix userNode) rules

/-- `getUserAclRulesForNode` (lines 884-965). -/
def getUserAclRulesForNode (w : World) (ix : Index) (targetnode : Node)
    (rules : List (String × AclRule)) : List (String × AclRule) :=
  let userNodes := ix.GetStaticUserNodesByNetwork targetnode.Network
  let acls := listUserPolicies w targetnode.Network
  let targetNodeTags := if targetnode.Mutex = true then targetnode.Tags else targetnode.Tags
  let allowedUsers := targetNodeTags.foldl
    (fun allowedUsers nodeTag =>
      acls.foldl (getUserAclRulesForNode.aclStep ix nodeTag) allowedUsers) []
  userNodes.foldl (getUserAclRulesForNode.nodeStep ix allowedUsers) rules

/-- The device-policy pass of `GetAclRulesForNode` (lines 974-1129). -/
def GetAclRulesForNode.devicePass (w : World) (ix : Index) (targetnode : Node) :
    List (String × AclRule) :=
  let taggedNodes :=
    if targetnode.IsIngressGateway = true then
      ix.GetTagMapWithNodesByNetwork targetnode.Network false
    else ix.GetTagMapWithNodesByNetwork targetnode.Network true
  let acls := listDevicePolicies w targetnode.Network
  let tags := if targetnode.Mutex = true then targetnode.Tags else targetnode.Tags
  let targetNodeTags := if "*" ∈ tags then tags else tags ++ ["*"]
  targetNodeTags.foldl
    (fun rules nodeTag =>
      acls.foldl (GetAclRulesForNode.policyStep ix taggedNodes targetnode nodeTag) rules) []

/-- `GetAclRulesForNode` (lines 967-1130): the device-policy pass, followed by
the deferred user-policy pass when the target is not an ingress gateway.  This
is the map a call returns when it returns; `GetAclRulesForNode.run` adds the
run-time panic of line 992 on a target whose `Tags` map is nil. -/
def GetAclRulesForNode (w : World) (ix : Index) (targetnode : Node) :
    List (String × AclRule) :=
  let rules := GetAclRulesForNode.devicePass w ix targetnode
  if targetnode.IsIngressGateway = false then getUserAclRulesForNode w ix targetnode rules
  else rules

/-- A list of networks without two entries of the same CIDR string, in
ascending order of `sortKey`. -/
def uniqueSorted (cidr : IPNet → String) (l : List IPNet) : Prop :=
  (l.map cidr).Nodup ∧ l.Pairwise (fun a b => sortKey a ≤ sortKey b)

/-- A rule whose two address lists are free of repeated CIDR strings and
sorted. -/
def AclRule.listsOk (cidr : IPNet → String) (r : AclRule) : Prop :=
  uniqueSorted cidr r.IPList ∧ uniqueSorted cidr r.IP6List

/-- The IPv4 address `a.b.c.d`. -/
def ip4 (a b c d : Nat) : IP := ⟨[a, b, c, d], Or.inr (Or.inl rfl)⟩

/-- The IPv4 host network `a.b.c.d/32`. -/
def host4 (a b c d : Nat) : IPNet := { IP := ip4 a b c d, Mask := [255, 255, 255, 255] }

/-- The node `N1` of the scenarios with its address `10.0.0.1/32`. -/
def N1addr : Node := { N1 with Address := host4 10 0 0 1 }

/-- The node `N2` of the scenarios with its address `10.0.0.2/32`. -/
def N2addr : Node := { N2 with Address := host4 10 0 0 2 }

/-- The index of the scenarios: `db` holds `N1`, `web` holds `N2`, `"*"` holds
both; there are no user nodes and no groups; a node's IPv4 network is its
address with a 32-bit mask; the CIDR strings of the two addresses are written
out. -/
def indexS : Index :=
  { GetTagMapWithNodesByNetwork := fun _ _ tag =>
      if tag = "*" then [N1addr, N2addr] else if tag = "db" then [N1addr]
      else if tag = "web" then [N2addr] else [],
    GetStaticUserNodesByNetwork := fun _ => [],
    GetUserGrpMap := fun _ => none,
    NodeAddressIPNet4 := fun n => { IP := n.Address.IP, Mask := [255, 255, 255, 255] },
    NodeAddressIPNet6 := fun n =>
      { IP := n.Address6.IP,
        Mask := [255, 255, 255, 255, 255, 255, 255, 255, 255, 255, 255, 255, 255, 255, 255,
          255] },
    ClientAddressIPNet4 := fun _ => IPNet.zero,
    ClientAddressIPNet6 := fun _ => IPNet.zero,
    cidr := fun n =>
      if n = host4 10 0 0 1 then "10.0.0.1/32" else if n = host4 10 0 0 2 then "10.0.0.2/32"
      else "<nil>" }

/-- The rule that scenario S1 expects for `N1` under `netA.all-nodes`. -/
def ruleS1 : AclRule :=
  { ID := "netA.all-nodes", AllowedProtocol := "ALL", AllowedPorts := [],
    Direction := TrafficDirectionBi, Allowed := true,
    IPList := [host4 10 0 0 2], IP6List := [] }

/-- The map that the first loop of `UniqueIPNetList` builds (lines 1155-1162),
started from `m`. -/
def UniqueIPNetList.collect (cidr : IPNet → String) (m : List (String × IPNet))
    (ipnets : List IPNet) : List (String × IPNet) :=
  ipnets.foldl
    (fun uniqueMap ipnet =>
      if (mapGet uniqueMap (cidr ipnet)).isSome = true then uniqueMap
      else mapSet uniqueMap (cidr ipnet) ipnet) m

/-! ## Scenario S3 and a node with two tags -/

/-- The policy `netA.webdb` of scenario S3: as in S2, but bidirectional. -/
def webdbBi : Acl := { webdb with AllowedDirection := TrafficDirectionBi }

/-- Scenario S3: `all-nodes` and `all-users` disabled, the bidirectional
`webdb` and the user policy `eng-db`. -/
def worldS3 : World := storeView [allNodes false, allUsers false, webdbBi, engdb]

/-- A third node `N3` of `netA` with the address `10.0.0.3/32`; `tags` is its
tag set in the order `range` yields it. -/
def N3addr (tags : List String) : Node :=
  { plainNode "N3" "netA" tags with Address := host4 10 0 0 3 }

/-- The index of `netA` with the three nodes: `db` holds `N1` and `N3`, `web`
holds `N2` and `N3`, `"*"` holds all three; the rest as in `indexS`. -/
def indexS3 : Index :=
  { indexS with
    GetTagMapWithNodesByNetwork := fun _ _ tag =>
      if tag = "*" then [N1addr, N2addr, N3addr ["web", "db"]]
      else if tag = "db" then [N1addr, N3addr ["web", "db"]]
      else if tag = "web" then [N2addr, N3addr ["web", "db"]] else [],
    cidr := fun n =>
      if n = host4 10 0 0 1 then "10.0.0.1/32" else if n = host4 10 0 0 2 then "10.0.0.2/32"
      else if n = host4 10 0 0 3 then "10.0.0.3/32" else "<nil>" }

/-- Go's `rules[id].IPList`: the list of the rule under `id`, the nil list when
the map has no such key. -/
def ipListOf (rules : List (String × AclRule)) (id : String) : List IPNet :=
  match mapGet rules id with
  | some r => r.IPList
  | none => []

/-- Go's `rules[id].IP6List`. -/
def ip6ListOf (rules : List (String × AclRule)) (id : String) : List IPNet :=
  match mapGet rules id with
  | some r => r.IP6List
  | none => []

/-- An ingress gateway `GW` of `netA` with the tag `db`. -/
def gatewayS : Node := { plainNode "GW" "netA" ["db"] with IsIngressGateway := true }

/-- An index that answers like `indexS` when it is asked with the flag `true`
and holds no node when it is asked with the flag `false`. -/
def indexFlagged : Index :=
  { indexS with
    GetTagMapWithNodesByNetwork := fun net flag tag =>
      if flag = true then indexS.GetTagMapWithNodesByNetwork net flag tag else [] }

/-- Go's `allowedUsers[key]`: the slice under the key, the nil slice for an
absent key. -/
def getUserAclRulesForNode.allowedOf (allowedUsers : List (String × List Acl))
    (key : String) : List Acl :=
  (mapGet allowedUsers key).getD []

/-- An entry of `Src` names a user (lines 907-916): a `UserAclID` entry whose
value is the user name, or a `UserGroupAclID` entry whose value is a key of the
group map with the user among its members. -/
def getUserAclRulesForNode.names (ix : Index) (srcAcl : AclPolicyTag) (userName : String) :
    Prop :=
  (srcAcl.ID = UserAclID ∧ srcAcl.Value = userName) ∨
    (srcAcl.ID = UserGroupAclID ∧
      ∃ usersMap, ix.GetUserGrpMap srcAcl.Value = some usersMap ∧ userName ∈ usersMap)

/-- The map `allowedUsers` that the first loop of `getUserAclRulesForNode`
builds (lines 888-921). -/
def getUserAclRulesForNode.allowedUsers (w : World) (ix : Index) (targetnode : Node) :
    List (String × List Acl) :=
  targetnode.Tags.foldl
    (fun allowedUsers nodeTag =>
      (listUserPolicies w targetnode.Network).foldl
        (getUserAclRulesForNode.aclStep ix nodeTag) allowedUsers) []

/-- The IPv4 networks that the loop over the nodes of a tag appends for one
node (lines 1030-1032 and 1036-1038): the node's own network when its address
is not nil, then the network of its static client when the node is static and
the client has an address. -/
def Node.prefixes4 (ix : Index) (node : Node) : List IPNet :=
  (if node.Address.IP.bytes ≠ [] then [ix.NodeAddressIPNet4 node] else []) ++
    (if node.IsStatic = true ∧ node.StaticNode.Address ≠ "" then
      [ix.ClientAddressIPNet4 node.StaticNode] else [])

/-- The IPv6 networks appended for one node (lines 1033-1035 and
1039-1041). -/
def Node.prefixes6 (ix : Index) (node : Node) : List IPNet :=
  (if node.Address6.IP.bytes ≠ [] then [ix.NodeAddressIPNet6 node] else []) ++
    (if node.IsStatic = true ∧ node.StaticNode.Address6 ≠ "" then
      [ix.ClientAddressIPNet6 node.StaticNode] else [])

/-- The nodes of a list other than the target (`if node.ID == targetnode.ID {
continue }`). -/
def otherNodes (targetID : String) (nodes : List Node) : List Node :=
  nodes.filter (fun node => decide (node.ID ≠ targetID))

/-- The tag index as `GetAclRulesForNode` fetches it for a target (lines
975-980). -/
def GetAclRulesForNode.taggedNodes (ix : Index) (targetnode : Node) : String → List Node :=
  if targetnode.IsIngressGateway = true then
    ix.GetTagMapWithNodesByNetwork targetnode.Network false
  else ix.GetTagMapWithNodesByNetwork targetnode.Network true

/-- The tags `GetAclRulesForNode` ranges over (lines 984-992): the tags of the
target and the synthetic tag `"*"`. -/
def GetAclRulesForNode.targetNodeTags (targetnode : Node) : List String :=
  if "*" ∈ targetnode.Tags then targetnode.Tags else targetnode.Tags ++ ["*"]

/-- A user client of the user-policy pass contributes to the rule `id`: it is
one of the static user nodes of the target's network, it is enabled, and an
enabled user policy of the network with this ID holds a tag of the target in
`Dst` and names the client's owner in `Src`. -/
def getUserAclRulesForNode.grants (w : World) (ix : Index) (targetnode : Node) (id : String)
    (userNode : Node) : Prop :=
  userNode ∈ ix.GetStaticUserNodesByNetwork targetnode.Network ∧
    userNode.StaticNode.Enabled = true ∧
    ∃ acl ∈ listUserPolicies w targetnode.Network, acl.ID = id ∧ acl.Enabled = true ∧
      hitsEntries targetnode.Tags acl.Dst ∧
      ∃ srcAcl ∈ acl.Src, getUserAclRulesForNode.names ix srcAcl userNode.StaticNode.OwnerID

/-- The client of `alice` in scenario S4, with the address `10.0.0.9`. -/
def aliceClient : ExtClient :=
  { ClientID := "alice-laptop", Network := "netA", OwnerID := "alice", Enabled := true,
    Address := "10.0.0.9", Address6 := "", Tags := [] }

/-- The index of scenario S4: the user node of `alice` is the only static user
node, the group `eng` holds `alice`, and the client's IPv4 network is
`10.0.0.9/32`. -/
def indexS4 : Index :=
  { indexS with
    GetStaticUserNodesByNetwork := fun _ => [clientNode aliceClient],
    GetUserGrpMap := fun g => if g = "eng" then some ["alice"] else none,
    ClientAddressIPNet4 := fun c => if c.Address = "10.0.0.9" then host4 10 0 0 9 else IPNet.zero,
    cidr := fun n =>
      if n = host4 10 0 0 1 then "10.0.0.1/32" else if n = host4 10 0 0 2 then "10.0.0.2/32"
      else if n = host4 10 0 0 9 then "10.0.0.9/32" else "<nil>" }

/-! ## Re-tagging (`UpdateDeviceTag`, `RemoveDeviceTagFromAclPolicies`) -/

/-- `listDevicePolicies` (lines 490-499), on the registry state. -/
def Registry.listDevicePolicies (s : Registry) (netID : String) : List Acl × Registry :=
  let r := s.ListAcls
  (r.1.filter (fun acl => decide (acl.NetworkID = netID ∧ acl.RuleType = DevicePolicy)), r.2)

/-- One of the two inner loops of `UpdateDeviceTag` (lines 813-820 for `Src`,
lines 821-828 for `Dst`): the entries after the assignments
`acl.Src[i].Value = newID.String()` and the value of `update` after the loop. -/
def UpdateDeviceTag.retag (OldID newID : String) :
    Bool → List AclPolicyTag → List AclPolicyTag × Bool
  | update, [] => ([], update)
  | update, tagI :: rest =>
    if tagI.ID = DeviceAclID ∧ OldID = tagI.Value then
      let r := UpdateDeviceTag.retag OldID newID true rest
      ({ tagI with Value := newID } :: r.1, r.2)
    else
      let r := UpdateDeviceTag.retag OldID newID update rest
      (tagI :: r.1, r.2)

/-- The two inner loops of `UpdateDeviceTag` on one policy (lines 813-828): the
policy after the assignments and the value of `update` after them. -/
def UpdateDeviceTag.assign (OldID newID : String) (update : Bool) (acl : Acl) : Acl × Bool :=
  let src := UpdateDeviceTag.retag OldID newID update acl.Src
  let dst := UpdateDeviceTag.retag OldID newID src.2 acl.Dst
  ({ acl with Src := src.1, Dst := dst.1 }, dst.2)

/-- The body of the loop of `UpdateDeviceTag` over the policies (lines
812-832), on the pair of `update` and the registry state.  The variable
`update` is declared before the loop and never reset.  With the cache enabled
the listed record shares its slices with the cached one, so the assignments are
seen in the cache at once; the `UpsertAcl` that follows in the same iteration
stores the same value, and the embedding leaves the cache to it.  When that
`UpsertAcl` fails, the cached record keeps the assignments in the code and not
here: the embedding follows the code on a working backend only. -/
def UpdateDeviceTag.step (OldID newID : String) (st : Bool × Registry) (acl : Acl) :
    Bool × Registry :=
  let r := UpdateDeviceTag.assign OldID newID st.1 acl
  if r.2 = true then (r.2, (st.2.UpsertAcl r.1).2) else (r.2, st.2)

/-- `UpdateDeviceTag` (lines 809-833): the state it leaves. -/
def Registry.UpdateDeviceTag (s : Registry) (OldID newID netID : String) : Registry :=
  let r := s.listDevicePolicies netID
  (r.1.foldl (UpdateDeviceTag.step OldID newID) (false, r.2)).2

/-- A tag list in which every entry `{DeviceAclID, old}` has its value replaced
by `new` and every other entry is unchanged in value and position. -/
def retagged (old new : String) (entries : List AclPolicyTag) : List AclPolicyTag :=
  entries.map (fun e => if e.ID = DeviceAclID ∧ e.Value = old then { e with Value := new } else e)

/-- A policy with `Src` and `Dst` re-tagged and every other field as it is. -/
def Acl.retagged (old new : String) (a : Acl) : Acl :=
  { a with Src := Netmaker.retagged old new a.Src, Dst := Netmaker.retagged old new a.Dst }

/-- The statement `acl.Src = append(acl.Src[:i], acl.Src[i+1:]...)` (lines 864
and 872) on a slice of length `len` over the backing array `arr`: the slice
expression `acl.Src[i+1:]` is out of range when `i + 1` exceeds the current
length, which is a run-time panic (`none`); otherwise the elements after index
`i` move one place down inside the backing array, whose last place keeps its
value, and the slice is one shorter. -/
def RemoveDeviceTagFromAclPolicies.cut (i : Nat) (arr : List AclPolicyTag) (len : Nat) :
    Option (List AclPolicyTag × Nat) :=
  if i + 1 ≤ len then
    some (arr.take i ++ ((arr.drop (i + 1)).take (len - (i + 1)) ++ arr.drop (len - 1)),
      len - 1)
  else none

/-- One of the two inner loops of `RemoveDeviceTagFromAclPolicies` (lines
861-868 for `Src`, lines 869-876 for `Dst`), over the indices that `range`
yields for the slice as it was when the loop began: the element at index `i` is
read from the backing array, which the loop body changes; the result holds the
backing array, the length of the slice and the value of `update`. -/
def RemoveDeviceTagFromAclPolicies.removeLoop (tagID : String) :
    List Nat → List AclPolicyTag × Nat × Bool → Option (List AclPolicyTag × Nat × Bool)
  | [], st => some st
  | i :: rest, (arr, len, update) =>
    match arr[i]? with
    | none => none
    | some tagI =>
      if tagI.ID = DeviceAclID ∧ tagID = tagI.Value then
        match RemoveDeviceTagFromAclPolicies.cut i arr len with
        | none => none
        | some (arr1, len1) =>
          RemoveDeviceTagFromAclPolicies.removeLoop tagID rest (arr1, len1, true)
      else RemoveDeviceTagFromAclPolicies.removeLoop tagID rest (arr, len, update)

/-- An inner loop of `RemoveDeviceTagFromAclPolicies` on a tag list: the list
the slice holds afterwards and the value of `update`, `none` for a panic. -/
def RemoveDeviceTagFromAclPolicies.remove (tagID : String) (update : Bool)
    (entries : List AclPolicyTag) : Option (List AclPolicyTag × Bool) :=
  match RemoveDeviceTagFromAclPolicies.removeLoop tagID (List.range entries.length)
      (entries, entries.length, update) with
  | none => none
  | some (arr, len, update1) => some (arr.take len, update1)

/-- The loop of `RemoveDeviceTagFromAclPolicies` over the policies (lines
860-880), on the value of `update`, which is never reset, and the registry
state; `none` for a panic.  With the cache enabled the `append` moves elements
inside the backing array that the cached record shares; the `UpsertAcl` that
follows stores the final value, and the embedding leaves the cache to it, so
it follows the code on a working backend only. -/
def RemoveDeviceTagFromAclPolicies.loop (tagID : String) :
    List Acl → Bool × Registry → Option (Bool × Registry)
  | [], st => some st
  | acl :: rest, (update, s) =>
    match RemoveDeviceTagFromAclPolicies.remove tagID update acl.Src with
    | none => none
    | some (src, update1) =>
      match RemoveDeviceTagFromAclPolicies.remove tagID update1 acl.Dst with
      | none => none
      | some (dst, update2) =>
        if update2 = true then
          RemoveDeviceTagFromAclPolicies.loop tagID rest
            (update2, (s.UpsertAcl { acl with Src := src, Dst := dst }).2)
        else RemoveDeviceTagFromAclPolicies.loop tagID rest (update2, s)

/-- `RemoveDeviceTagFromAclPolicies` (lines 857-882): the state it leaves,
`none` when it panics. -/
def Registry.RemoveDeviceTagFromAclPolicies (s : Registry) (tagID netID : String) :
    Option Registry :=
  let r := s.listDevicePolicies netID
  (RemoveDeviceTagFromAclPolicies.loop tagID r.1 (false, r.2)).map (fun st => st.2)

/-- A registry whose table holds the device policy `netA.webdb` with the given
`Src` list and `Dst = [db]`, with the cache switched off. -/
def registrySrc (src : List AclPolicyTag) : Registry :=
  { CacheEnabled := false, aclCacheMap := [],
    aclsTable := [("netA.webdb", { webdb with Src := src })], fault := none }

/-- Scenario S6: the store of scenario S2 after the tag `web` was removed from
`netA.webdb`, whose `Src` is now empty. -/
def worldS6 : World :=
  storeView [allNodes false, allUsers false, { webdb with Src := [] }, engdb]

/-! ## Roles (`pro/logic/user_mgmt.go`) -/

/-- Modelled from the spec: `models.RsrcPermissionScope`, the access descriptor
of one resource, is declared outside the files at hand; it holds the bits
read, create, update, delete, `VPNaccess` and `SelfOnly`. -/
structure RsrcPermissionScope where
  Create : Bool
  Read : Bool
  Update : Bool
  Delete : Bool
  VPNaccess : Bool
  SelfOnly : Bool
deriving DecidableEq, Repr

/-- Modelled from the spec: `models.UserRolePermissionTemplate` is declared
outside the files at hand; the fields the functions at hand read are the role
ID, the `FullAccess` flag and the map `NetworkLevelAccess` from resource type
to the map from resource ID to its scope. -/
structure UserRolePermissionTemplate where
  ID : String
  FullAccess : Bool
  NetworkLevelAccess : List (String × List (String × RsrcPermissionScope))
deriving DecidableEq, Repr

set_option linter.unusedVariables false in
/-- `HasNetworkRsrcScope` (`pro/logic/user_mgmt.go`, lines 297-308). -/
def HasNetworkRsrcScope (permissionTemplate : UserRolePermissionTemplate) (netid : String)
    (rsrcType rsrcID : String) (op : String) : Bool :=
  if permissionTemplate.FullAccess = true then true
  else
    match mapGet permissionTemplate.NetworkLevelAccess rsrcType with
    | none => false
    | some rsrcScope => (mapGet rsrcScope rsrcID).isSome

/-- The role table `USER_PERMISSIONS_TABLE_NAME` of the store, with decoded
records, and the I/O error the backend currently answers with, if it is
failing. -/
structure RoleStore where
  rolesTable : List (String × UserRolePermissionTemplate)
  fault : Option String
deriving DecidableEq, Repr

/-- Modelled from the spec: `logic.GetRole(rid)` is outside the files at hand;
it fetches the record of the role table under the role ID, and the
`EmptyRecord` kind of the store surfaces through it when the key is absent. -/
def GetRole (s : RoleStore) (rid : String) : Except StoreError UserRolePermissionTemplate :=
  match s.fault with
  | some msg => Except.error (StoreError.Backend msg)
  | none =>
    match mapGet s.rolesTable rid with
    | none => Except.error StoreError.EmptyRecord
    | some r => Except.ok r

/-- The errors `DeleteRole` returns, by the statement that returns them: the
empty role ID (line 161), the error of `GetUsersDB` (line 165), the error of
`GetRole` (line 169), the role in use (lines 181-182), the error of
`database.DeleteRecord` (line 186). -/
inductive DeleteRoleError where
  | emptyID
  | users (msg : String)
  | role (err : StoreError)
  | active
  | store (err : StoreError)
deriving DecidableEq, Repr

/-- The loop of `DeleteRole` over the users (lines 172-185): whether it reaches
the `return err` of a user whose platform role is `rid`.  The inner loop over
the groups of the user only reads (`GetUserGroup`) and changes nothing. -/
def DeleteRole.inUse (rid : String) : List User → Bool
  | [] => false
  | user :: rest => if user.PlatformRoleID = rid then true else DeleteRole.inUse rid rest

set_option linter.unusedVariables false in
/-- `DeleteRole` (`pro/logic/user_mgmt.go`, lines 159-187): the error and the
state it leaves.  `usersDB` is the result pair of `logic.GetUsersDB()`, which is
outside the files at hand. -/
def DeleteRole (s : RoleStore) (usersDB : List User × Option String) (rid : String)
    (force : Bool) : Option DeleteRoleError × RoleStore :=
  if rid = "" then (some DeleteRoleError.emptyID, s)
  else
    match usersDB.2 with
    | some msg => (some (DeleteRoleError.users msg), s)
    | none =>
      match GetRole s rid with
      | Except.error err => (some (DeleteRoleError.role err), s)
      | Except.ok role =>
        if DeleteRole.inUse rid usersDB.1 = true then (some DeleteRoleError.active, s)
        else
          match s.fault with
          | some msg => (some (DeleteRoleError.store (StoreError.Backend msg)), s)
          | none => (none, { s with rolesTable := mapDelete s.rolesTable role.ID })

/-- The role `admin`, with full access. -/
def adminRole : UserRolePermissionTemplate :=
  { ID := "admin", FullAccess := true, NetworkLevelAccess := [] }

/-- The role `viewer`, with read access to the host `h1` only. -/
def viewerRole : UserRolePermissionTemplate :=
  { ID := "viewer", FullAccess := false,
    NetworkLevelAccess := [("hosts", [("h1", ⟨false, true, false, false, false, false⟩)])] }

/-- A role store with the roles `admin` and `viewer`. -/
def rolesS : RoleStore :=
  { rolesTable := [("admin", adminRole), ("viewer", viewerRole)], fault := none }

/-- The users of the role scenario: `alice` has the platform role `admin`. -/
def usersRoles : List User × Option String :=
  ([{ UserName := "alice", PlatformRoleID := "admin", NetworkRoles := [], UserGroups := [] }],
    none)

/-! ## SQL settings (`db/postgres.go`) -/

/-- The record `config.SQLConfig` of the configuration file; `Port` is an
`int32`. -/
structure SQLConfig where
  Host : String
  Port : Int
  Username : String
  Password : String
  DB : String
  SSLMode : String
deriving DecidableEq, Repr

/-- The pattern shared by the five string getters (lines 48-56 and 67-102): the
environment variable when it is not empty, else the value of the configuration
file when it is not empty, else the default. -/
def getSQLString (env : String → String) (name fileValue dflt : String) : String :=
  if env name ≠ "" then env name
  else if fileValue ≠ "" then fileValue
  else dflt

/-- `GetSQLHost` (lines 48-56); `env` is `os.Getenv`. -/
def GetSQLHost (env : String → String) (cfg : SQLConfig) : String :=
  getSQLString env "SQL_HOST" cfg.Host "localhost"

/-- `GetSQLUser` (lines 67-75). -/
def GetSQLUser (env : String → String) (cfg : SQLConfig) : String :=
  getSQLString env "SQL_USER" cfg.Username "postgres"

/-- `GetSQLPass` (lines 76-84). -/
def GetSQLPass (env : String → String) (cfg : SQLConfig) : String :=
  getSQLString env "SQL_PASS" cfg.Password "nopass"

/-- `GetSQLDB` (lines 85-93). -/
def GetSQLDB (env : String → String) (cfg : SQLConfig) : String :=
  getSQLString env "SQL_DB" cfg.DB "netmaker"

/-- `GetSQLSSLMode` (lines 94-102). -/
def GetSQLSSLMode (env : String → String) (cfg : SQLConfig) : String :=
  getSQLString env "SQL_SSL_MODE" cfg.SSLMode "disable"

/-- The value of a string of decimal digits, `none` when a character is not a
digit. -/
def strconv.digits : List Char → Nat → Option Nat
  | [], acc => some acc
  | c :: rest, acc =>
    if 48 ≤ c.toNat ∧ c.toNat ≤ 57 then strconv.digits rest (acc * 10 + (c.toNat - 48))
    else none

/-- Go's `strconv.Atoi` on a platform with 64-bit `int`: an optional sign and
at least one decimal digit, the value within the range of `int`; `none` for an
error. -/
def strconv.Atoi (s : String) : Option Int :=
  let parse := fun (neg : Bool) (ds : List Char) =>
    if ds = [] then none
    else
      match strconv.digits ds 0 with
      | none => none
      | some n =>
        let v : Int := if neg = true then - (n : Int) else (n : Int)
        if - (2 ^ 63 : Int) ≤ v ∧ v ≤ 2 ^ 63 - 1 then some v else none
  match s.toList with
  | '-' :: ds => parse true ds
  | '+' :: ds => parse false ds
  | ds => parse false ds

/-- Go's conversion `int32(n)` of an `int`: the value modulo `2^32` in the
range of `int32`. -/
def int32 (n : Int) : Int :=
  (n + 2 ^ 31) % 2 ^ 32 - 2 ^ 31

/-- `GetSQLPort` (lines 57-66). -/
def GetSQLPort (env : String → String) (cfg : SQLConfig) : Int :=
  match strconv.Atoi (env "SQL_PORT") with
  | some envport =>
    if envport ≠ 0 then int32 envport
    else if cfg.Port ≠ 0 then cfg.Port
    else 5432
  | none =>
    if cfg.Port ≠ 0 then cfg.Port
    else 5432

/-- An environment in which only `SQL_PORT` is set, to `4294967296`. -/
def envPort (name : String) : String :=
  if name = "SQL_PORT" then "4294967296" else ""

/-- A configuration file without SQL settings. -/
def noSQLConfig : SQLConfig :=
  { Host := "", Port := 0, Username := "", Password := "", DB := "", SSLMode := "" }

/-- One of the two inner loops of `CheckIfTagAsActivePolicy` (lines 838-844 for
`Src`, lines 845-851 for `Dst`): whether it reaches its `return true`. -/
def CheckIfTagAsActivePolicy.hit (tagID : String) : List AclPolicyTag → Bool
  | [] => false
  | tagI :: rest =>
    if tagI.ID = DeviceAclID ∧ tagID = tagI.Value then true
    else CheckIfTagAsActivePolicy.hit tagID rest

/-- The loop of `CheckIfTagAsActivePolicy` over the policies (lines
837-852). -/
def CheckIfTagAsActivePolicy.loop (tagID : String) : List Acl → Bool
  | [] => false
  | acl :: rest =>
    if CheckIfTagAsActivePolicy.hit tagID acl.Src = true then true
    else if CheckIfTagAsActivePolicy.hit tagID acl.Dst = true then true
    else CheckIfTagAsActivePolicy.loop tagID rest

/-- `CheckIfTagAsActivePolicy` (lines 835-854). -/
def CheckIfTagAsActivePolicy (w : World) (tagID netID : String) : Bool :=
  CheckIfTagAsActivePolicy.loop tagID (listDevicePolicies w netID)

/-- A user policy that lets `alice` reach every device: `Src` names the user,
`Dst` is the wildcard. -/
def aliceAny : Acl :=
  mkAcl "netA.alice-any" "netA" UserPolicy TrafficDirectionUni true
    [⟨UserAclID, "alice"⟩] [⟨DeviceAclID, "*"⟩]

/-- A store with both defaults disabled and the user policy `netA.alice-any`. -/
def worldAliceAny : World := storeView [allNodes false, allUsers false, aliceAny]

/-- The tags whose nodes the rule of one target tag `nodeTag` and one enabled
policy collects (lines 1012-1120).  Bidirectional: the other tags of `Dst`
when `nodeTag` is in `Src` only, the other tags of `Src` when it is in `Dst`
only, `nodeTag` itself when it is in both.  Unidirectional: the other tags of
`Src` when `nodeTag` or `"*"` is in `Dst`. -/
def GetAclRulesForNode.collects (acl : Acl) (nodeTag tag : String) : Prop :=
  if acl.AllowedDirection = TrafficDirectionBi then
    (nodeTag ∈ convAclTagToValueMap acl.Src ∧ nodeTag ∉ convAclTagToValueMap acl.Dst ∧
        tag ∈ convAclTagToValueMap acl.Dst ∧ tag ≠ nodeTag) ∨
      (nodeTag ∈ convAclTagToValueMap acl.Dst ∧ nodeTag ∉ convAclTagToValueMap acl.Src ∧
        tag ∈ convAclTagToValueMap acl.Src ∧ tag ≠ nodeTag) ∨
      (nodeTag ∈ convAclTagToValueMap acl.Dst ∧ nodeTag ∈ convAclTagToValueMap acl.Src ∧
        tag = nodeTag)
  else
    (nodeTag ∈ convAclTagToValueMap acl.Dst ∨ "*" ∈ convAclTagToValueMap acl.Dst) ∧
      tag ∈ convAclTagToValueMap acl.Src ∧ tag ≠ nodeTag

instance GetAclRulesForNode.collects.decidable (acl : Acl) (nodeTag tag : String) :
    Decidable (GetAclRulesForNode.collects acl nodeTag tag) := by
  unfold GetAclRulesForNode.collects
  infer_instance

/-- The rule that scenario S3 yields for `N1` under `netA.webdb`. -/
def ruleS3 : AclRule :=
  { ID := "netA.webdb", AllowedProtocol := "ALL", AllowedPorts := [],
    Direction := TrafficDirectionBi, Allowed := true,
    IPList := [host4 10 0 0 2], IP6List := [] }

/-! ## The evaluator reads on the registry state -/

/-- `GetDefaultPolicy` (lines 373-410), on the registry state: the `GetAcl` of
line 378 and the `ListAclsByNetwork` of line 392 read, and fill, the cache one
after the other. -/
def Registry.GetDefaultPolicy (s : Registry) (netID ruleType : String) :
    (Acl × Option String) × Registry :=
  let aclID := if ruleType = DevicePolicy then "all-nodes" else "all-users"
  let r := s.GetAcl (netID ++ "." ++ aclID)
  match r.1.2 with
  | some _ => ((Acl.zero, some "default rule not found"), r.2)
  | none =>
    if r.1.1.Enabled = true then ((r.1.1, none), r.2)
    else
      let l := r.2.ListAclsByNetwork netID
      match GetDefaultPolicy.scan ruleType l.1 with
      | some policy => ((policy, none), l.2)
      | none => ((r.1.1, none), l.2)

/-- `listPoliciesOfUser` (lines 461-487), on the registry state. -/
def Registry.listPoliciesOfUser (s : Registry) (user : User) (netID : String) :
    List Acl × Registry :=
  let r := s.ListAcls
  (listPoliciesOfUser.loop user netID r.1, r.2)

/-- `IsUserAllowedToCommunicate` (lines 535-570), on the registry state: the
reads of `GetDefaultPolicy` come first, the `ListAcls` of `listPoliciesOfUser`
after them.  Of `w` only `GetUser` and `ConvertToStaticNode` are used, which
do not touch the policy registry. -/
def Registry.IsUserAllowedToCommunicate (s : Registry) (w : World) (userName : String)
    (peer : Node) : (Bool × List Acl) × Registry :=
  let peer := staticNormal w peer
  let d := s.GetDefaultPolicy peer.Network UserPolicy
  if d.1.1.Enabled = true then ((true, [d.1.1]), d.2)
  else
    match w.GetUser userName with
    | none => ((false, []), d.2)
    | some user =>
      let l := d.2.listPoliciesOfUser user peer.Network
      let allowedPolicies := IsUserAllowedToCommunicate.policyLoop peer.Tags l.1
      if allowedPolicies.length > 0 then ((true, allowedPolicies), l.2)
      else ((false, []), l.2)

/-- A registry whose table holds the policies of scenarios S2 and S4
(`all-nodes` and `all-users` disabled, `webdb`, `eng-db`), with an empty
cache. -/
def registryCold (cacheEnabled : Bool) : Registry :=
  { CacheEnabled := cacheEnabled, aclCacheMap := [],
    aclsTable := [("netA.all-nodes", allNodes false), ("netA.all-users", allUsers false),
      ("netA.webdb", webdb), ("netA.eng-db", engdb)],
    fault := none }

/-- The enabled user policy `netA.any-user`, with the wildcard on both
sides. -/
def anyUser : Acl :=
  mkAcl "netA.any-user" "netA" UserPolicy TrafficDirectionUni true
    [⟨UserAclID, "*"⟩] [⟨DeviceAclID, "*"⟩]

/-- A registry whose table holds the disabled `netA.all-users` and the enabled
`netA.any-user`, with an empty cache. -/
def registryCustomAll (cacheEnabled : Bool) : Registry :=
  { CacheEnabled := cacheEnabled, aclCacheMap := [],
    aclsTable := [("netA.all-users", allUsers false), ("netA.any-user", anyUser)],
    fault := none }

/-- The device policy `netA.appdb`: unidirectional, `app -> db`. -/
def appdb : Acl :=
  mkAcl "netA.appdb" "netA" DevicePolicy TrafficDirectionUni true
    [⟨DeviceAclID, "app"⟩] [⟨DeviceAclID, "db"⟩]

/-- A registry whose table holds the disabled `netA.all-nodes` and the device
policies `netA.webdb` and `netA.appdb`, both with `db` in `Dst`, with an empty
cache. -/
def registryTwo (cacheEnabled : Bool) : Registry :=
  { CacheEnabled := cacheEnabled, aclCacheMap := [],
    aclsTable := [("netA.all-nodes", allNodes false), ("netA.webdb", webdb),
      ("netA.appdb", appdb)],
    fault := none }

/-! ## The results `UniqueIPNetList` can return -/

/-- A result that `UniqueIPNetList` (lines 1154-1171) can return.  Go fixes
neither the order in which the `range` of line 1166 yields the entries of
`uniqueMap` nor the order in which `sort.Slice` leaves entries that `less`
does not separate: a result is an arrangement of the values of the map in which
no entry is less than an entry before it. -/
def UniqueIPNetList.outcome (cidr : IPNet → String) (ipnets out : List IPNet) : Prop :=
  out.Perm ((UniqueIPNetList.collect cidr [] ipnets).map (fun kv => kv.2)) ∧
    out.Pairwise (fun a b => sortIPNets.less b a = false)

instance UniqueIPNetList.outcome.decidable (cidr : IPNet → String) (ipnets out : List IPNet) :
    Decidable (UniqueIPNetList.outcome cidr ipnets out) := by
  unfold UniqueIPNetList.outcome
  infer_instance

/-- The network `10.0.0.1` with the mask `ff00ff00`, which is not of the
canonical form, so that `Mask.Size` is `(0, 0)`. -/
def tieA : IPNet := { IP := ip4 10 0 0 1, Mask := [255, 0, 255, 0] }

/-- The network `10.0.0.1` with the mask `00ff00ff`, not canonical either. -/
def tieB : IPNet := { IP := ip4 10 0 0 1, Mask := [0, 255, 0, 255] }

/-- Go's `IPNet.String` on the two networks: the address, a slash and the mask
in hexadecimal, as it is printed for a mask that is not canonical. -/
def cidrTie (n : IPNet) : String :=
  if n = tieA then "10.0.0.1/ff00ff00" else if n = tieB then "10.0.0.1/00ff00ff" else "<nil>"

/-! ## `GetAclRulesForNode` as a call -/

/-- `GetAclRulesForNode` (lines 967-1130) as a call that can panic:
`maps.Clone` returns nil for a nil map (lines 987 and 990), and the assignment
`targetNodeTags["*"] = struct{}{}` of line 992 to a nil map is a run-time
panic, the result `none`; the deferred user pass does not recover from it. -/
def GetAclRulesForNode.run (w : World) (ix : Index) (targetnode : Node) :
    Option (List (String × AclRule)) :=
  if targetnode.TagsNil = true then none else some (GetAclRulesForNode w ix targetnode)

/-- A node `N0` of `netA` with the address `10.0.0.3/32` that was given no
tags: its `Tags` map is nil. -/
def N0nil : Node :=
  { plainNode "N0" "netA" [] with Address := host4 10 0 0 3, TagsNil := true }

/-- The index of `netA` with `N0`, `N1` and `N2`: `"*"` holds all three, `db`
holds `N1`, `web` holds `N2`; the rest as in `indexS3`. -/
def indexS0 : Index :=
  { indexS3 with
    GetTagMapWithNodesByNetwork := fun _ _ tag =>
      if tag = "*" then [N0nil, N1addr, N2addr] else if tag = "db" then [N1addr]
      else if tag = "web" then [N2addr] else [] }

/-! ## `CheckIfTagAsActivePolicy` on the registry state -/

/-- `CheckIfTagAsActivePolicy` (lines 835-854), on the registry state. -/
def Registry.CheckIfTagAsActivePolicy (s : Registry) (tagID netID : String) :
    Bool × Registry :=
  let r := s.listDevicePolicies netID
  (CheckIfTagAsActivePolicy.loop tagID r.1, r.2)

end Netmaker

namespace Netmaker

/-! ## Lemmas on the helpers -/

theorem mem_convAclTagToValueMap (acltags : List AclPolicyTag) (v : String) :
    v ∈ convAclTagToValueMap acltags ↔ ∃ e ∈ acltags, e.Value = v := by
  induction acltags with
  | nil => simp [convAclTagToValueMap]
  | cons a rest ih =>
    simp only [convAclTagToValueMap, List.mem_cons, List.mem_filter, ih,
      decide_eq_true_eq, exists_eq_or_imp]
    constructor
    · rintro (h | ⟨h, -⟩)
      · exact Or.inl h.symm
      · exact Or.inr h
    · rintro (h | h)
      · exact Or.inl h.symm
      · by_cases hv : v = a.Value
        · exact Or.inl hv
        · exact Or.inr ⟨h, hv⟩

theorem anyTagIn_iff (tags : List String) (entries : List AclPolicyTag) :
    anyTagIn tags (convAclTagToValueMap entries) = true ↔ hitsEntries tags entries := by
  simp [anyTagIn, hitsEntries, mem_convAclTagToValueMap]

theorem wildcard_iff (entries : List AclPolicyTag) :
    "*" ∈ convAclTagToValueMap entries ↔ hasWildcard entries := by
  simp [hasWildcard, mem_convAclTagToValueMap]

theorem mem_listDevicePolicies (w : World) (netID : String) (p : Acl) :
    p ∈ listDevicePolicies w netID ↔
      p ∈ w.ListAcls ∧ p.NetworkID = netID ∧ p.RuleType = DevicePolicy := by
  simp [listDevicePolicies]

theorem mem_ListAclsByNetwork (w : World) (netID : String) (p : Acl) :
    p ∈ ListAclsByNetwork w netID ↔ p ∈ w.ListAcls ∧ p.NetworkID = netID := by
  simp [ListAclsByNetwork]

theorem snapshotTags_eq (node : Node) : snapshotTags node = node.Tags := by
  simp [snapshotTags]

/-- What one tag loop of `IsPeerAllowed` decides. -/
theorem IsPeerAllowed.tagLoop_iff (src dst : List AclPolicyTag) (others tags : List String) :
    IsPeerAllowed.tagLoop (convAclTagToValueMap src) (convAclTagToValueMap dst) others tags
        = true ↔
      (hitsEntries tags dst ∧ (hasWildcard src ∨ hitsEntries others src)) ∨
        (hitsEntries tags src ∧ (hasWildcard dst ∨ hitsEntries others dst)) := by
  induction tags with
  | nil => simp [IsPeerAllowed.tagLoop, hitsEntries]
  | cons t rest ih =>
    simp only [IsPeerAllowed.tagLoop]
    have hd : ∀ es : List AclPolicyTag, hitsEntries (t :: rest) es ↔
        (t ∈ convAclTagToValueMap es ∨ hitsEntries rest es) := by
      intro es
      simp [hitsEntries, mem_convAclTagToValueMap]
    rw [hd, hd]
    split_ifs with h1 h2
    · rw [anyTagIn_iff, wildcard_iff] at h1
      simp only [true_iff]
      exact Or.inl ⟨Or.inl h1.1, h1.2⟩
    · rw [anyTagIn_iff, wildcard_iff] at h2
      simp only [true_iff]
      exact Or.inr ⟨Or.inl h2.1, h2.2⟩
    · rw [anyTagIn_iff, wildcard_iff] at h1 h2
      rw [ih]
      constructor
      · rintro (⟨ha, hb⟩ | ⟨ha, hb⟩)
        · exact Or.inl ⟨Or.inr ha, hb⟩
        · exact Or.inr ⟨Or.inr ha, hb⟩
      · rintro (⟨ha | ha, hb⟩ | ⟨ha | ha, hb⟩)
        · exact absurd ⟨ha, hb⟩ h1
        · exact Or.inl ⟨ha, hb⟩
        · exact absurd ⟨ha, hb⟩ h2
        · exact Or.inr ⟨ha, hb⟩

theorem IsPeerAllowed.policyLoop_iff (nodeTags peerTags : List String) (policies : List Acl) :
    IsPeerAllowed.policyLoop nodeTags peerTags policies = true ↔
      ∃ p ∈ policies, p.Enabled = true ∧ peerMatch p nodeTags peerTags := by
  induction policies with
  | nil => simp [IsPeerAllowed.policyLoop]
  | cons policy rest ih =>
    simp only [IsPeerAllowed.policyLoop, List.mem_cons, exists_eq_or_imp]
    have hm : peerMatch policy nodeTags peerTags ↔
        (IsPeerAllowed.tagLoop (convAclTagToValueMap policy.Src)
            (convAclTagToValueMap policy.Dst) peerTags nodeTags = true ∨
          IsPeerAllowed.tagLoop (convAclTagToValueMap policy.Src)
            (convAclTagToValueMap policy.Dst) nodeTags peerTags = true) := by
      rw [IsPeerAllowed.tagLoop_iff, IsPeerAllowed.tagLoop_iff]
      unfold peerMatch reverseMatch forwardMatch
      tauto
    rw [hm]
    split_ifs with h1 h2 h3
    · rw [ih]; simp [h1]
    · simp only [true_iff]
      exact Or.inl ⟨by simpa using h1, Or.inl h2⟩
    · simp only [true_iff]
      exact Or.inl ⟨by simpa using h1, Or.inr h3⟩
    · rw [ih]; simp [h2, h3]

theorem dot_append_assoc (net rest : String) : net ++ "." ++ rest = net ++ ("." ++ rest) := by
  rw [String.append_assoc]

theorem peerMatch_comm (policy : Acl) (nodeTags peerTags : List String) :
    peerMatch policy nodeTags peerTags ↔ peerMatch policy peerTags nodeTags := by
  unfold peerMatch reverseMatch
  exact Or.comm

theorem IsPeerAllowed.policyLoop_comm (nodeTags peerTags : List String) (policies : List Acl) :
    IsPeerAllowed.policyLoop nodeTags peerTags policies =
      IsPeerAllowed.policyLoop peerTags nodeTags policies := by
  rw [Bool.eq_iff_iff, IsPeerAllowed.policyLoop_iff, IsPeerAllowed.policyLoop_iff]
  constructor
  · rintro ⟨p, hp, he, hm⟩
    exact ⟨p, hp, he, (peerMatch_comm p _ _).1 hm⟩
  · rintro ⟨p, hp, he, hm⟩
    exact ⟨p, hp, he, (peerMatch_comm p _ _).1 hm⟩

/-- When the canonical default of the rule type is stored and enabled,
`GetDefaultPolicy` returns it without error. -/
theorem GetDefaultPolicy_of_enabled (w : World) (netID ruleType : String) (acl : Acl)
    (hget : w.GetAcl (netID ++ "." ++
      (if ruleType = DevicePolicy then "all-nodes" else "all-users")) = some acl)
    (hen : acl.Enabled = true) :
    GetDefaultPolicy w netID ruleType = (acl, none) := by
  simp only [GetDefaultPolicy, hget, hen, if_true]

/-! ## C1: symmetry of `IsPeerAllowed` -/

/-- C1, as stated, fails across networks: in scenario S1 the node `N1` of
`netA` (whose default policy is enabled) is allowed towards the node `NB` of
`netB` when `N1` is the first argument, and not allowed when `NB` is. -/
theorem C1_asymmetric_across_networks :
    IsPeerAllowed worldS1 N1 NB true = true ∧ IsPeerAllowed worldS1 NB N1 true = false := by
  decide

/-- C1, amended: for nodes `A` and `B` that are (after the static-node
conversion) in one network, and every flag `f`, over a fixed policy store,
`IsPeerAllowed A B f = IsPeerAllowed B A f`. -/
theorem C1_IsPeerAllowed_symmetric (w : World) (A B : Node) (f : Bool)
    (hnet : (staticNormal w A).Network = (staticNormal w B).Network) :
    IsPeerAllowed w A B f = IsPeerAllowed w B A f := by
  simp only [IsPeerAllowed, hnet]
  rw [IsPeerAllowed.policyLoop_comm]

/-- C1, amended, at the nodes `N1` and `N2` of scenario S2. -/
theorem C1_IsPeerAllowed_symmetric_witness :
    (staticNormal worldS2 N1).Network = (staticNormal worldS2 N2).Network ∧
      IsPeerAllowed worldS2 N1 N2 true = IsPeerAllowed worldS2 N2 N1 true :=
  ⟨by decide, C1_IsPeerAllowed_symmetric worldS2 N1 N2 true (by decide)⟩

/-! ## C2: default short-circuit -/

/-- C2: if the canonical default device policy `<net>.all-nodes` is stored and
enabled, `IsPeerAllowed A B true` is true for every node `A` of that network
and every node `B` (in particular every `B` of that network), whatever the
tags and the other policies. -/
theorem C2_default_short_circuit (w : World) (net : String) (acl : Acl) (A B : Node)
    (hget : w.GetAcl (net ++ ".all-nodes") = some acl) (hen : acl.Enabled = true)
    (hA : (staticNormal w A).Network = net) :
    IsPeerAllowed w A B true = true := by
  have hd : GetDefaultPolicy w net DevicePolicy = (acl, none) := by
    apply GetDefaultPolicy_of_enabled w net DevicePolicy acl _ hen
    rw [if_pos rfl, dot_append_assoc]
    exact hget
  simp only [IsPeerAllowed, hA, hd, hen, and_self, if_true]

/-- C2 in scenario S1, for the tagged nodes `N1` and `N2`. -/
theorem C2_default_short_circuit_witness :
    worldS1.GetAcl ("netA" ++ ".all-nodes") = some (allNodes true) ∧
      (allNodes true).Enabled = true ∧ (staticNormal worldS1 N1).Network = "netA" ∧
      IsPeerAllowed worldS1 N1 N2 true = true :=
  ⟨by decide, by decide, by decide,
    C2_default_short_circuit worldS1 "netA" (allNodes true) N1 N2 (by decide) (by decide)
      (by decide)⟩

/-! ## C3: what `IsPeerAllowed` tests without the default check -/

/-- C3, as stated, fails: in scenario S1 the enabled device policy
`netA.all-nodes` has `Src = ["*"]` and `Dst = ["*"]`, so it matches `N1`, `N2`
in the specification's wording, yet `IsPeerAllowed N1 N2 false` is false. -/
theorem C3_wildcard_policy_does_not_match :
    IsPeerAllowed worldS1 N1 N2 false = false ∧
      allNodes true ∈ listDevicePolicies worldS1 "netA" ∧
      (allNodes true).Enabled = true ∧
      (allNodes true).Src = [⟨DeviceAclID, "*"⟩] ∧ (allNodes true).Dst = [⟨DeviceAclID, "*"⟩] ∧
      specPeerMatch (allNodes true) N1.Tags N2.Tags := by
  refine ⟨by decide, by decide, by decide, by decide, by decide, ?_⟩
  exact Or.inl ⟨Or.inr ⟨⟨DeviceAclID, "*"⟩, by decide, rfl⟩,
    Or.inr ⟨⟨DeviceAclID, "*"⟩, by decide, rfl⟩⟩

/-- C3, amended: `IsPeerAllowed node peer false` is true if and only if some
enabled device policy of the peer's network has a tag of one party in `Dst`
and `Src` met by the wildcard or by a tag of the other party, or a tag of one
party in `Src` and `Dst` met by the wildcard or by a tag of the other party.
The wildcard thus stands in for one side only: a policy whose `Src` and `Dst`
values are all `"*"` matches exactly the pairs in which a party carries the
tag `"*"`. -/
theorem C3_IsPeerAllowed_iff (w : World) (node peer : Node) :
    (IsPeerAllowed w node peer false = true ↔
      ∃ p ∈ listDevicePolicies w (staticNormal w peer).Network, p.Enabled = true ∧
        peerMatch p (staticNormal w node).Tags (staticNormal w peer).Tags) ∧
    (∀ p : Acl, (∀ e ∈ p.Src, e.Value = "*") → (∀ e ∈ p.Dst, e.Value = "*") →
      p.Src ≠ [] → p.Dst ≠ [] →
      (peerMatch p (staticNormal w node).Tags (staticNormal w peer).Tags ↔
        ("*" ∈ (staticNormal w node).Tags ∨ "*" ∈ (staticNormal w peer).Tags))) := by
  constructor
  · simp only [IsPeerAllowed, snapshotTags_eq]
    rw [if_neg (by simp)]
    exact IsPeerAllowed.policyLoop_iff _ _ _
  · intro p hs hd hsne hdne
    have hw : ∀ es : List AclPolicyTag, (∀ e ∈ es, e.Value = "*") → es ≠ [] →
        hasWildcard es := by
      intro es h hne
      obtain ⟨e, he⟩ := List.exists_mem_of_ne_nil es hne
      exact ⟨e, he, h e he⟩
    have hh : ∀ (es : List AclPolicyTag) (tags : List String),
        (∀ e ∈ es, e.Value = "*") → es ≠ [] → (hitsEntries tags es ↔ "*" ∈ tags) := by
      intro es tags h hne
      constructor
      · rintro ⟨t, ht, e, he, hv⟩
        rw [h e he] at hv
        rw [hv]
        exact ht
      · intro ht
        obtain ⟨e, he⟩ := List.exists_mem_of_ne_nil es hne
        exact ⟨"*", ht, e, he, h e he⟩
    unfold peerMatch reverseMatch forwardMatch
    rw [hh p.Src _ hs hsne, hh p.Dst _ hd hdne, hh p.Src _ hs hsne, hh p.Dst _ hd hdne]
    have h1 := hw p.Src hs hsne
    have h2 := hw p.Dst hd hdne
    tauto

/-! ## The loops of `IsNodeAllowedToCommunicate` -/

/-- The loop over `nodeTags` appends the policy once when some node tag
passes one of its tests, and nothing otherwise. -/
theorem IsNodeAllowedToCommunicate.nodeLoop_cases (policy : Acl)
    (nodeTags peerTags : List String) :
    ((policy.AllowedDirection = TrafficDirectionBi ∧ hitsEntries nodeTags policy.Dst ∧
          (hasWildcard policy.Src ∨ hitsEntries peerTags policy.Src)) ∨
        (hitsEntries nodeTags policy.Src ∧
          (hasWildcard policy.Dst ∨ hitsEntries peerTags policy.Dst))) ∧
      IsNodeAllowedToCommunicate.nodeLoop policy (convAclTagToValueMap policy.Src)
        (convAclTagToValueMap policy.Dst) peerTags nodeTags = [policy] ∨
    ¬ ((policy.AllowedDirection = TrafficDirectionBi ∧ hitsEntries nodeTags policy.Dst ∧
          (hasWildcard policy.Src ∨ hitsEntries peerTags policy.Src)) ∨
        (hitsEntries nodeTags policy.Src ∧
          (hasWildcard policy.Dst ∨ hitsEntries peerTags policy.Dst))) ∧
      IsNodeAllowedToCommunicate.nodeLoop policy (convAclTagToValueMap policy.Src)
        (convAclTagToValueMap policy.Dst) peerTags nodeTags = [] := by
  induction nodeTags with
  | nil => right; simp [IsNodeAllowedToCommunicate.nodeLoop, hitsEntries]
  | cons t rest ih =>
    have hd : ∀ es : List AclPolicyTag, hitsEntries (t :: rest) es ↔
        (t ∈ convAclTagToValueMap es ∨ hitsEntries rest es) := by
      intro es
      simp [hitsEntries, mem_convAclTagToValueMap]
    simp only [IsNodeAllowedToCommunicate.nodeLoop]
    rw [hd, hd]
    split_ifs with h1 h2 h3 h4
    · rw [wildcard_iff] at h1
      exact Or.inl ⟨Or.inl ⟨h1.1, Or.inl h1.2.1, Or.inl h1.2.2⟩, rfl⟩
    · rw [anyTagIn_iff] at h2
      exact Or.inl ⟨Or.inl ⟨h2.1, Or.inl h2.2.1, Or.inr h2.2.2⟩, rfl⟩
    · rw [wildcard_iff] at h3
      exact Or.inl ⟨Or.inr ⟨Or.inl h3.1, Or.inl h3.2⟩, rfl⟩
    · rw [anyTagIn_iff] at h4
      exact Or.inl ⟨Or.inr ⟨Or.inl h4.1, Or.inr h4.2⟩, rfl⟩
    · rw [wildcard_iff] at h1 h3
      rw [anyTagIn_iff] at h2 h4
      rcases ih with ⟨hc, he⟩ | ⟨hc, he⟩
      · left
        refine ⟨?_, he⟩
        rcases hc with ⟨a, b, c⟩ | ⟨a, b⟩
        · exact Or.inl ⟨a, Or.inr b, c⟩
        · exact Or.inr ⟨Or.inr a, b⟩
      · right
        refine ⟨?_, he⟩
        rintro (⟨a, b | b, c | c⟩ | ⟨a | a, b | b⟩)
        · exact h1 ⟨a, b, c⟩
        · exact h2 ⟨a, b, c⟩
        · exact hc (Or.inl ⟨a, b, Or.inl c⟩)
        · exact hc (Or.inl ⟨a, b, Or.inr c⟩)
        · exact h3 ⟨a, b⟩
        · exact h4 ⟨a, b⟩
        · exact hc (Or.inr ⟨a, Or.inl b⟩)
        · exact hc (Or.inr ⟨a, Or.inr b⟩)

/-- The loop over `peerTags` appends the policy once when some peer tag
passes one of its tests, and nothing otherwise. -/
theorem IsNodeAllowedToCommunicate.peerLoop_cases (policy : Acl)
    (nodeTags peerTags : List String) :
    ((hitsEntries peerTags policy.Dst ∧
          (hasWildcard policy.Src ∨ hitsEntries nodeTags policy.Src)) ∨
        (policy.AllowedDirection = TrafficDirectionBi ∧ hitsEntries peerTags policy.Src ∧
          (hasWildcard policy.Dst ∨ hitsEntries nodeTags policy.Dst))) ∧
      IsNodeAllowedToCommunicate.peerLoop policy (convAclTagToValueMap policy.Src)
        (convAclTagToValueMap policy.Dst) nodeTags peerTags = [policy] ∨
    ¬ ((hitsEntries peerTags policy.Dst ∧
          (hasWildcard policy.Src ∨ hitsEntries nodeTags policy.Src)) ∨
        (policy.AllowedDirection = TrafficDirectionBi ∧ hitsEntries peerTags policy.Src ∧
          (hasWildcard policy.Dst ∨ hitsEntries nodeTags policy.Dst))) ∧
      IsNodeAllowedToCommunicate.peerLoop policy (convAclTagToValueMap policy.Src)
        (convAclTagToValueMap policy.Dst) nodeTags peerTags = [] := by
  induction peerTags with
  | nil => right; simp [IsNodeAllowedToCommunicate.peerLoop, hitsEntries]
  | cons t rest ih =>
    have hd : ∀ es : List AclPolicyTag, hitsEntries (t :: rest) es ↔
        (t ∈ convAclTagToValueMap es ∨ hitsEntries rest es) := by
      intro es
      simp [hitsEntries, mem_convAclTagToValueMap]
    simp only [IsNodeAllowedToCommunicate.peerLoop]
    rw [hd, hd]
    split_ifs with h1 h2 h3 h4
    · rw [wildcard_iff] at h1
      exact Or.inl ⟨Or.inl ⟨Or.inl h1.1, Or.inl h1.2⟩, rfl⟩
    · rw [anyTagIn_iff] at h2
      exact Or.inl ⟨Or.inl ⟨Or.inl h2.1, Or.inr h2.2⟩, rfl⟩
    · rw [wildcard_iff] at h3
      exact Or.inl ⟨Or.inr ⟨h3.1, Or.inl h3.2.1, Or.inl h3.2.2⟩, rfl⟩
    · rw [anyTagIn_iff] at h4
      exact Or.inl ⟨Or.inr ⟨h4.1, Or.inl h4.2.1, Or.inr h4.2.2⟩, rfl⟩
    · rw [wildcard_iff] at h1 h3
      rw [anyTagIn_iff] at h2 h4
      rcases ih with ⟨hc, he⟩ | ⟨hc, he⟩
      · left
        refine ⟨?_, he⟩
        rcases hc with ⟨a, b⟩ | ⟨a, b, c⟩
        · exact Or.inl ⟨Or.inr a, b⟩
        · exact Or.inr ⟨a, Or.inr b, c⟩
      · right
        refine ⟨?_, he⟩
        rintro (⟨a | a, b | b⟩ | ⟨a, b | b, c | c⟩)
        · exact h1 ⟨a, b⟩
        · exact h2 ⟨a, b⟩
        · exact hc (Or.inl ⟨a, Or.inl b⟩)
        · exact hc (Or.inl ⟨a, Or.inr b⟩)
        · exact h3 ⟨a, b, c⟩
        · exact h4 ⟨a, b, c⟩
        · exact hc (Or.inr ⟨a, b, Or.inl c⟩)
        · exact hc (Or.inr ⟨a, b, Or.inr c⟩)

theorem accept_split_prop (bi nS nD pS pD wS wD : Prop) :
    (((bi ∧ nD ∧ (wS ∨ pS)) ∨ (nS ∧ (wD ∨ pD))) ∨
        ((pD ∧ (wS ∨ nS)) ∨ (bi ∧ pS ∧ (wD ∨ nD)))) ↔
      (((nS ∧ (wD ∨ pD)) ∨ (pD ∧ (wS ∨ nS))) ∨
        (bi ∧ ((pS ∧ (wD ∨ nD)) ∨ (nD ∧ (wS ∨ pS))))) := by
  tauto

/-- The tests of the two tag loops, taken together, are a forward match or a
reverse match under direction `Bi`. -/
theorem accept_split (policy : Acl) (nodeTags peerTags : List String) :
    (((policy.AllowedDirection = TrafficDirectionBi ∧ hitsEntries nodeTags policy.Dst ∧
          (hasWildcard policy.Src ∨ hitsEntries peerTags policy.Src)) ∨
        (hitsEntries nodeTags policy.Src ∧
          (hasWildcard policy.Dst ∨ hitsEntries peerTags policy.Dst))) ∨
      ((hitsEntries peerTags policy.Dst ∧
          (hasWildcard policy.Src ∨ hitsEntries nodeTags policy.Src)) ∨
        (policy.AllowedDirection = TrafficDirectionBi ∧ hitsEntries peerTags policy.Src ∧
          (hasWildcard policy.Dst ∨ hitsEntries nodeTags policy.Dst)))) ↔
      (forwardMatch policy nodeTags peerTags ∨
        (policy.AllowedDirection = TrafficDirectionBi ∧
          reverseMatch policy nodeTags peerTags)) := by
  unfold reverseMatch forwardMatch
  exact accept_split_prop _ _ _ _ _ _ _

/-- Which policies the policy loop of `IsNodeAllowedToCommunicate` appends:
the enabled ones with a forward match, or with a reverse match and direction
`Bi`. -/
theorem IsNodeAllowedToCommunicate.mem_policyLoop (nodeTags peerTags : List String)
    (policies : List Acl) (q : Acl) :
    q ∈ IsNodeAllowedToCommunicate.policyLoop nodeTags peerTags policies ↔
      q ∈ policies ∧ q.Enabled = true ∧
        (forwardMatch q nodeTags peerTags ∨
          (q.AllowedDirection = TrafficDirectionBi ∧ reverseMatch q nodeTags peerTags)) := by
  induction policies with
  | nil => simp [IsNodeAllowedToCommunicate.policyLoop]
  | cons policy rest ih =>
    simp only [IsNodeAllowedToCommunicate.policyLoop]
    split_ifs with hen
    · rw [ih, List.mem_cons]
      constructor
      · rintro ⟨a, b, c⟩
        exact ⟨Or.inr a, b, c⟩
      · rintro ⟨a | a, b, c⟩
        · rw [a, hen] at b
          exact absurd b (by simp)
        · exact ⟨a, b, c⟩
    · have hen1 : policy.Enabled = true := by simpa using hen
      simp only [List.mem_append, ih, List.mem_cons]
      have hn := IsNodeAllowedToCommunicate.nodeLoop_cases policy nodeTags peerTags
      have hp := IsNodeAllowedToCommunicate.peerLoop_cases policy nodeTags peerTags
      have key : (q ∈ IsNodeAllowedToCommunicate.nodeLoop policy
            (convAclTagToValueMap policy.Src) (convAclTagToValueMap policy.Dst)
            peerTags nodeTags ∨
          q ∈ IsNodeAllowedToCommunicate.peerLoop policy
            (convAclTagToValueMap policy.Src) (convAclTagToValueMap policy.Dst)
            nodeTags peerTags) ↔
          (q = policy ∧ (forwardMatch policy nodeTags peerTags ∨
            (policy.AllowedDirection = TrafficDirectionBi ∧
              reverseMatch policy nodeTags peerTags))) := by
        rw [← accept_split]
        rcases hn with ⟨hnc, hne⟩ | ⟨hnc, hne⟩ <;> rcases hp with ⟨hpc, hpe⟩ | ⟨hpc, hpe⟩ <;>
          rw [hne, hpe] <;> simp only [List.mem_singleton, List.not_mem_nil, or_self,
            or_false, false_or]
        · exact ⟨fun h => ⟨h, Or.inl hnc⟩, fun h => h.1⟩
        · exact ⟨fun h => ⟨h, Or.inl hnc⟩, fun h => h.1⟩
        · exact ⟨fun h => ⟨h, Or.inr hpc⟩, fun h => h.1⟩
        · exact ⟨fun h => h.elim, fun h => h.2.elim hnc hpc⟩
      constructor
      · rintro (h | h | h)
        · obtain ⟨rfl, hm⟩ := key.1 (Or.inl h)
          exact ⟨Or.inl rfl, hen1, hm⟩
        · obtain ⟨rfl, hm⟩ := key.1 (Or.inr h)
          exact ⟨Or.inl rfl, hen1, hm⟩
        · exact ⟨Or.inr h.1, h.2⟩
      · rintro ⟨a | a, b, c⟩
        · rcases key.2 ⟨a, a ▸ c⟩ with h | h
          · exact Or.inl h
          · exact Or.inr (Or.inl h)
        · exact Or.inr (Or.inr ⟨a, b, c⟩)

/-! ## `GetDefaultPolicy` -/

theorem GetDefaultPolicy.scan_some (ruleType : String) (policies : List Acl) (p : Acl)
    (h : GetDefaultPolicy.scan ruleType policies = some p) :
    p ∈ policies ∧ p.Enabled = true ∧ p.RuleType = ruleType ∧
      hasWildcard p.Src ∧ hasWildcard p.Dst := by
  induction policies with
  | nil => simp [GetDefaultPolicy.scan] at h
  | cons policy rest ih =>
    simp only [GetDefaultPolicy.scan] at h
    split_ifs at h with h1 h2
    · obtain ⟨a, b⟩ := ih h
      exact ⟨List.mem_cons_of_mem _ a, b⟩
    · cases h
      rw [wildcard_iff, wildcard_iff] at h2
      exact ⟨List.mem_cons_self _ _, by simpa using h1, h2⟩
    · obtain ⟨a, b⟩ := ih h
      exact ⟨List.mem_cons_of_mem _ a, b⟩

theorem GetDefaultPolicy.scan_none (ruleType : String) (policies : List Acl)
    (h : GetDefaultPolicy.scan ruleType policies = none) (p : Acl) (hp : p ∈ policies) :
    ¬ (p.Enabled = true ∧ p.RuleType = ruleType ∧ hasWildcard p.Src ∧ hasWildcard p.Dst) := by
  induction policies with
  | nil => simp at hp
  | cons policy rest ih =>
    simp only [GetDefaultPolicy.scan] at h
    split_ifs at h with h1 h2
    · rcases List.mem_cons.1 hp with rfl | hp
      · simp [h1]
      · exact ih h hp
    · rw [wildcard_iff, wildcard_iff] at h2
      rcases List.mem_cons.1 hp with rfl | hp
      · rintro ⟨-, hb⟩
        exact h2 hb
      · exact ih h hp

/-- A policy that `GetDefaultPolicy` returns enabled is the stored canonical
default or an enabled policy of the network and rule type with the wildcard
in `Src` and in `Dst`. -/
theorem GetDefaultPolicy_enabled_cases (w : World) (netID ruleType : String)
    (hen : (GetDefaultPolicy w netID ruleType).1.Enabled = true) :
    (w.GetAcl (netID ++ "." ++ (if ruleType = DevicePolicy then "all-nodes" else "all-users"))
        = some (GetDefaultPolicy w netID ruleType).1) ∨
      ((GetDefaultPolicy w netID ruleType).1 ∈ w.ListAcls ∧
        (GetDefaultPolicy w netID ruleType).1.NetworkID = netID ∧
        (GetDefaultPolicy w netID ruleType).1.RuleType = ruleType ∧
        hasWildcard (GetDefaultPolicy w netID ruleType).1.Src ∧
        hasWildcard (GetDefaultPolicy w netID ruleType).1.Dst) := by
  revert hen
  simp only [GetDefaultPolicy]
  cases hget : w.GetAcl (netID ++ "." ++
      (if ruleType = DevicePolicy then "all-nodes" else "all-users")) with
  | none => intro hen; simp [Acl.zero] at hen
  | some acl =>
    by_cases ha : acl.Enabled = true
    · simp [ha]
    · cases hscan : GetDefaultPolicy.scan ruleType (ListAclsByNetwork w netID) with
      | none => simp [ha]
      | some policy =>
        obtain ⟨h1, -, h3, h4, h5⟩ := GetDefaultPolicy.scan_some _ _ _ hscan
        rw [mem_ListAclsByNetwork] at h1
        simp only [ha]
        intro _
        exact Or.inr ⟨h1.1, h1.2, h3, h4, h5⟩

/-! ## C4: unidirectional enforcement -/

theorem hitsEntries_singleton (t v : String) (entries : List AclPolicyTag)
    (hv : entries.map (fun e => e.Value) = [v]) : hitsEntries [t] entries ↔ t = v := by
  have hmem : ∀ x, (∃ e ∈ entries, e.Value = x) ↔ x = v := by
    intro x
    have := List.mem_map (f := fun e : AclPolicyTag => e.Value) (l := entries) (b := x)
    rw [hv, List.mem_singleton] at this
    exact this.symm
  simp only [hitsEntries, List.mem_singleton, exists_eq_left, hmem]

theorem hasWildcard_singleton (v : String) (entries : List AclPolicyTag)
    (hv : entries.map (fun e => e.Value) = [v]) : hasWildcard entries ↔ "*" = v := by
  have := List.mem_map (f := fun e : AclPolicyTag => e.Value) (l := entries) (b := "*")
  rw [hv, List.mem_singleton] at this
  exact this.symm

/-- C4: in a network whose canonical default device policy is not enabled and
whose only enabled device policy `p` is unidirectional with `Src = [s]`,
`Dst = [d]` (`s`, `d` distinct concrete tags), for a node `A`
carrying exactly tag `d` and a node `B` carrying exactly tag `s`,
`IsNodeAllowedToCommunicate A B true` returns `(false, [])`. -/
theorem C4_unidirectional_enforced (w : World) (net s d : String) (p : Acl) (A B : Node)
    (hs : s ≠ "*") (hsd : s ≠ d)
    (hA : (staticNormal w A).Network = net) (hAt : (staticNormal w A).Tags = [d])
    (hB : (staticNormal w B).Network = net) (hBt : (staticNormal w B).Tags = [s])
    (hdef : ∀ a, w.GetAcl (net ++ ".all-nodes") = some a → a.Enabled = false)
    (honly : ∀ q ∈ listDevicePolicies w net, q.Enabled = true → q = p)
    (hsrc : p.Src.map (fun e => e.Value) = [s]) (hdst : p.Dst.map (fun e => e.Value) = [d])
    (hdir : p.AllowedDirection = TrafficDirectionUni) :
    IsNodeAllowedToCommunicate w A B true = (false, []) := by
  have hnodef : ¬ ((GetDefaultPolicy w net DevicePolicy).2 = none ∧
      (GetDefaultPolicy w net DevicePolicy).1.Enabled = true) := by
    rintro ⟨-, hen⟩
    rcases GetDefaultPolicy_enabled_cases w net DevicePolicy hen with h | ⟨h1, h2, h3, h4, -⟩
    · rw [if_pos rfl, dot_append_assoc] at h
      have := hdef _ h
      rw [hen] at this
      exact absurd this (by simp)
    · have hq := honly _ ((mem_listDevicePolicies w net _).2 ⟨h1, h2, h3⟩) hen
      rw [hq, hasWildcard_singleton s p.Src hsrc] at h4
      exact hs h4.symm
  have hnil : IsNodeAllowedToCommunicate.policyLoop [d] [s] (listDevicePolicies w net) = [] := by
    rw [List.eq_nil_iff_forall_not_mem]
    intro q hq
    rw [IsNodeAllowedToCommunicate.mem_policyLoop] at hq
    obtain ⟨hq1, hq2, hq3⟩ := hq
    have hqp := honly q hq1 hq2
    subst hqp
    rcases hq3 with (⟨h, -⟩ | ⟨h, -⟩) | ⟨h, -⟩
    · rw [hitsEntries_singleton d s q.Src hsrc] at h
      exact hsd h.symm
    · rw [hitsEntries_singleton s d q.Dst hdst] at h
      exact hsd h
    · rw [hdir] at h
      exact absurd h (by decide)
  simp only [IsNodeAllowedToCommunicate, snapshotTags_eq, hA, hB, hAt, hBt, hnil]
  rw [if_neg (fun h => hnodef h.2)]
  simp

/-- C4 in scenario S2: `N1` carries `db`, `N2` carries `web`, the only enabled
device policy is the unidirectional `webdb`. -/
theorem C4_unidirectional_enforced_witness :
    IsNodeAllowedToCommunicate worldS2 N1 N2 true = (false, []) :=
  C4_unidirectional_enforced worldS2 "netA" "web" "db" webdb N1 N2 (by decide)
    (by decide) (by decide) (by decide) (by decide) (by decide)
    (by
      intro a h
      have : a = allNodes false := by
        have h2 : worldS2.GetAcl ("netA" ++ ".all-nodes") = some (allNodes false) := by decide
        rw [h2] at h
        exact (Option.some.inj h).symm
      rw [this]
      decide)
    (by decide) (by decide) (by decide) (by decide)

/-! ## C5: which match needs direction `Bi` -/

/-- The policy list of `IsNodeAllowedToCommunicate` without the default
check. -/
theorem IsNodeAllowedToCommunicate_noDefault_snd (w : World) (node peer : Node) :
    (IsNodeAllowedToCommunicate w node peer false).2 =
      IsNodeAllowedToCommunicate.policyLoop (staticNormal w node).Tags
        (staticNormal w peer).Tags (listDevicePolicies w (staticNormal w peer).Network) := by
  simp only [IsNodeAllowedToCommunicate, snapshotTags_eq]
  rw [if_neg (by simp)]
  split_ifs <;> rfl

/-- C5, as stated, fails both ways in scenario S2 with the unidirectional
policy `webdb` (`web -> db`).  With `N1` (tag `db`) as node and `N2` (tag
`web`) as peer, a tag of the node is in `Dst` and a tag of the peer is in
`Src`, yet the policy is not accepted.  With `N2` as node and `N1` as peer, a
tag of the node is in `Src`, a tag of the peer is in `Dst`, there is no match
the other way round and the direction is not `Bi`, yet the policy is
accepted. -/
theorem C5_direction_roles_exchanged :
    (webdb ∈ listDevicePolicies worldS2 "netA" ∧ webdb.Enabled = true ∧
      webdb.AllowedDirection ≠ TrafficDirectionBi) ∧
    (hitsEntries N1.Tags webdb.Dst ∧ hitsEntries N2.Tags webdb.Src ∧
      webdb ∉ (IsNodeAllowedToCommunicate worldS2 N1 N2 false).2) ∧
    (hitsEntries N2.Tags webdb.Src ∧ hitsEntries N1.Tags webdb.Dst ∧
      ¬ reverseMatch webdb N2.Tags N1.Tags ∧
      webdb ∈ (IsNodeAllowedToCommunicate worldS2 N2 N1 false).2) := by
  decide

/-- C5, amended: in `IsNodeAllowedToCommunicate node peer false`, an enabled
device policy of the peer's network for which a tag of node is in `Src` and a
tag of peer is in `Dst` is accepted whatever its `AllowedDirection`, whereas
one for which a tag of node is in `Dst` and a tag of peer is in `Src`, with no
match the other way round, is accepted only if its `AllowedDirection` is `Bi`
(and then it is).  In general a policy is accepted exactly on a forward match
or on a reverse match under `Bi`. -/
theorem C5_direction (w : World) (node peer : Node) (p : Acl)
    (hp : p ∈ listDevicePolicies w (staticNormal w peer).Network) (hen : p.Enabled = true) :
    (hitsEntries (staticNormal w node).Tags p.Src ∧
        hitsEntries (staticNormal w peer).Tags p.Dst →
      p ∈ (IsNodeAllowedToCommunicate w node peer false).2) ∧
    (hitsEntries (staticNormal w node).Tags p.Dst ∧
        hitsEntries (staticNormal w peer).Tags p.Src ∧
        ¬ forwardMatch p (staticNormal w node).Tags (staticNormal w peer).Tags →
      (p ∈ (IsNodeAllowedToCommunicate w node peer false).2 ↔
        p.AllowedDirection = TrafficDirectionBi)) ∧
    (p ∈ (IsNodeAllowedToCommunicate w node peer false).2 ↔
      (forwardMatch p (staticNormal w node).Tags (staticNormal w peer).Tags ∨
        (p.AllowedDirection = TrafficDirectionBi ∧
          reverseMatch p (staticNormal w node).Tags (staticNormal w peer).Tags))) := by
  have hmem := IsNodeAllowedToCommunicate.mem_policyLoop (staticNormal w node).Tags
    (staticNormal w peer).Tags (listDevicePolicies w (staticNormal w peer).Network) p
  rw [← IsNodeAllowedToCommunicate_noDefault_snd] at hmem
  refine ⟨?_, ?_, ?_⟩
  · rintro ⟨h1, h2⟩
    exact hmem.2 ⟨hp, hen, Or.inl (Or.inl ⟨h1, Or.inr h2⟩)⟩
  · rintro ⟨h1, h2, h3⟩
    constructor
    · intro h
      rcases (hmem.1 h).2.2 with hf | ⟨hb, -⟩
      · exact absurd hf h3
      · exact hb
    · intro hb
      exact hmem.2 ⟨hp, hen, Or.inr ⟨hb, Or.inr ⟨h1, Or.inr h2⟩⟩⟩
  · constructor
    · intro h
      exact (hmem.1 h).2.2
    · intro h
      exact hmem.2 ⟨hp, hen, h⟩

/-- C5, amended, for `webdb` in scenario S2 with `N2` as node and `N1` as
peer. -/
theorem C5_direction_witness :
    webdb ∈ listDevicePolicies worldS2 (staticNormal worldS2 N1).Network ∧
      webdb.Enabled = true ∧
      (hitsEntries (staticNormal worldS2 N2).Tags webdb.Src ∧
          hitsEntries (staticNormal worldS2 N1).Tags webdb.Dst →
        webdb ∈ (IsNodeAllowedToCommunicate worldS2 N2 N1 false).2) :=
  ⟨by decide, by decide, (C5_direction worldS2 N2 N1 webdb (by decide) (by decide)).1⟩

/-! ## C6: repeated entries in the returned list -/

/-- C6: the code at the input of scenario S2.  With `N2` (tag `web`) as node
and `N1` (tag `db`) as peer, the loop over the node's tags appends `webdb`
and the loop over the peer's tags appends it again: the list has length 2. -/
theorem C6_webdb_listed_twice :
    IsNodeAllowedToCommunicate worldS2 N2 N1 true = (true, [webdb, webdb]) := by
  decide

/-! ## C7: the boolean and the list agree -/

theorem IsUserAllowedToCommunicate.mem_userPolicyLoop (peerTags : List String)
    (policies : List Acl) (q : Acl) :
    q ∈ IsUserAllowedToCommunicate.policyLoop peerTags policies ↔
      q ∈ policies ∧ q.Enabled = true ∧
        (hasWildcard q.Dst ∨ hitsEntries peerTags q.Dst) := by
  induction policies with
  | nil => simp [IsUserAllowedToCommunicate.policyLoop]
  | cons policy rest ih =>
    simp only [IsUserAllowedToCommunicate.policyLoop]
    split_ifs with h1 h2 h3
    · rw [ih, List.mem_cons]
      constructor
      · rintro ⟨a, b⟩
        exact ⟨Or.inr a, b⟩
      · rintro ⟨rfl | a, b, c⟩
        · rw [h1] at b
          exact absurd b (by simp)
        · exact ⟨a, b, c⟩
    · rw [wildcard_iff] at h2
      rw [List.mem_cons, ih, List.mem_cons]
      constructor
      · rintro (rfl | ⟨a, b⟩)
        · exact ⟨Or.inl rfl, by simpa using h1, Or.inl h2⟩
        · exact ⟨Or.inr a, b⟩
      · rintro ⟨rfl | a, b⟩
        · exact Or.inl rfl
        · exact Or.inr ⟨a, b⟩
    · rw [anyTagIn_iff] at h3
      rw [List.mem_cons, ih, List.mem_cons]
      constructor
      · rintro (rfl | ⟨a, b⟩)
        · exact ⟨Or.inl rfl, by simpa using h1, Or.inr h3⟩
        · exact ⟨Or.inr a, b⟩
      · rintro ⟨rfl | a, b⟩
        · exact Or.inl rfl
        · exact Or.inr ⟨a, b⟩
    · rw [wildcard_iff] at h2
      rw [anyTagIn_iff] at h3
      rw [ih, List.mem_cons]
      constructor
      · rintro ⟨a, b⟩
        exact ⟨Or.inr a, b⟩
      · rintro ⟨rfl | a, b, c | c⟩
        · exact absurd c h2
        · exact absurd c h3
        · exact ⟨a, b, Or.inl c⟩
        · exact ⟨a, b, Or.inr c⟩

/-- C7: `IsNodeAllowedToCommunicate` and `IsUserAllowedToCommunicate` return
true if and only if the returned list is non-empty, a denial is the pair
`(false, [])`, and every returned policy is enabled. -/
theorem C7_result_shape (w : World) (node peer : Node) (checkDefaultPolicy : Bool)
    (userName : String) :
    (((IsNodeAllowedToCommunicate w node peer checkDefaultPolicy).1 = true ↔
        (IsNodeAllowedToCommunicate w node peer checkDefaultPolicy).2 ≠ []) ∧
      ((IsNodeAllowedToCommunicate w node peer checkDefaultPolicy).1 = false →
        IsNodeAllowedToCommunicate w node peer checkDefaultPolicy = (false, [])) ∧
      (∀ p ∈ (IsNodeAllowedToCommunicate w node peer checkDefaultPolicy).2,
        p.Enabled = true)) ∧
    (((IsUserAllowedToCommunicate w userName peer).1 = true ↔
        (IsUserAllowedToCommunicate w userName peer).2 ≠ []) ∧
      ((IsUserAllowedToCommunicate w userName peer).1 = false →
        IsUserAllowedToCommunicate w userName peer = (false, [])) ∧
      (∀ p ∈ (IsUserAllowedToCommunicate w userName peer).2, p.Enabled = true)) := by
  constructor
  · simp only [IsNodeAllowedToCommunicate]
    split_ifs with h1 h2
    · exact ⟨by simp, by simp, by simpa using h1.2.2⟩
    · refine ⟨?_, by simp, ?_⟩
      · simp only [true_iff]
        intro h
        rw [h] at h2
        simp at h2
      · intro p hp
        exact ((IsNodeAllowedToCommunicate.mem_policyLoop _ _ _ p).1 hp).2.1
    · have hnil : IsNodeAllowedToCommunicate.policyLoop
          (snapshotTags (staticNormal w node)) (snapshotTags (staticNormal w peer))
          (listDevicePolicies w (staticNormal w peer).Network) = [] := by
        rw [← List.length_eq_zero]
        omega
      rw [hnil]
      simp
  · simp only [IsUserAllowedToCommunicate]
    split_ifs with h1
    · exact ⟨by simp, by simp, by simpa using h1⟩
    · cases hu : w.GetUser userName with
      | none => simp
      | some user =>
        simp only []
        split_ifs with h2
        · refine ⟨?_, by simp, ?_⟩
          · simp only [true_iff]
            intro h
            rw [h] at h2
            simp at h2
          · intro p hp
            exact ((IsUserAllowedToCommunicate.mem_userPolicyLoop _ _ p).1 hp).2.1
        · simp

/-! ## C8: the default user policy -/

/-- C8: if the default user policy `<net>.all-users` of the peer's network is
stored and enabled, `IsUserAllowedToCommunicate userName peer` returns
`(true, [that policy])` for every `userName`, whether or not `GetUser`
succeeds for it. -/
theorem C8_default_user_policy (w : World) (userName : String) (peer : Node) (acl : Acl)
    (hget : w.GetAcl ((staticNormal w peer).Network ++ ".all-users") = some acl)
    (hen : acl.Enabled = true) :
    IsUserAllowedToCommunicate w userName peer = (true, [acl]) := by
  have hd : GetDefaultPolicy w (staticNormal w peer).Network UserPolicy = (acl, none) := by
    apply GetDefaultPolicy_of_enabled _ _ UserPolicy acl _ hen
    rw [if_neg (by decide), dot_append_assoc]
    exact hget
  simp only [IsUserAllowedToCommunicate, hd, hen, if_true]

/-- C8 in scenario S1 for the name `carol`, which `GetUser` does not know. -/
theorem C8_default_user_policy_witness :
    worldS1.GetUser "carol" = none ∧
      worldS1.GetAcl ((staticNormal worldS1 N1).Network ++ ".all-users")
        = some (allUsers true) ∧
      (allUsers true).Enabled = true ∧
      IsUserAllowedToCommunicate worldS1 "carol" N1 = (true, [allUsers true]) :=
  ⟨by decide, by decide, by decide,
    C8_default_user_policy worldS1 "carol" N1 (allUsers true) (by decide) (by decide)⟩

/-! ## User policies, relative to the list read -/

theorem listPoliciesOfUser.mem_inner (acl : Acl) (entries : List AclPolicyTag)
    (keys : List String) (q : Acl) :
    q ∈ listPoliciesOfUser.inner acl (convAclTagToValueMap entries) keys ↔
      q = acl ∧ hitsEntries keys entries := by
  induction keys with
  | nil => simp [listPoliciesOfUser.inner, hitsEntries]
  | cons k rest ih =>
    have hd : hitsEntries (k :: rest) entries ↔
        (k ∈ convAclTagToValueMap entries ∨ hitsEntries rest entries) := by
      simp [hitsEntries, mem_convAclTagToValueMap]
    simp only [listPoliciesOfUser.inner]
    rw [hd]
    split_ifs with h
    · rw [List.mem_cons, ih]
      constructor
      · rintro (a | ⟨a, -⟩)
        · exact ⟨a, Or.inl h⟩
        · exact ⟨a, Or.inl h⟩
      · rintro ⟨a, -⟩
        exact Or.inl a
    · rw [ih]
      constructor
      · rintro ⟨a, b⟩
        exact ⟨a, Or.inr b⟩
      · rintro ⟨a, b | b⟩
        · exact absurd b h
        · exact ⟨a, b⟩

/-- The policies `listPoliciesOfUser` returns: the user policies of the
network whose `Src` names the user. -/
theorem mem_listPoliciesOfUser (w : World) (user : User) (netID : String) (q : Acl) :
    q ∈ listPoliciesOfUser w user netID ↔
      q ∈ w.ListAcls ∧ q.NetworkID = netID ∧ q.RuleType = UserPolicy ∧ srcNamesUser q user := by
  unfold listPoliciesOfUser
  induction w.ListAcls with
  | nil => simp [listPoliciesOfUser.loop]
  | cons acl rest ih =>
    simp only [listPoliciesOfUser.loop]
    split_ifs with h1 h2
    · rw [mem_convAclTagToValueMap] at h2
      rw [List.mem_cons, ih, List.mem_cons]
      constructor
      · rintro (rfl | ⟨a, b⟩)
        · exact ⟨Or.inl rfl, h1.1, h1.2, Or.inl h2⟩
        · exact ⟨Or.inr a, b⟩
      · rintro ⟨rfl | a, b⟩
        · exact Or.inl rfl
        · exact Or.inr ⟨a, b⟩
    · rw [mem_convAclTagToValueMap] at h2
      simp only [List.mem_append, listPoliciesOfUser.mem_inner, ih, List.mem_cons]
      constructor
      · rintro (⟨rfl, a⟩ | ⟨rfl, a⟩ | ⟨a, b⟩)
        · exact ⟨Or.inl rfl, h1.1, h1.2, Or.inr (Or.inl a)⟩
        · exact ⟨Or.inl rfl, h1.1, h1.2, Or.inr (Or.inr a)⟩
        · exact ⟨Or.inr a, b⟩
      · rintro ⟨rfl | a, b, c, d | d | d⟩
        · exact absurd d h2
        · exact Or.inl ⟨rfl, d⟩
        · exact Or.inr (Or.inl ⟨rfl, d⟩)
        · exact Or.inr (Or.inr ⟨a, b, c, Or.inl d⟩)
        · exact Or.inr (Or.inr ⟨a, b, c, Or.inr (Or.inl d)⟩)
        · exact Or.inr (Or.inr ⟨a, b, c, Or.inr (Or.inr d)⟩)
    · rw [ih, List.mem_cons]
      constructor
      · rintro ⟨a, b⟩
        exact ⟨Or.inr a, b⟩
      · rintro ⟨rfl | a, b, c, d⟩
        · exact absurd ⟨b, c⟩ h1
        · exact ⟨a, b, c, d⟩

/-- The user evaluator relative to what `ListAcls` yields during the call:
when `GetDefaultPolicy` yields no enabled user policy for the peer's network,
`IsUserAllowedToCommunicate userName peer` returns true if and only if
`GetUser userName` succeeds and some enabled user policy of the peer's
network (among those `ListAcls` yields) names the user in `Src` (username,
network role or group) and has `"*"` or a tag of the peer in `Dst`; the
returned list holds exactly these policies, and it is empty on a denial. -/
theorem IsUserAllowedToCommunicate_of_listed (w : World) (userName : String) (peer : Node)
    (hdef : (GetDefaultPolicy w (staticNormal w peer).Network UserPolicy).1.Enabled = false) :
    ((IsUserAllowedToCommunicate w userName peer).1 = true ↔
      ∃ user, w.GetUser userName = some user ∧
        ∃ p ∈ w.ListAcls, userPolicyGrants p user (staticNormal w peer).Network
          (staticNormal w peer).Tags) ∧
    (∀ p, p ∈ (IsUserAllowedToCommunicate w userName peer).2 ↔
      ∃ user, w.GetUser userName = some user ∧ p ∈ w.ListAcls ∧
        userPolicyGrants p user (staticNormal w peer).Network (staticNormal w peer).Tags) ∧
    ((IsUserAllowedToCommunicate w userName peer).1 = false →
      IsUserAllowedToCommunicate w userName peer = (false, [])) := by
  have hmem : ∀ (user : User) (p : Acl),
      p ∈ IsUserAllowedToCommunicate.policyLoop (staticNormal w peer).Tags
          (listPoliciesOfUser w user (staticNormal w peer).Network) ↔
        p ∈ w.ListAcls ∧ userPolicyGrants p user (staticNormal w peer).Network
          (staticNormal w peer).Tags := by
    intro user p
    rw [IsUserAllowedToCommunicate.mem_userPolicyLoop, mem_listPoliciesOfUser]
    unfold userPolicyGrants
    tauto
  simp only [IsUserAllowedToCommunicate, hdef]
  rw [if_neg (by simp)]
  cases hu : w.GetUser userName with
  | none => simp
  | some user =>
    simp only []
    split_ifs with h2
    · refine ⟨?_, ?_, by simp⟩
      · simp only [true_iff]
        obtain ⟨p, hp⟩ := List.exists_mem_of_length_pos h2
        exact ⟨user, rfl, p, (hmem user p).1 hp⟩
      · intro p
        rw [hmem user p]
        constructor
        · intro h
          exact ⟨user, rfl, h⟩
        · rintro ⟨u, hu2, h⟩
          cases hu2
          exact h
    · have hnil : IsUserAllowedToCommunicate.policyLoop (staticNormal w peer).Tags
          (listPoliciesOfUser w user (staticNormal w peer).Network) = [] := by
        rw [← List.length_eq_zero]
        omega
      refine ⟨?_, ?_, by simp⟩
      · simp only [Bool.false_eq_true, false_iff]
        rintro ⟨u, hu2, p, hp⟩
        cases hu2
        have := (hmem user p).2 hp
        rw [hnil] at this
        exact absurd this (List.not_mem_nil _)
      · intro p
        simp only [List.not_mem_nil, false_iff]
        rintro ⟨u, hu2, hp⟩
        cases hu2
        have := (hmem user p).2 hp
        rw [hnil] at this
        exact absurd this (List.not_mem_nil _)

/-- Scenario S4 on a list read that yields the whole store: the default user
policy is disabled, `alice` is in
group `eng` and gets `(true, [eng-db])` towards `N1` (tag `db`), `bob` matches
nothing and gets `(false, [])`. -/
theorem IsUserAllowedToCommunicate_of_listed_S4 :
    (GetDefaultPolicy worldS2 (staticNormal worldS2 N1).Network UserPolicy).1.Enabled = false ∧
      IsUserAllowedToCommunicate worldS2 "alice" N1 = (true, [engdb]) ∧
      IsUserAllowedToCommunicate worldS2 "bob" N1 = (false, []) ∧
      (∀ p, p ∈ (IsUserAllowedToCommunicate worldS2 "alice" N1).2 ↔
        ∃ user, worldS2.GetUser "alice" = some user ∧ p ∈ worldS2.ListAcls ∧
          userPolicyGrants p user (staticNormal worldS2 N1).Network
            (staticNormal worldS2 N1).Tags) :=
  ⟨by decide, by decide, by decide, (IsUserAllowedToCommunicate_of_listed worldS2 "alice" N1 (by decide)).2.1⟩

/-! ## `GetDefaultPolicy`, relative to the two reads -/

theorem GetDefaultPolicy.scan_of_exists (ruleType : String) (policies : List Acl)
    (h : ∃ p ∈ policies, p.Enabled = true ∧ p.RuleType = ruleType ∧
      hasWildcard p.Src ∧ hasWildcard p.Dst) :
    ∃ q, GetDefaultPolicy.scan ruleType policies = some q := by
  cases hs : GetDefaultPolicy.scan ruleType policies with
  | some q => exact ⟨q, rfl⟩
  | none =>
    obtain ⟨p, hp, hc⟩ := h
    exact absurd hc (GetDefaultPolicy.scan_none ruleType policies hs p hp)

theorem canonical_id_eq (netID ruleType : String) :
    netID ++ "." ++ (if ruleType = DevicePolicy then "all-nodes" else "all-users") =
      netID ++ (if ruleType = DevicePolicy then ".all-nodes" else ".all-users") := by
  split_ifs <;> rw [dot_append_assoc] <;> rfl

/-- The default policy relative to what the two reads of one call return:
when the canonical default (`<netID>.all-nodes` for `DevicePolicy`,
`<netID>.all-users` otherwise) is stored as `acl`, `GetDefaultPolicy` returns
`acl` if it is enabled; otherwise an enabled policy of the network and rule
type with `"*"` in `Src` and in `Dst` if `ListAcls` yields one; otherwise the
disabled `acl`; always without error.  So a returned policy that is enabled
is the canonical default or has `"*"` in both `Src` and `Dst`. -/
theorem GetDefaultPolicy_of_listed (w : World) (netID ruleType : String) (acl : Acl)
    (hget : w.GetAcl (netID ++
      (if ruleType = DevicePolicy then ".all-nodes" else ".all-users")) = some acl) :
    (acl.Enabled = true → GetDefaultPolicy w netID ruleType = (acl, none)) ∧
    (acl.Enabled = false →
      (∃ p ∈ w.ListAcls, p.NetworkID = netID ∧ p.RuleType = ruleType ∧ p.Enabled = true ∧
        hasWildcard p.Src ∧ hasWildcard p.Dst) →
      ∃ q ∈ w.ListAcls, q.NetworkID = netID ∧ q.RuleType = ruleType ∧ q.Enabled = true ∧
        hasWildcard q.Src ∧ hasWildcard q.Dst ∧
        GetDefaultPolicy w netID ruleType = (q, none)) ∧
    (acl.Enabled = false →
      (¬ ∃ p ∈ w.ListAcls, p.NetworkID = netID ∧ p.RuleType = ruleType ∧ p.Enabled = true ∧
        hasWildcard p.Src ∧ hasWildcard p.Dst) →
      GetDefaultPolicy w netID ruleType = (acl, none)) ∧
    ((GetDefaultPolicy w netID ruleType).1.Enabled = true →
      (GetDefaultPolicy w netID ruleType).1 = acl ∨
        (hasWildcard (GetDefaultPolicy w netID ruleType).1.Src ∧
          hasWildcard (GetDefaultPolicy w netID ruleType).1.Dst)) := by
  rw [← canonical_id_eq] at hget
  refine ⟨?_, ?_, ?_, ?_⟩
  · intro hen
    exact GetDefaultPolicy_of_enabled w netID ruleType acl hget hen
  · rintro hen ⟨p, hp, hnet, hrt, hpe, hs, hd⟩
    obtain ⟨q, hq⟩ := GetDefaultPolicy.scan_of_exists ruleType (ListAclsByNetwork w netID)
      ⟨p, (mem_ListAclsByNetwork w netID p).2 ⟨hp, hnet⟩, hpe, hrt, hs, hd⟩
    obtain ⟨h1, h2, h3, h4, h5⟩ := GetDefaultPolicy.scan_some _ _ _ hq
    rw [mem_ListAclsByNetwork] at h1
    refine ⟨q, h1.1, h1.2, h3, h2, h4, h5, ?_⟩
    simp only [GetDefaultPolicy, hget, hen, hq]
    rfl
  · intro hen hno
    cases hs : GetDefaultPolicy.scan ruleType (ListAclsByNetwork w netID) with
    | some q =>
      obtain ⟨h1, h2, h3, h4, h5⟩ := GetDefaultPolicy.scan_some _ _ _ hs
      rw [mem_ListAclsByNetwork] at h1
      exact absurd ⟨q, h1.1, h1.2, h3, h2, h4, h5⟩ hno
    | none =>
      simp only [GetDefaultPolicy, hget, hen, hs]
      rfl
  · intro hen
    rcases GetDefaultPolicy_enabled_cases w netID ruleType hen with h | ⟨-, -, -, h4, h5⟩
    · rw [hget] at h
      exact Or.inl (Option.some.inj h).symm
    · exact Or.inr ⟨h4, h5⟩

/-- On a list read that yields a store whose canonical default user policy is
disabled and which holds the enabled all-wildcard user policy `netA.any-user`: that policy is
returned. -/
theorem GetDefaultPolicy_of_listed_custom :
    worldCustomAll.GetAcl ("netA" ++
        (if UserPolicy = DevicePolicy then ".all-nodes" else ".all-users"))
      = some (allUsers false) ∧
    (GetDefaultPolicy worldCustomAll "netA" UserPolicy).1.ID = "netA.any-user" ∧
    ((GetDefaultPolicy worldCustomAll "netA" UserPolicy).1.Enabled = true →
      (GetDefaultPolicy worldCustomAll "netA" UserPolicy).1 = allUsers false ∨
        (hasWildcard (GetDefaultPolicy worldCustomAll "netA" UserPolicy).1.Src ∧
          hasWildcard (GetDefaultPolicy worldCustomAll "netA" UserPolicy).1.Dst)) :=
  ⟨by decide, by decide,
    (GetDefaultPolicy_of_listed worldCustomAll "netA" UserPolicy (allUsers false) (by decide)).2.2.2⟩

/-! ## C11, C12: `IsAclPolicyValid` -/

theorem IsAclPolicyValid.deviceEntries_iff (d : Directory) (entries : List AclPolicyTag) :
    IsAclPolicyValid.deviceEntries d entries = true ↔ ∀ e ∈ entries, deviceEntryOk d e := by
  induction entries with
  | nil => simp [IsAclPolicyValid.deviceEntries]
  | cons a rest ih =>
    simp only [IsAclPolicyValid.deviceEntries, List.mem_cons, forall_eq_or_imp]
    have hne : DeviceAclID ≠ "" := by decide
    split_ifs with h1 h2 h3
    · simp only [Bool.false_eq_true, false_iff, not_and]
      intro h
      rcases h1 with h1 | h1
      · rw [h.2.1] at h1
        exact absurd h1 hne
      · exact absurd h1 h.1
    · simp only [Bool.false_eq_true, false_iff, not_and]
      intro h
      exact absurd h.2.1 h2
    · rw [ih]
      have h2' : a.ID = DeviceAclID := by simpa using h2
      have : deviceEntryOk d a := ⟨fun h => h1 (Or.inr h), h2', Or.inl h3⟩
      simp [this]
    · have h2' : a.ID = DeviceAclID := by simpa using h2
      cases hg : d.GetTag a.Value with
      | none =>
        simp only [Bool.false_eq_true, false_iff, not_and]
        intro h
        rcases h.2.2 with h | h
        · exact absurd h h3
        · rw [hg] at h
          simp at h
      | some u =>
        simp only []
        rw [ih]
        have : deviceEntryOk d a :=
          ⟨fun h => h1 (Or.inr h), h2', Or.inr (by rw [hg]; rfl)⟩
        simp [this]

theorem IsAclPolicyValid.userSrc_class (d : Directory) (netID : String)
    (entries : List AclPolicyTag) (h : IsAclPolicyValid.userSrc d netID entries = true) :
    ∀ e ∈ entries, e.Value = "*" ∨ e.ID = UserAclID ∨ e.ID = UserGroupAclID := by
  induction entries with
  | nil => simp
  | cons a rest ih =>
    simp only [IsAclPolicyValid.userSrc] at h
    simp only [List.mem_cons, forall_eq_or_imp]
    by_cases h1 : a.ID = "" ∨ a.Value = ""
    · rw [if_pos h1] at h
      exact absurd h (by simp)
    rw [if_neg h1] at h
    by_cases h2 : a.Value = "*"
    · rw [if_pos h2] at h
      exact ⟨Or.inl h2, ih h⟩
    rw [if_neg h2] at h
    by_cases h3 : a.ID ≠ UserAclID ∧ a.ID ≠ UserGroupAclID
    · rw [if_pos h3] at h
      exact absurd h (by simp)
    rw [if_neg h3] at h
    by_cases h4 : a.ID = UserAclID
    · rw [if_pos h4] at h
      refine ⟨Or.inr (Or.inl h4), ih ?_⟩
      cases hu : d.GetUser a.Value with
      | none => rw [hu] at h; simp at h
      | some u => rw [hu] at h; exact h
    rw [if_neg h4] at h
    by_cases h5 : a.ID = UserGroupAclID
    · rw [if_pos h5] at h
      refine ⟨Or.inr (Or.inr h5), ih ?_⟩
      cases hg : IsGroupValid d a.Value with
      | some e => rw [hg] at h; simp at h
      | none =>
        rw [hg] at h
        simp only [] at h
        by_cases h6 : a.Value ∈ d.GetUserGroupsInNetwork netID
        · rw [if_pos h6] at h
          exact h
        · rw [if_neg h6] at h
          exact absurd h (by simp)
    · exact absurd ⟨h4, h5⟩ h3

/-- What the validation does guarantee: a valid device policy meets the
rule-type constraint, and in a valid user policy every `Dst` entry is of class
`DeviceAclID` and every `Src` entry other than a wildcard is of class
`UserAclID` or `UserGroupAclID`. -/
theorem IsAclPolicyValid_classes (d : Directory) (p : Acl) (h : IsAclPolicyValid d p = true) :
    (p.RuleType = DevicePolicy →
      (∀ e ∈ p.Src, e.ID = DeviceAclID) ∧ (∀ e ∈ p.Dst, e.ID = DeviceAclID)) ∧
    (p.RuleType = UserPolicy →
      (∀ e ∈ p.Src, e.Value = "*" ∨ e.ID = UserAclID ∨ e.ID = UserGroupAclID) ∧
        (∀ e ∈ p.Dst, e.ID = DeviceAclID)) := by
  simp only [IsAclPolicyValid] at h
  split_ifs at h with h0 h1 h2 h3 h4 h5 h6
  · refine ⟨fun hd => ?_, fun _ => ?_⟩
    · rw [h1] at hd
      exact absurd hd (by decide)
    · have hs : IsAclPolicyValid.userSrc d p.NetworkID p.Src = true := by simpa using h2
      have ht : IsAclPolicyValid.deviceEntries d p.Dst = true := by simpa using h3
      rw [IsAclPolicyValid.deviceEntries_iff] at ht
      exact ⟨IsAclPolicyValid.userSrc_class d _ _ hs, fun e he => (ht e he).2.1⟩
  · refine ⟨fun _ => ?_, fun hu => absurd hu h1⟩
    have hs : IsAclPolicyValid.deviceEntries d p.Src = true := by simpa using h5
    have ht : IsAclPolicyValid.deviceEntries d p.Dst = true := by simpa using h6
    rw [IsAclPolicyValid.deviceEntries_iff] at hs ht
    exact ⟨fun e he => (hs e he).2.1, fun e he => (ht e he).2.1⟩
  · exact ⟨fun hd => absurd hd h4, fun hu => absurd hu h1⟩

/-- C11: the code at a user policy whose `Src` is `[{DeviceAclID, "*"}]`.  The
policy passes `IsAclPolicyValid` although its `Src` entry is of class
`DeviceAclID`: the loop over `Src` of a user policy skips a wildcard entry
before it looks at the class. -/
theorem C11_wildcard_src_skips_class_check :
    IsAclPolicyValid directoryS wildSrcUserPolicy = true ∧
      wildSrcUserPolicy.RuleType = UserPolicy ∧
      wildSrcUserPolicy.Src = [⟨DeviceAclID, "*"⟩] ∧
      ¬ ruleTypeConstraint wildSrcUserPolicy := by
  refine ⟨by decide, by decide, by decide, ?_⟩
  intro h
  have := (h.1 (by decide)).1 ⟨DeviceAclID, "*"⟩ (by decide)
  revert this
  decide

/-- C12: a device policy passes `IsAclPolicyValid` if and only if its
direction is `Uni` or `Bi` and every entry of `Src` and of `Dst` has a
non-empty `Value`, class `DeviceAclID`, and is the wildcard or a tag for which
`GetTag` succeeds; and whatever the rule type, a direction other than `Uni`
and `Bi` makes `IsAclPolicyValid` false. -/
theorem C12_device_policy_valid_iff (d : Directory) (p : Acl) :
    (p.RuleType = DevicePolicy →
      (IsAclPolicyValid d p = true ↔
        (p.AllowedDirection = TrafficDirectionUni ∨ p.AllowedDirection = TrafficDirectionBi) ∧
          (∀ e ∈ p.Src, deviceEntryOk d e) ∧ (∀ e ∈ p.Dst, deviceEntryOk d e))) ∧
    (p.AllowedDirection ≠ TrafficDirectionUni → p.AllowedDirection ≠ TrafficDirectionBi →
      IsAclPolicyValid d p = false) := by
  constructor
  · intro hrt
    have hne : DevicePolicy ≠ UserPolicy := by decide
    simp only [IsAclPolicyValid, hrt, hne, if_false, if_true]
    rw [← IsAclPolicyValid.deviceEntries_iff, ← IsAclPolicyValid.deviceEntries_iff]
    by_cases hdir : p.AllowedDirection ≠ TrafficDirectionBi ∧
        p.AllowedDirection ≠ TrafficDirectionUni
    · rw [if_pos hdir]
      simp only [Bool.false_eq_true, false_iff, not_and]
      intro h
      rcases h with h | h
      · exact absurd h hdir.2
      · exact absurd h hdir.1
    · rw [if_neg hdir]
      have hd : p.AllowedDirection = TrafficDirectionUni ∨
          p.AllowedDirection = TrafficDirectionBi := by
        by_contra hc
        exact hdir ⟨fun h => hc (Or.inr h), fun h => hc (Or.inl h)⟩
      cases hs : IsAclPolicyValid.deviceEntries d p.Src <;>
        cases ht : IsAclPolicyValid.deviceEntries d p.Dst <;> simp [hd]
  · intro h1 h2
    simp only [IsAclPolicyValid]
    rw [if_pos ⟨h2, h1⟩]

/-- C12 for the device policy `webdb` and the directory of the scenarios, in
which the tags `web` and `db` exist. -/
theorem C12_device_policy_valid_iff_witness :
    webdb.RuleType = DevicePolicy ∧ IsAclPolicyValid directoryS webdb = true :=
  ⟨by decide,
    ((C12_device_policy_valid_iff directoryS webdb).1 (by decide)).2
      ⟨Or.inl (by decide), by decide, by decide⟩⟩

/-! ## C13: `ValidateCreateAclReq` -/

/-- C13, as stated, fails: the request `webdb` with the illegal direction 7,
for the existing network `netA`, is accepted by `ValidateCreateAclReq`
although `IsAclPolicyValid` is false for it. -/
theorem C13_body_is_not_validated :
    ValidateCreateAclReq directoryS webdbBadDirection = none ∧
      IsAclPolicyValid directoryS webdbBadDirection = false := by
  decide

/-- C13, amended: `ValidateCreateAclReq req` returns no error if and only if
the network `req.NetworkID` exists; the policy body plays no part, so two
requests for the same network get the same answer. -/
theorem C13_ValidateCreateAclReq_iff (d : Directory) (req : Acl) :
    (ValidateCreateAclReq d req = none ↔ (d.GetNetwork req.NetworkID).isSome = true) ∧
    (∀ req2 : Acl, req2.NetworkID = req.NetworkID →
      ValidateCreateAclReq d req2 = ValidateCreateAclReq d req) := by
  constructor
  · simp only [ValidateCreateAclReq]
    cases d.GetNetwork req.NetworkID <;> simp
  · intro req2 h
    simp only [ValidateCreateAclReq, h]

/-! ## Maps as association lists -/

theorem mapGet_cons {α : Type} (kv : String × α) (m : List (String × α)) (k : String) :
    mapGet (kv :: m) k = if kv.1 = k then some kv.2 else mapGet m k := by
  simp only [mapGet, List.find?_cons]
  by_cases h : kv.1 = k <;> simp [h]

theorem mapSet_cons {α : Type} (kv : String × α) (m : List (String × α)) (k : String) (v : α) :
    mapSet (kv :: m) k v = if kv.1 = k then mapSet m k v else kv :: mapSet m k v := by
  simp only [mapSet, List.filter_cons]
  by_cases h : kv.1 = k <;> simp [h]

theorem mapDelete_cons {α : Type} (kv : String × α) (m : List (String × α)) (k : String) :
    mapDelete (kv :: m) k = if kv.1 = k then mapDelete m k else kv :: mapDelete m k := by
  simp only [mapDelete, List.filter_cons]
  by_cases h : kv.1 = k <;> simp [h]

theorem mapGet_mapSet_self {α : Type} (m : List (String × α)) (k : String) (v : α) :
    mapGet (mapSet m k v) k = some v := by
  induction m with
  | nil => simp [mapGet, mapSet]
  | cons kv rest ih =>
    rw [mapSet_cons]
    split_ifs with h
    · exact ih
    · rw [mapGet_cons, if_neg h]
      exact ih

theorem mapGet_mapSet_ne {α : Type} (m : List (String × α)) (k k2 : String) (v : α)
    (hne : k2 ≠ k) : mapGet (mapSet m k v) k2 = mapGet m k2 := by
  induction m with
  | nil => simp [mapGet, mapSet, hne.symm]
  | cons kv rest ih =>
    rw [mapSet_cons, mapGet_cons]
    split_ifs with h h2 h2
    · exact absurd (h2.symm.trans h) hne
    · exact ih
    · rw [mapGet_cons, if_pos h2]
    · rw [mapGet_cons, if_neg h2]
      exact ih

theorem mapGet_mapDelete_self {α : Type} (m : List (String × α)) (k : String) :
    mapGet (mapDelete m k) k = none := by
  induction m with
  | nil => simp [mapGet, mapDelete]
  | cons kv rest ih =>
    rw [mapDelete_cons]
    split_ifs with h
    · exact ih
    · rw [mapGet_cons, if_neg h]
      exact ih

theorem mapGet_mem {α : Type} (m : List (String × α)) (k : String) (v : α)
    (h : mapGet m k = some v) : (k, v) ∈ m := by
  simp only [mapGet, Option.map_eq_some'] at h
  obtain ⟨kv, hf, hv⟩ := h
  have hm := List.mem_of_find?_eq_some hf
  have hk := List.find?_some hf
  simp only [decide_eq_true_eq] at hk
  have : kv = (k, v) := by
    cases kv
    simp only at hk hv
    rw [hk, hv]
  rw [← this]
  exact hm

theorem mapGet_isSome_mapSet {α : Type} (m : List (String × α)) (k k2 : String) (v : α)
    (h : (mapGet m k2).isSome = true) : (mapGet (mapSet m k v) k2).isSome = true := by
  by_cases hk : k2 = k
  · rw [hk, mapGet_mapSet_self]
    rfl
  · rw [mapGet_mapSet_ne m k k2 v hk]
    exact h

/-! ## C14, C15: what `UpdateAcl` writes -/

/-- What `UpdateAcl` writes for a default policy: everything but `Enabled`,
`Port` and `Proto` is kept, and `Port` and `Proto` are kept unless the
request's service type is `Any`. -/
theorem UpdateAcl.written_default (newAcl acl : Acl) (hd : acl.Default = true) :
    UpdateAcl.written newAcl acl =
      if newAcl.ServiceType = Any then
        { acl with Port := [], Proto := ALL, Enabled := newAcl.Enabled }
      else { acl with Enabled := newAcl.Enabled } := by
  simp only [UpdateAcl.written, hd]
  split_ifs <;> simp_all

/-- C14: the code at the default group policy `netA.NetworkAdmin-grp`, as
`CreateDefaultUserPolicies` seeds it, and a request with service type `Any`.
The policy has `Default = true` and an unset `Proto`; the value `UpdateAcl`
writes has `Proto = ALL`, so it is not `acl` with only `Enabled` replaced. -/
theorem C14_default_policy_proto_rewritten :
    (defaultGroupAcl "netA" NetworkAdmin 0).Default = true ∧
      (defaultGroupAcl "netA" NetworkAdmin 0).Proto = "" ∧
      (UpdateAcl.written disableRequest
        (defaultGroupAcl "netA" NetworkAdmin 0)).Proto = ALL ∧
      UpdateAcl.written disableRequest
          (defaultGroupAcl "netA" NetworkAdmin 0) ≠
        { defaultGroupAcl "netA" NetworkAdmin 0 with Enabled := false } ∧
      mapGet ((emptyRegistry true).UpdateAcl disableRequest
          (defaultGroupAcl "netA" NetworkAdmin 0)).2.aclsTable "netA.NetworkAdmin-grp" =
        some { defaultGroupAcl "netA" NetworkAdmin 0 with Proto := ALL, Enabled := false } := by
  decide

theorem database.Insert_cache (s : Registry) (key : String) (value : Acl) :
    (database.Insert s key value).2.aclCacheMap = s.aclCacheMap ∧
      (database.Insert s key value).2.CacheEnabled = s.CacheEnabled ∧
      (database.Insert s key value).2.fault = s.fault := by
  unfold database.Insert
  cases hf : s.fault <;> simp [hf]

theorem database.DeleteRecord_cache (s : Registry) (key : String) :
    (database.DeleteRecord s key).2.aclCacheMap = s.aclCacheMap ∧
      (database.DeleteRecord s key).2.CacheEnabled = s.CacheEnabled ∧
      (database.DeleteRecord s key).2.fault = s.fault := by
  unfold database.DeleteRecord
  cases hf : s.fault <;> simp [hf]

/-- A write-through operation: a store write followed by a cache update that
is made only when the write succeeded and the cache is enabled. -/
theorem write_through (s : Registry) (r : Option StoreError × Registry)
    (upd : Registry → Registry) (hc : r.2.aclCacheMap = s.aclCacheMap) :
    (∀ e, r.1 = some e →
      (if r.1 = none ∧ s.CacheEnabled = true then (r.1, upd r.2) else r).1 = some e ∧
        (if r.1 = none ∧ s.CacheEnabled = true then (r.1, upd r.2) else r).2.aclCacheMap
          = s.aclCacheMap) ∧
    ((if r.1 = none ∧ s.CacheEnabled = true then (r.1, upd r.2) else r).2.aclCacheMap
        ≠ s.aclCacheMap → r.1 = none ∧ s.CacheEnabled = true) := by
  constructor
  · intro e he
    rw [if_neg (by rw [he]; simp)]
    exact ⟨he, hc⟩
  · intro h
    by_contra hn
    rw [if_neg hn] at h
    exact h hc

/-- C16: for `InsertAcl`, `UpsertAcl`, `UpdateAcl` and `DeleteAcl`, when the
store operation fails the call returns that error and leaves the cache map as
it was; and the cache map differs after the call only if the store operation
succeeded and caching is enabled. -/
theorem C16_cache_follows_store (s : Registry) (a newAcl : Acl) :
    ((∀ e, (database.Insert s a.ID a).1 = some e →
        (s.InsertAcl a).1 = some e ∧ (s.InsertAcl a).2.aclCacheMap = s.aclCacheMap) ∧
      ((s.InsertAcl a).2.aclCacheMap ≠ s.aclCacheMap →
        (database.Insert s a.ID a).1 = none ∧ s.CacheEnabled = true)) ∧
    ((∀ e, (database.Insert s a.ID a).1 = some e →
        (s.UpsertAcl a).1 = some e ∧ (s.UpsertAcl a).2.aclCacheMap = s.aclCacheMap) ∧
      ((s.UpsertAcl a).2.aclCacheMap ≠ s.aclCacheMap →
        (database.Insert s a.ID a).1 = none ∧ s.CacheEnabled = true)) ∧
    ((∀ e, (database.Insert s (UpdateAcl.written newAcl a).ID
          (UpdateAcl.written newAcl a)).1 = some e →
        (s.UpdateAcl newAcl a).1 = some e ∧
          (s.UpdateAcl newAcl a).2.aclCacheMap = s.aclCacheMap) ∧
      ((s.UpdateAcl newAcl a).2.aclCacheMap ≠ s.aclCacheMap →
        (database.Insert s (UpdateAcl.written newAcl a).ID
          (UpdateAcl.written newAcl a)).1 = none ∧ s.CacheEnabled = true)) ∧
    ((∀ e, (database.DeleteRecord s a.ID).1 = some e →
        (s.DeleteAcl a).1 = some e ∧ (s.DeleteAcl a).2.aclCacheMap = s.aclCacheMap) ∧
      ((s.DeleteAcl a).2.aclCacheMap ≠ s.aclCacheMap →
        (database.DeleteRecord s a.ID).1 = none ∧ s.CacheEnabled = true)) :=
  ⟨write_through s (database.Insert s a.ID a) (fun r => r.storeAclInCache a)
      (database.Insert_cache s _ _).1,
    write_through s (database.Insert s a.ID a) (fun r => r.storeAclInCache a)
      (database.Insert_cache s _ _).1,
    write_through s
      (database.Insert s (UpdateAcl.written newAcl a).ID (UpdateAcl.written newAcl a))
      (fun r => r.storeAclInCache (UpdateAcl.written newAcl a))
      (database.Insert_cache s _ _).1,
    write_through s (database.DeleteRecord s a.ID) (fun r => r.removeAclFromCache a)
      (database.DeleteRecord_cache s _).1⟩

/-- C16 on a registry whose backend fails with `"connection refused"` and
whose cache holds `webdb`: inserting `engdb` returns the error and the cache
still holds exactly `webdb`. -/
theorem C16_cache_follows_store_witness :
    (database.Insert failingRegistry engdb.ID engdb).1
        = some (StoreError.Backend "connection refused") ∧
      (failingRegistry.InsertAcl engdb).1 = some (StoreError.Backend "connection refused") ∧
      (failingRegistry.InsertAcl engdb).2.aclCacheMap = [("netA.webdb", webdb)] :=
  ⟨by decide,
    ((C16_cache_follows_store failingRegistry engdb engdb).1.1
      (StoreError.Backend "connection refused") (by decide)).1,
    ((C16_cache_follows_store failingRegistry engdb engdb).1.1
      (StoreError.Backend "connection refused") (by decide)).2⟩

/-! ## C17: reads after writes -/

theorem Registry.GetAcl_cache_hit (t : Registry) (aID : String) (a : Acl)
    (hc : t.CacheEnabled = true) (h : mapGet t.aclCacheMap aID = some a) :
    t.GetAcl aID = ((a, none), t) := by
  simp [Registry.GetAcl, Registry.getAclFromCache, hc, h]

theorem Registry.GetAcl_fault (t : Registry) (aID msg : String)
    (hm : t.CacheEnabled = false ∨ mapGet t.aclCacheMap aID = none)
    (hf : t.fault = some msg) :
    t.GetAcl aID = ((Acl.zero, some (StoreError.Backend msg)), t) := by
  rcases hm with hc | hm
  · simp [Registry.GetAcl, hc, database.FetchRecord, hf]
  · by_cases hc : t.CacheEnabled = true
    · simp [Registry.GetAcl, Registry.getAclFromCache, hc, hm, database.FetchRecord, hf]
    · simp [Registry.GetAcl, hc, database.FetchRecord, hf]

theorem Registry.GetAcl_absent (t : Registry) (aID : String)
    (hm : t.CacheEnabled = false ∨ mapGet t.aclCacheMap aID = none)
    (hf : t.fault = none) (ht : mapGet t.aclsTable aID = none) :
    t.GetAcl aID = ((Acl.zero, some StoreError.EmptyRecord), t) := by
  rcases hm with hc | hm
  · simp [Registry.GetAcl, hc, database.FetchRecord, hf, ht]
  · by_cases hc : t.CacheEnabled = true
    · simp [Registry.GetAcl, Registry.getAclFromCache, hc, hm, database.FetchRecord, hf, ht]
    · simp [Registry.GetAcl, hc, database.FetchRecord, hf, ht]

theorem Registry.GetAcl_fetch_cached (t : Registry) (aID : String) (a : Acl)
    (hc : t.CacheEnabled = true) (hm : mapGet t.aclCacheMap aID = none)
    (hf : t.fault = none) (ht : mapGet t.aclsTable aID = some a) :
    t.GetAcl aID = ((a, none), t.storeAclInCache a) := by
  simp [Registry.GetAcl, Registry.getAclFromCache, hc, hm, database.FetchRecord, hf, ht]

theorem Registry.GetAcl_fetch_uncached (t : Registry) (aID : String) (a : Acl)
    (hc : t.CacheEnabled = false) (hf : t.fault = none)
    (ht : mapGet t.aclsTable aID = some a) :
    t.GetAcl aID = ((a, none), t) := by
  simp [Registry.GetAcl, hc, database.FetchRecord, hf, ht]

/-- A successful `InsertAcl`: the backend works, the table holds `p` under
`p.ID`, and so does the cache when it is enabled. -/
theorem Registry.InsertAcl_ok (s : Registry) (p : Acl) (h : (s.InsertAcl p).1 = none) :
    s.fault = none ∧ (s.InsertAcl p).2.fault = none ∧
      (s.InsertAcl p).2.CacheEnabled = s.CacheEnabled ∧
      (s.InsertAcl p).2.aclsTable = mapSet s.aclsTable p.ID p ∧
      (s.CacheEnabled = true → (s.InsertAcl p).2.aclCacheMap = mapSet s.aclCacheMap p.ID p) ∧
      (s.CacheEnabled = false → (s.InsertAcl p).2.aclCacheMap = s.aclCacheMap) := by
  unfold Registry.InsertAcl database.Insert at h ⊢
  cases hf : s.fault with
  | some msg =>
    rw [hf] at h
    simp at h
  | none =>
    by_cases hc : s.CacheEnabled = true
    · simp [hc, Registry.storeAclInCache]
    · simp [hc]

/-- A successful `DeleteAcl`: the backend works, the table has no record under
`p.ID`, and neither has the cache when it is enabled. -/
theorem Registry.DeleteAcl_ok (s : Registry) (p : Acl) (h : (s.DeleteAcl p).1 = none) :
    s.fault = none ∧ (s.DeleteAcl p).2.fault = none ∧
      (s.DeleteAcl p).2.CacheEnabled = s.CacheEnabled ∧
      (s.DeleteAcl p).2.aclsTable = mapDelete s.aclsTable p.ID ∧
      (s.CacheEnabled = true →
        (s.DeleteAcl p).2.aclCacheMap = mapDelete s.aclCacheMap p.ID) := by
  unfold Registry.DeleteAcl database.DeleteRecord at h ⊢
  cases hf : s.fault with
  | some msg =>
    rw [hf] at h
    simp at h
  | none =>
    by_cases hc : s.CacheEnabled = true
    · simp [hc, Registry.removeAclFromCache]
    · simp [hc]

/-- C17: after `InsertAcl p` returns success, `GetAcl p.ID` returns
`(p, nil)`, whether the cache is enabled or not, so the read of a registry
with the cache enabled and that of one with the cache disabled agree; and
after `DeleteAcl p` returns success, `IsAclExists p.ID` is false, whether the
cache is enabled or not. -/
theorem C17_read_after_write (s : Registry) (p : Acl) :
    ((s.InsertAcl p).1 = none → ((s.InsertAcl p).2.GetAcl p.ID).1 = (p, none)) ∧
    (∀ s2 : Registry, s.CacheEnabled = true → s2.CacheEnabled = false →
      (s.InsertAcl p).1 = none → (s2.InsertAcl p).1 = none →
      ((s.InsertAcl p).2.GetAcl p.ID).1 = ((s2.InsertAcl p).2.GetAcl p.ID).1) ∧
    ((s.DeleteAcl p).1 = none → ((s.DeleteAcl p).2.IsAclExists p.ID).1 = false) := by
  have hins : ∀ t : Registry, (t.InsertAcl p).1 = none →
      ((t.InsertAcl p).2.GetAcl p.ID).1 = (p, none) := by
    intro t h
    obtain ⟨-, hf, hce, htab, hca, -⟩ := Registry.InsertAcl_ok t p h
    by_cases hc : t.CacheEnabled = true
    · rw [Registry.GetAcl_cache_hit _ p.ID p (hce.trans hc)
        (by rw [hca hc]; exact mapGet_mapSet_self _ _ _)]
    · have hc2 : t.CacheEnabled = false := by simpa using hc
      rw [Registry.GetAcl_fetch_uncached _ p.ID p (hce.trans hc2) hf
        (by rw [htab]; exact mapGet_mapSet_self _ _ _)]
  refine ⟨hins s, ?_, ?_⟩
  · intro s2 _ _ h1 h2
    rw [hins s h1, hins s2 h2]
  · intro h
    obtain ⟨-, hf, hce, htab, hca⟩ := Registry.DeleteAcl_ok s p h
    have hm : (s.DeleteAcl p).2.CacheEnabled = false ∨
        mapGet (s.DeleteAcl p).2.aclCacheMap p.ID = none := by
      by_cases hc : s.CacheEnabled = true
      · right
        rw [hca hc]
        exact mapGet_mapDelete_self _ _
      · left
        rw [hce]
        simpa using hc
    simp only [Registry.IsAclExists]
    rw [Registry.GetAcl_absent _ p.ID hm hf (by rw [htab]; exact mapGet_mapDelete_self _ _)]
    rfl

/-- C17 on the registry of scenario S2 with the cache enabled: `engdb` is
read back after its insertion, and `webdb` is gone after its deletion. -/
theorem C17_read_after_write_witness :
    ((registryS2 true).InsertAcl engdb).1 = none ∧
      (((registryS2 true).InsertAcl engdb).2.GetAcl engdb.ID).1 = (engdb, none) ∧
      ((registryS2 true).DeleteAcl webdb).1 = none ∧
      (((registryS2 true).DeleteAcl webdb).2.IsAclExists webdb.ID).1 = false :=
  ⟨by decide, (C17_read_after_write (registryS2 true) engdb).1 (by decide), by decide,
    (C17_read_after_write (registryS2 true) webdb).2.2 (by decide)⟩
/-! ## The seeding step -/

theorem Registry.IsAclExists_of_hit (s : Registry) (aID : String) (h : s.hit aID) :
    s.IsAclExists aID = (true, s) := by
  rcases h with ⟨hc, hm⟩ | ⟨hc, hf, ht⟩
  · obtain ⟨a, ha⟩ := Option.isSome_iff_exists.1 hm
    simp only [Registry.IsAclExists, Registry.GetAcl_cache_hit s aID a hc ha]
    rfl
  · obtain ⟨a, ha⟩ := Option.isSome_iff_exists.1 ht
    simp only [Registry.IsAclExists, Registry.GetAcl_fetch_uncached s aID a hc hf ha]
    rfl

theorem Registry.seed_of_hit (s : Registry) (aID : String) (acl : Acl) (h : s.hit aID) :
    s.seed aID acl = s := by
  simp [Registry.seed, Registry.IsAclExists_of_hit s aID h]

/-- The outcomes of one seeding step: the policy is found where `GetAcl` looks
first and nothing changes; or it is fetched from the table and put into the
cache; or the backend fails and nothing changes; or it is absent and
`InsertAcl` succeeds. -/
theorem Registry.seed_outcome (s : Registry) (aID : String) (acl : Acl) :
    (s.hit aID ∧ s.seed aID acl = s) ∨
    (∃ a, s.CacheEnabled = true ∧ mapGet s.aclCacheMap aID = none ∧ s.fault = none ∧
      mapGet s.aclsTable aID = some a ∧ s.seed aID acl = s.storeAclInCache a) ∨
    ((∃ msg, s.fault = some msg) ∧ s.seed aID acl = s) ∨
    (s.fault = none ∧ mapGet s.aclsTable aID = none ∧
      (s.InsertAcl acl).1 = none ∧ s.seed aID acl = (s.InsertAcl acl).2) := by
  by_cases hh : s.hit aID
  · exact Or.inl ⟨hh, Registry.seed_of_hit s aID acl hh⟩
  · have hm : s.CacheEnabled = false ∨ mapGet s.aclCacheMap aID = none := by
      by_cases hc : s.CacheEnabled = true
      · right
        cases hg : mapGet s.aclCacheMap aID with
        | none => rfl
        | some a => exact absurd (Or.inl ⟨hc, by rw [hg]; rfl⟩) hh
      · left
        simpa using hc
    cases hf : s.fault with
    | some msg =>
      refine Or.inr (Or.inr (Or.inl ⟨⟨msg, rfl⟩, ?_⟩))
      simp [Registry.seed, Registry.IsAclExists, Registry.GetAcl_fault s aID msg hm hf,
        Registry.InsertAcl, database.Insert, hf]
    | none =>
      cases ht : mapGet s.aclsTable aID with
      | none =>
        refine Or.inr (Or.inr (Or.inr ⟨rfl, rfl, ?_, ?_⟩))
        · simp only [Registry.InsertAcl, database.Insert, hf]
          split_ifs <;> rfl
        · simp [Registry.seed, Registry.IsAclExists, Registry.GetAcl_absent s aID hm hf ht]
      | some a =>
        rcases hm with hc | hm
        · exact absurd (Or.inr ⟨hc, hf, by rw [ht]; rfl⟩) hh
        · have hc : s.CacheEnabled = true := by
            by_contra hc
            exact hh (Or.inr ⟨by simpa using hc, hf, by rw [ht]; rfl⟩)
          refine Or.inr (Or.inl ⟨a, hc, hm, rfl, rfl, ?_⟩)
          simp [Registry.seed, Registry.IsAclExists,
            Registry.GetAcl_fetch_cached s aID a hc hm hf ht]

/-- The seeding step keeps the switch and the backend condition, and never
replaces a record of the table. -/
theorem Registry.seed_frame (s : Registry) (aID : String) (acl : Acl) (hid : acl.ID = aID) :
    (s.seed aID acl).CacheEnabled = s.CacheEnabled ∧ (s.seed aID acl).fault = s.fault ∧
      (∀ k a, mapGet s.aclsTable k = some a →
        mapGet (s.seed aID acl).aclsTable k = some a) := by
  rcases Registry.seed_outcome s aID acl with ⟨-, h⟩ | ⟨a, -, -, -, -, h⟩ | ⟨-, h⟩ |
      ⟨hf, ht, hok, h⟩
  · rw [h]; exact ⟨rfl, rfl, fun _ _ h => h⟩
  · rw [h]; exact ⟨rfl, rfl, fun _ _ h => h⟩
  · rw [h]; exact ⟨rfl, rfl, fun _ _ h => h⟩
  · obtain ⟨-, hf2, hce, htab, -, -⟩ := Registry.InsertAcl_ok s acl hok
    rw [h]
    refine ⟨hce, hf2.trans hf.symm, ?_⟩
    intro k a hk
    rw [htab]
    by_cases hka : k = acl.ID
    · rw [hka, hid, ht] at hk
      exact absurd hk (by simp)
    · rw [mapGet_mapSet_ne _ _ _ _ hka]
      exact hk

theorem mapSet_keyed (m : List (String × Acl)) (a : Acl)
    (h : ∀ kv ∈ m, kv.2.ID = kv.1) : ∀ kv ∈ mapSet m a.ID a, kv.2.ID = kv.1 := by
  intro kv hkv
  simp only [mapSet, List.mem_append, List.mem_filter, List.mem_singleton] at hkv
  rcases hkv with ⟨hm, -⟩ | rfl
  · exact h kv hm
  · rfl

/-- With a working backend and a table keyed by policy ID, the seeding step
leaves the policy where `GetAcl` looks first, keeps the table keyed, and keeps
what `GetAcl` already found there. -/
theorem Registry.seed_settles (s : Registry) (aID : String) (acl : Acl) (hid : acl.ID = aID)
    (hf : s.fault = none) (hk : s.keyed) :
    (s.seed aID acl).hit aID ∧ (s.seed aID acl).keyed ∧
      (∀ k, s.hit k → (s.seed aID acl).hit k) := by
  rcases Registry.seed_outcome s aID acl with ⟨hh, h⟩ | ⟨a, hc, hm, -, ht, h⟩ | ⟨⟨msg, hmsg⟩, -⟩ |
      ⟨-, ht, hok, h⟩
  · rw [h]; exact ⟨hh, hk, fun _ h => h⟩
  · have ha : a.ID = aID := hk (aID, a) (mapGet_mem _ _ _ ht)
    rw [h]
    refine ⟨Or.inl ⟨hc, ?_⟩, hk, ?_⟩
    · simp only [Registry.storeAclInCache, ha, mapGet_mapSet_self]
      rfl
    · rintro k (⟨hc2, hm2⟩ | ⟨hc2, -⟩)
      · exact Or.inl ⟨hc2, mapGet_isSome_mapSet _ _ _ _ hm2⟩
      · rw [hc] at hc2
        exact absurd hc2 (by simp)
  · rw [hf] at hmsg
    exact absurd hmsg (by simp)
  · obtain ⟨-, hf2, hce, htab, hca, hcb⟩ := Registry.InsertAcl_ok s acl hok
    rw [h]
    refine ⟨?_, ?_, ?_⟩
    · by_cases hc : s.CacheEnabled = true
      · refine Or.inl ⟨hce.trans hc, ?_⟩
        rw [hca hc, ← hid, mapGet_mapSet_self]
        rfl
      · have hc2 : s.CacheEnabled = false := by simpa using hc
        refine Or.inr ⟨hce.trans hc2, hf2, ?_⟩
        rw [htab, ← hid, mapGet_mapSet_self]
        rfl
    · unfold Registry.keyed
      rw [htab]
      exact mapSet_keyed _ _ hk
    · rintro k (⟨hc2, hm2⟩ | ⟨hc2, -, ht2⟩)
      · exact Or.inl ⟨hce.trans hc2, by rw [hca hc2]; exact mapGet_isSome_mapSet _ _ _ _ hm2⟩
      · exact Or.inr ⟨hce.trans hc2, hf2, by rw [htab]; exact mapGet_isSome_mapSet _ _ _ _ ht2⟩

theorem Registry.seed_fault (s : Registry) (aID msg : String) (acl : Acl)
    (hf : s.fault = some msg) : s.seed aID acl = s := by
  rcases Registry.seed_outcome s aID acl with ⟨-, h⟩ | ⟨a, -, -, hn, -, -⟩ | ⟨-, h⟩ |
      ⟨hn, -, -, -⟩
  · exact h
  · rw [hf] at hn; exact absurd hn (by simp)
  · exact h
  · rw [hf] at hn; exact absurd hn (by simp)
/-! ## `ListAcls` on the registry state -/

theorem Registry.ListAcls.loop_state (s : Registry) (data : List (String × Acl)) :
    (Registry.ListAcls.loop s data).2.CacheEnabled = s.CacheEnabled ∧
      (Registry.ListAcls.loop s data).2.fault = s.fault ∧
      (Registry.ListAcls.loop s data).2.aclsTable = s.aclsTable ∧
      (s.CacheEnabled = false → (Registry.ListAcls.loop s data).2 = s) ∧
      (∀ k, (mapGet s.aclCacheMap k).isSome = true →
        (mapGet (Registry.ListAcls.loop s data).2.aclCacheMap k).isSome = true) := by
  induction data generalizing s with
  | nil => exact ⟨rfl, rfl, rfl, fun _ => rfl, fun _ h => h⟩
  | cons d rest ih =>
    simp only [Registry.ListAcls.loop]
    by_cases hc : s.CacheEnabled = true
    · rw [if_pos hc]
      obtain ⟨h1, h2, h3, -, h5⟩ := ih (s.storeAclInCache d.2)
      refine ⟨h1, h2, h3, ?_, ?_⟩
      · intro hn
        rw [hc] at hn
        exact absurd hn (by simp)
      · intro k hk
        exact h5 k (mapGet_isSome_mapSet _ _ _ _ hk)
    · rw [if_neg hc]
      exact ih s

/-- `ListAcls` keeps the switch, the backend condition and the table, loses
nothing from the cache, and leaves the state as it is when the cache is
disabled, when it is enabled and not empty, and when the backend fails. -/
theorem Registry.ListAcls_state (s : Registry) :
    s.ListAcls.2.CacheEnabled = s.CacheEnabled ∧ s.ListAcls.2.fault = s.fault ∧
      s.ListAcls.2.aclsTable = s.aclsTable ∧
      (s.CacheEnabled = false → s.ListAcls.2 = s) ∧
      (s.aclCacheMap ≠ [] → s.ListAcls.2 = s) ∧
      (s.fault ≠ none → s.ListAcls.2 = s) ∧
      (∀ k, (mapGet s.aclCacheMap k).isSome = true →
        (mapGet s.ListAcls.2.aclCacheMap k).isSome = true) := by
  unfold Registry.ListAcls
  by_cases h : s.CacheEnabled = true ∧ s.aclCacheMap.length > 0
  · rw [if_pos h]
    exact ⟨rfl, rfl, rfl, fun _ => rfl, fun _ => rfl, fun _ => rfl, fun _ h => h⟩
  · rw [if_neg h]
    cases hr : database.FetchRecords s with
    | error e =>
      cases e <;>
        exact ⟨rfl, rfl, rfl, fun _ => rfl, fun _ => rfl, fun _ => rfl, fun _ h => h⟩
    | ok data =>
      simp only []
      obtain ⟨h1, h2, h3, h4, h5⟩ := Registry.ListAcls.loop_state s data
      refine ⟨h1, h2, h3, h4, ?_, ?_, h5⟩
      · intro hne
        apply h4
        by_contra hc
        exact h ⟨by simpa using hc, List.length_pos.2 hne⟩
      · intro hf
        simp only [database.FetchRecords] at hr
        cases hfs : s.fault with
        | none => exact absurd hfs hf
        | some msg => rw [hfs] at hr; simp at hr

theorem mapGet_isSome_ne_nil {α : Type} (m : List (String × α)) (k : String)
    (h : (mapGet m k).isSome = true) : m ≠ [] := by
  intro hm
  rw [hm] at h
  simp [mapGet] at h

theorem Registry.ListAcls_of_hit (s : Registry) (k : String) (h : s.hit k) :
    s.ListAcls.2 = s := by
  rcases h with ⟨-, hm⟩ | ⟨hc, -, -⟩
  · exact (Registry.ListAcls_state s).2.2.2.2.1 (mapGet_isSome_ne_nil _ _ hm)
  · exact (Registry.ListAcls_state s).2.2.2.1 hc

/-! ## C18: the seeded defaults exist -/

theorem Registry.IsAclExists_iff_holds (s : Registry) (aID : String) :
    (s.IsAclExists aID).1 = true ↔ s.holds aID := by
  unfold Registry.holds
  by_cases hc : s.CacheEnabled = true
  · cases hm : mapGet s.aclCacheMap aID with
    | some a =>
      simp [Registry.IsAclExists, Registry.GetAcl_cache_hit s aID a hc hm, hc]
    | none =>
      cases hf : s.fault with
      | some msg =>
        simp [Registry.IsAclExists, Registry.GetAcl_fault s aID msg (Or.inr hm) hf, hc]
      | none =>
        cases ht : mapGet s.aclsTable aID with
        | none =>
          simp [Registry.IsAclExists, Registry.GetAcl_absent s aID (Or.inr hm) hf ht, hc]
        | some a =>
          simp [Registry.IsAclExists, Registry.GetAcl_fetch_cached s aID a hc hm hf ht, hc]
  · have hc2 : s.CacheEnabled = false := by simpa using hc
    cases hf : s.fault with
    | some msg =>
      simp [Registry.IsAclExists, Registry.GetAcl_fault s aID msg (Or.inl hc2) hf, hc2]
    | none =>
      cases ht : mapGet s.aclsTable aID with
      | none =>
        simp [Registry.IsAclExists, Registry.GetAcl_absent s aID (Or.inl hc2) hf ht, hc2]
      | some a =>
        simp [Registry.IsAclExists, Registry.GetAcl_fetch_uncached s aID a hc2 hf ht, hc2]

/-- With a working backend the seeding step makes its policy ID findable and
keeps every findable ID findable. -/
theorem Registry.seed_holds (s : Registry) (aID : String) (acl : Acl) (hid : acl.ID = aID)
    (hf : s.fault = none) :
    (s.seed aID acl).holds aID ∧ (∀ k, s.holds k → (s.seed aID acl).holds k) := by
  rcases Registry.seed_outcome s aID acl with ⟨hh, h⟩ | ⟨a, hc, -, -, ht, h⟩ |
      ⟨⟨msg, hmsg⟩, -⟩ | ⟨-, -, hok, h⟩
  · rw [h]
    refine ⟨?_, fun _ h => h⟩
    rcases hh with ⟨hc, hm⟩ | ⟨-, hf2, ht⟩
    · exact Or.inl ⟨hc, hm⟩
    · exact Or.inr ⟨hf2, ht⟩
  · rw [h]
    refine ⟨Or.inr ⟨hf, by rw [Registry.storeAclInCache, ht]; rfl⟩, ?_⟩
    rintro k (⟨hc2, hm2⟩ | ⟨hf2, ht2⟩)
    · exact Or.inl ⟨hc2, mapGet_isSome_mapSet _ _ _ _ hm2⟩
    · exact Or.inr ⟨hf2, ht2⟩
  · rw [hf] at hmsg
    exact absurd hmsg (by simp)
  · obtain ⟨-, hf2, hce, htab, hca, -⟩ := Registry.InsertAcl_ok s acl hok
    rw [h]
    refine ⟨Or.inr ⟨hf2, by rw [htab, ← hid, mapGet_mapSet_self]; rfl⟩, ?_⟩
    rintro k (⟨hc2, hm2⟩ | ⟨-, ht2⟩)
    · exact Or.inl ⟨hce.trans hc2, by rw [hca hc2]; exact mapGet_isSome_mapSet _ _ _ _ hm2⟩
    · exact Or.inr ⟨hf2, by rw [htab]; exact mapGet_isSome_mapSet _ _ _ _ ht2⟩

/-- C18, as stated, fails for the empty network ID: the seeding returns at
once, and on an empty registry `".all-nodes"` does not exist afterwards. -/
theorem C18_empty_network_is_skipped :
    (((emptyRegistry true).CreateDefaultAclNetworkPolicies "" 0).IsAclExists
      ("" ++ ".all-nodes")).1 = false := by
  decide

/-- C18, amended: for every non-empty network ID `net`, after
`CreateDefaultAclNetworkPolicies net` on a store whose operations succeed,
`IsAclExists` holds for `net.all-nodes`, `net.all-users` and
`net.all-remote-access-gws`. -/
theorem C18_defaults_exist (s : Registry) (net : String) (now : Nat)
    (hnet : net ≠ "") (hf : s.fault = none) :
    ((s.CreateDefaultAclNetworkPolicies net now).IsAclExists (net ++ ".all-nodes")).1 = true ∧
    ((s.CreateDefaultAclNetworkPolicies net now).IsAclExists (net ++ ".all-users")).1 = true ∧
    ((s.CreateDefaultAclNetworkPolicies net now).IsAclExists
      (net ++ ".all-remote-access-gws")).1 = true := by
  have e1 : net ++ ".all-nodes" = net ++ "." ++ "all-nodes" := by
    rw [dot_append_assoc]; rfl
  have e2 : net ++ ".all-users" = net ++ "." ++ "all-users" := by
    rw [dot_append_assoc]; rfl
  have e3 : net ++ ".all-remote-access-gws" = net ++ "." ++ "all-remote-access-gws" := by
    rw [dot_append_assoc]; rfl
  rw [e1, e2, e3]
  simp only [Registry.IsAclExists_iff_holds, Registry.CreateDefaultAclNetworkPolicies,
    Registry.CreateDefaultUserPolicies, if_neg hnet, Registry.ListAclsByNetwork]
  have f0 : s.ListAcls.2.fault = none := (Registry.ListAcls_state s).2.1.trans hf
  generalize s.ListAcls.2 = s0 at f0 ⊢
  have a1 := Registry.seed_holds s0 (net ++ "." ++ "all-nodes") (defaultDeviceAcl net now) rfl f0
  have f1 := (Registry.seed_frame s0 (net ++ "." ++ "all-nodes") (defaultDeviceAcl net now) rfl).2.1.trans f0
  generalize s0.seed (net ++ "." ++ "all-nodes") (defaultDeviceAcl net now) = s1 at a1 f1 ⊢
  have a2 := Registry.seed_holds s1 (net ++ "." ++ "all-users") (defaultUserAcl net now) rfl f1
  have f2 := (Registry.seed_frame s1 (net ++ "." ++ "all-users") (defaultUserAcl net now) rfl).2.1.trans f1
  generalize s1.seed (net ++ "." ++ "all-users") (defaultUserAcl net now) = s2 at a2 f2 ⊢
  have a3 := Registry.seed_holds s2 (net ++ "." ++ "all-remote-access-gws") (defaultGwAcl net now) rfl f2
  have f3 := (Registry.seed_frame s2 (net ++ "." ++ "all-remote-access-gws") (defaultGwAcl net now) rfl).2.1.trans f2
  generalize s2.seed (net ++ "." ++ "all-remote-access-gws") (defaultGwAcl net now) = s3
    at a3 f3 ⊢
  have a4 := Registry.seed_holds s3 (net ++ "." ++ NetworkAdmin ++ "-grp") (defaultGroupAcl net NetworkAdmin now) rfl f3
  have f4 := (Registry.seed_frame s3 (net ++ "." ++ NetworkAdmin ++ "-grp") (defaultGroupAcl net NetworkAdmin now) rfl).2.1.trans f3
  generalize s3.seed (net ++ "." ++ NetworkAdmin ++ "-grp")
    (defaultGroupAcl net NetworkAdmin now) = s4 at a4 f4 ⊢
  have a5 := Registry.seed_holds s4 (net ++ "." ++ NetworkUser ++ "-grp") (defaultGroupAcl net NetworkUser now) rfl f4
  exact ⟨a5.2 _ (a4.2 _ (a3.2 _ (a2.2 _ a1.1))), a5.2 _ (a4.2 _ (a3.2 _ a2.1)),
    a5.2 _ (a4.2 _ a3.1)⟩

/-- C18, amended, on the registry of scenario S2 with a cold enabled cache. -/
theorem C18_defaults_exist_witness :
    (((registryS2 true).CreateDefaultAclNetworkPolicies "netA" 7).IsAclExists
        ("netA" ++ ".all-nodes")).1 = true ∧
    (((registryS2 true).CreateDefaultAclNetworkPolicies "netA" 7).IsAclExists
        ("netA" ++ ".all-users")).1 = true ∧
    (((registryS2 true).CreateDefaultAclNetworkPolicies "netA" 7).IsAclExists
        ("netA" ++ ".all-remote-access-gws")).1 = true :=
  C18_defaults_exist (registryS2 true) "netA" 7 (by decide) (by decide)
/-- Every write of the registry keeps the table keyed by policy ID, and the
empty table is keyed. -/
theorem Registry.writes_keep_keyed (s : Registry) (a newAcl : Acl) (hk : s.keyed) :
    (s.InsertAcl a).2.keyed ∧ (s.UpsertAcl a).2.keyed ∧ (s.UpdateAcl newAcl a).2.keyed ∧
      (s.DeleteAcl a).2.keyed ∧ (emptyRegistry s.CacheEnabled).keyed := by
  have hset : ∀ x : Acl, ∀ kv ∈ mapSet s.aclsTable x.ID x, kv.2.ID = kv.1 :=
    fun x => mapSet_keyed s.aclsTable x hk
  have hdel : ∀ kv ∈ mapDelete s.aclsTable a.ID, kv.2.ID = kv.1 := by
    intro kv hkv
    simp only [mapDelete, List.mem_filter] at hkv
    exact hk kv hkv.1
  refine ⟨?_, ?_, ?_, ?_, ?_⟩
  · unfold Registry.keyed Registry.InsertAcl database.Insert
    cases hf : s.fault <;> by_cases hc : s.CacheEnabled = true <;>
      simp only [hc, Registry.storeAclInCache, and_self, and_true, and_false, if_true,
        if_false, reduceCtorEq] <;> first | exact hk | exact hset a
  · unfold Registry.keyed Registry.UpsertAcl database.Insert
    cases hf : s.fault <;> by_cases hc : s.CacheEnabled = true <;>
      simp only [hc, Registry.storeAclInCache, and_self, and_true, and_false, if_true,
        if_false, reduceCtorEq] <;> first | exact hk | exact hset a
  · unfold Registry.keyed Registry.UpdateAcl database.Insert
    cases hf : s.fault <;> by_cases hc : s.CacheEnabled = true <;>
      simp only [hc, Registry.storeAclInCache, and_self, and_true, and_false, if_true,
        if_false, reduceCtorEq] <;> first | exact hk | exact hset _
  · unfold Registry.keyed Registry.DeleteAcl database.DeleteRecord
    cases hf : s.fault <;> by_cases hc : s.CacheEnabled = true <;>
      simp only [hc, Registry.removeAclFromCache, and_self, and_true, and_false, if_true,
        if_false, reduceCtorEq] <;> first | exact hk | exact hdel
  · intro kv hkv
    exact absurd hkv (List.not_mem_nil _)

/-! ## C19: seeding is idempotent and non-destructive -/

theorem Registry.CreateDefaultUserPolicies_eq (s : Registry) (netID : String) (now : Nat)
    (hnet : netID ≠ "") :
    s.CreateDefaultUserPolicies netID now =
      (s.seed (netID ++ "." ++ NetworkAdmin ++ "-grp")
          (defaultGroupAcl netID NetworkAdmin now)).seed
        (netID ++ "." ++ NetworkUser ++ "-grp") (defaultGroupAcl netID NetworkUser now) := by
  simp only [Registry.CreateDefaultUserPolicies, if_neg hnet]

theorem Registry.CreateDefaultAclNetworkPolicies_eq (s : Registry) (netID : String)
    (now : Nat) (hnet : netID ≠ "") :
    s.CreateDefaultAclNetworkPolicies netID now =
      ((((s.ListAcls.2.seed (netID ++ "." ++ "all-nodes") (defaultDeviceAcl netID now)).seed
            (netID ++ "." ++ "all-users") (defaultUserAcl netID now)).seed
          (netID ++ "." ++ "all-remote-access-gws") (defaultGwAcl netID now)).seed
        (netID ++ "." ++ NetworkAdmin ++ "-grp") (defaultGroupAcl netID NetworkAdmin now)).seed
      (netID ++ "." ++ NetworkUser ++ "-grp") (defaultGroupAcl netID NetworkUser now) := by
  simp only [Registry.CreateDefaultAclNetworkPolicies, if_neg hnet,
    Registry.CreateDefaultUserPolicies, Registry.ListAclsByNetwork]

/-- The seeding never replaces a record of the table. -/
theorem Registry.seeding_keeps_table (s : Registry) (netID : String) (now : Nat)
    (k : String) (a : Acl) (h : mapGet s.aclsTable k = some a) :
    mapGet (s.CreateDefaultAclNetworkPolicies netID now).aclsTable k = some a := by
  by_cases hnet : netID = ""
  · simp only [Registry.CreateDefaultAclNetworkPolicies, if_pos hnet]
    exact h
  · rw [Registry.CreateDefaultAclNetworkPolicies_eq s netID now hnet]
    have h0 : mapGet s.ListAcls.2.aclsTable k = some a := by
      rw [(Registry.ListAcls_state s).2.2.1]
      exact h
    have h1 := (Registry.seed_frame s.ListAcls.2 (netID ++ "." ++ "all-nodes")
      (defaultDeviceAcl netID now) rfl).2.2 k a h0
    have h2 := (Registry.seed_frame _ (netID ++ "." ++ "all-users")
      (defaultUserAcl netID now) rfl).2.2 k a h1
    have h3 := (Registry.seed_frame _ (netID ++ "." ++ "all-remote-access-gws")
      (defaultGwAcl netID now) rfl).2.2 k a h2
    have h4 := (Registry.seed_frame _ (netID ++ "." ++ NetworkAdmin ++ "-grp")
      (defaultGroupAcl netID NetworkAdmin now) rfl).2.2 k a h3
    exact (Registry.seed_frame _ (netID ++ "." ++ NetworkUser ++ "-grp")
      (defaultGroupAcl netID NetworkUser now) rfl).2.2 k a h4

/-- A state in which the five default IDs of the network are found where
`GetAcl` looks first is left as it is by the seeding. -/
theorem Registry.seeding_of_hits (t : Registry) (netID : String) (now : Nat)
    (h1 : t.hit (netID ++ "." ++ "all-nodes")) (h2 : t.hit (netID ++ "." ++ "all-users"))
    (h3 : t.hit (netID ++ "." ++ "all-remote-access-gws"))
    (h4 : t.hit (netID ++ "." ++ NetworkAdmin ++ "-grp"))
    (h5 : t.hit (netID ++ "." ++ NetworkUser ++ "-grp")) :
    t.CreateDefaultAclNetworkPolicies netID now = t := by
  by_cases hnet : netID = ""
  · simp only [Registry.CreateDefaultAclNetworkPolicies, if_pos hnet]
  · rw [Registry.CreateDefaultAclNetworkPolicies_eq t netID now hnet,
      Registry.ListAcls_of_hit t _ h1, Registry.seed_of_hit t _ _ h1,
      Registry.seed_of_hit t _ _ h2, Registry.seed_of_hit t _ _ h3,
      Registry.seed_of_hit t _ _ h4, Registry.seed_of_hit t _ _ h5]

/-- With a failing backend the seeding changes nothing. -/
theorem Registry.seeding_fault (s : Registry) (netID : String) (now : Nat) (msg : String)
    (hf : s.fault = some msg) : s.CreateDefaultAclNetworkPolicies netID now = s := by
  by_cases hnet : netID = ""
  · simp only [Registry.CreateDefaultAclNetworkPolicies, if_pos hnet]
  · have h0 : s.ListAcls.2 = s :=
      (Registry.ListAcls_state s).2.2.2.2.2.1 (by rw [hf]; simp)
    rw [Registry.CreateDefaultAclNetworkPolicies_eq s netID now hnet, h0,
      Registry.seed_fault s _ msg _ hf, Registry.seed_fault s _ msg _ hf,
      Registry.seed_fault s _ msg _ hf, Registry.seed_fault s _ msg _ hf,
      Registry.seed_fault s _ msg _ hf]

/-- After the seeding on a working backend with a table keyed by policy ID,
the five default IDs of the network are found where `GetAcl` looks first. -/
theorem Registry.seeding_hits (s : Registry) (netID : String) (now : Nat)
    (hnet : netID ≠ "") (hf : s.fault = none) (hk : s.keyed) :
    (s.CreateDefaultAclNetworkPolicies netID now).hit (netID ++ "." ++ "all-nodes") ∧
    (s.CreateDefaultAclNetworkPolicies netID now).hit (netID ++ "." ++ "all-users") ∧
    (s.CreateDefaultAclNetworkPolicies netID now).hit
      (netID ++ "." ++ "all-remote-access-gws") ∧
    (s.CreateDefaultAclNetworkPolicies netID now).hit
      (netID ++ "." ++ NetworkAdmin ++ "-grp") ∧
    (s.CreateDefaultAclNetworkPolicies netID now).hit
      (netID ++ "." ++ NetworkUser ++ "-grp") := by
  rw [Registry.CreateDefaultAclNetworkPolicies_eq s netID now hnet]
  have f0 : s.ListAcls.2.fault = none := (Registry.ListAcls_state s).2.1.trans hf
  have k0 : s.ListAcls.2.keyed := by
    unfold Registry.keyed
    rw [(Registry.ListAcls_state s).2.2.1]
    exact hk
  generalize s.ListAcls.2 = s0 at f0 k0 ⊢
  have a1 := Registry.seed_settles s0 (netID ++ "." ++ "all-nodes")
    (defaultDeviceAcl netID now) rfl f0 k0
  have f1 := (Registry.seed_frame s0 (netID ++ "." ++ "all-nodes")
    (defaultDeviceAcl netID now) rfl).2.1.trans f0
  generalize s0.seed (netID ++ "." ++ "all-nodes") (defaultDeviceAcl netID now) = s1
    at a1 f1 ⊢
  have a2 := Registry.seed_settles s1 (netID ++ "." ++ "all-users")
    (defaultUserAcl netID now) rfl f1 a1.2.1
  have f2 := (Registry.seed_frame s1 (netID ++ "." ++ "all-users")
    (defaultUserAcl netID now) rfl).2.1.trans f1
  generalize s1.seed (netID ++ "." ++ "all-users") (defaultUserAcl netID now) = s2
    at a2 f2 ⊢
  have a3 := Registry.seed_settles s2 (netID ++ "." ++ "all-remote-access-gws")
    (defaultGwAcl netID now) rfl f2 a2.2.1
  have f3 := (Registry.seed_frame s2 (netID ++ "." ++ "all-remote-access-gws")
    (defaultGwAcl netID now) rfl).2.1.trans f2
  generalize s2.seed (netID ++ "." ++ "all-remote-access-gws") (defaultGwAcl netID now) = s3
    at a3 f3 ⊢
  have a4 := Registry.seed_settles s3 (netID ++ "." ++ NetworkAdmin ++ "-grp")
    (defaultGroupAcl netID NetworkAdmin now) rfl f3 a3.2.1
  have f4 := (Registry.seed_frame s3 (netID ++ "." ++ NetworkAdmin ++ "-grp")
    (defaultGroupAcl netID NetworkAdmin now) rfl).2.1.trans f3
  generalize s3.seed (netID ++ "." ++ NetworkAdmin ++ "-grp")
    (defaultGroupAcl netID NetworkAdmin now) = s4 at a4 f4 ⊢
  have a5 := Registry.seed_settles s4 (netID ++ "." ++ NetworkUser ++ "-grp")
    (defaultGroupAcl netID NetworkUser now) rfl f4 a4.2.1
  exact ⟨a5.2.2 _ (a4.2.2 _ (a3.2.2 _ (a2.2.2 _ a1.1))),
    a5.2.2 _ (a4.2.2 _ (a3.2.2 _ a2.1)), a5.2.2 _ (a4.2.2 _ a3.1), a5.2.2 _ a4.1, a5.1⟩

/-- C19: `CreateDefaultAclNetworkPolicies` never replaces a record of the
policy table, so a policy stored under a default ID stays as it is; and on a
table keyed by policy ID a second run leaves table and cache exactly as the
first run left them. -/
theorem C19_seeding_idempotent (s : Registry) (net : String) (now now2 : Nat) :
    (∀ k a, mapGet s.aclsTable k = some a →
      mapGet (s.CreateDefaultAclNetworkPolicies net now).aclsTable k = some a) ∧
    (s.keyed →
      (s.CreateDefaultAclNetworkPolicies net now).CreateDefaultAclNetworkPolicies net now2 =
        s.CreateDefaultAclNetworkPolicies net now) := by
  refine ⟨fun k a h => Registry.seeding_keeps_table s net now k a h, ?_⟩
  intro hk
  by_cases hnet : net = ""
  · simp only [Registry.CreateDefaultAclNetworkPolicies, if_pos hnet]
  · cases hf : s.fault with
    | some msg =>
      rw [Registry.seeding_fault s net now msg hf, Registry.seeding_fault s net now2 msg hf]
    | none =>
      obtain ⟨h1, h2, h3, h4, h5⟩ := Registry.seeding_hits s net now hnet hf hk
      exact Registry.seeding_of_hits _ net now2 h1 h2 h3 h4 h5

/-- C19 on the registry of scenario S2, whose table holds a disabled
`netA.all-nodes`: after the seeding the table still holds it, disabled, and a
second run at a later time changes nothing. -/
theorem C19_seeding_idempotent_witness :
    mapGet (registryS2 true).aclsTable "netA.all-nodes" = some (allNodes false) ∧
      mapGet ((registryS2 true).CreateDefaultAclNetworkPolicies "netA" 7).aclsTable
        "netA.all-nodes" = some (allNodes false) ∧
      (registryS2 true).keyed ∧
      ((registryS2 true).CreateDefaultAclNetworkPolicies "netA" 7).CreateDefaultAclNetworkPolicies
          "netA" 9 =
        (registryS2 true).CreateDefaultAclNetworkPolicies "netA" 7 :=
  ⟨by decide,
    (C19_seeding_idempotent (registryS2 true) "netA" 7 9).1 "netA.all-nodes" (allNodes false)
      (by decide),
    by decide, (C19_seeding_idempotent (registryS2 true) "netA" 7 9).2 (by decide)⟩

/-! ## Go's `net` and `sort` -/

theorem v4InV6Prefix_length : v4InV6Prefix.length = 12 := rfl

theorem IP.To16_of_length_four (ip : IP) (h : ip.bytes.length = 4) :
    ip.To16 = v4InV6Prefix ++ ip.bytes := by
  simp [IP.To16, h]

theorem IP.To16_of_length_sixteen (ip : IP) (h : ip.bytes.length = 16) :
    ip.To16 = ip.bytes := by
  simp [IP.To16, h]

theorem IP.To16_of_length_zero (ip : IP) (h : ip.bytes.length = 0) : ip.To16 = [] := by
  simp [IP.To16, h]

theorem prefix_append_eq_iff (a b : List Nat) :
    v4InV6Prefix ++ a = b ↔ b.take 12 = v4InV6Prefix ∧ a = b.drop 12 := by
  constructor
  · intro h
    rw [← h]
    constructor
    · rw [← v4InV6Prefix_length, List.take_left]
    · rw [← v4InV6Prefix_length, List.drop_left]
  · rintro ⟨h1, h2⟩
    rw [← h1, h2, List.take_append_drop]

/-- Go's `IP.Equal` holds exactly for addresses with the same 16-byte form. -/
theorem IP.Equal_iff (a b : IP) : a.Equal b = true ↔ a.To16 = b.To16 := by
  have hnil : ∀ l : List Nat, l.length = 0 → l = [] := fun l h => List.length_eq_zero.1 h
  rcases a.wf with ha | ha | ha <;> rcases b.wf with hb | hb | hb
  · simp [IP.Equal, IP.To16, ha, hb, hnil _ ha, hnil _ hb]
  · have : b.bytes ≠ [] := fun h => by rw [h] at hb; simp at hb
    simp [IP.Equal, IP.To16, ha, hb, v4InV6Prefix]
  · have : b.bytes ≠ [] := fun h => by rw [h] at hb; simp at hb
    simp [IP.Equal, IP.To16, ha, hb, Ne.symm this]
  · simp [IP.Equal, IP.To16, ha, hb, v4InV6Prefix]
  · simp [IP.Equal, IP.To16, ha, hb]
  · rw [IP.To16_of_length_four a ha, IP.To16_of_length_sixteen b hb, prefix_append_eq_iff]
    simp [IP.Equal, ha, hb]
  · have : a.bytes ≠ [] := fun h => by rw [h] at ha; simp at ha
    simp [IP.Equal, IP.To16, ha, hb, this]
  · rw [IP.To16_of_length_four b hb, IP.To16_of_length_sixteen a ha,
      show (a.bytes = v4InV6Prefix ++ b.bytes) ↔ (v4InV6Prefix ++ b.bytes = a.bytes)
        from eq_comm, prefix_append_eq_iff]
    have hE : a.Equal b = true ↔
        (a.bytes.take 12 = v4InV6Prefix ∧ a.bytes.drop 12 = b.bytes) := by
      simp [IP.Equal, ha, hb]
    rw [hE]
    constructor <;> rintro ⟨h1, h2⟩ <;> exact ⟨h1, h2.symm⟩
  · simp [IP.Equal, IP.To16, ha, hb]

/-- The comparison of `sortIPNets` is the strict order of `sortKey`. -/
theorem sortIPNets.less_iff (a b : IPNet) :
    sortIPNets.less a b = true ↔ sortKey a < sortKey b := by
  simp only [sortIPNets.less, sortKey, Prod.Lex.lt_iff, lessIP]
  by_cases h : a.IP.Equal b.IP = true
  · rw [if_pos h]
    have heq := (IP.Equal_iff _ _).1 h
    simp [heq]
  · rw [if_neg h]
    have hne : a.IP.To16 ≠ b.IP.To16 := fun he => h ((IP.Equal_iff _ _).2 he)
    simp [hne]

theorem sort.insert_perm {α : Type} (less : α → α → Bool) (x : α) (l : List α) :
    (sort.insert less x l).Perm (x :: l) := by
  induction l with
  | nil => exact List.Perm.refl _
  | cons y ys ih =>
    simp only [sort.insert]
    split_ifs
    · exact List.Perm.refl _
    · exact (List.Perm.cons y ih).trans (List.Perm.swap x y ys)

theorem sort.Slice_perm_aux {α : Type} (less : α → α → Bool) (data sorted : List α) :
    (data.foldl (fun sorted x => sort.insert less x sorted) sorted).Perm (sorted ++ data) := by
  induction data generalizing sorted with
  | nil => simp
  | cons x xs ih =>
    simp only [List.foldl_cons]
    refine (ih _).trans ?_
    refine ((sort.insert_perm less x sorted).append_right xs).trans ?_
    simp only [List.cons_append]
    exact (List.perm_middle).symm

/-- The result of `sort.Slice` is a rearrangement of its input. -/
theorem sort.Slice_perm {α : Type} (less : α → α → Bool) (data : List α) :
    (sort.Slice less data).Perm data := by
  simpa [sort.Slice] using sort.Slice_perm_aux less data []

theorem sort.insert_sorted {α β : Type} [LinearOrder β] (key : α → β) (less : α → α → Bool)
    (hless : ∀ a b, less a b = true ↔ key a < key b) (x : α) (l : List α)
    (hl : l.Pairwise (fun a b => key a ≤ key b)) :
    (sort.insert less x l).Pairwise (fun a b => key a ≤ key b) := by
  induction l with
  | nil => simp [sort.insert]
  | cons y ys ih =>
    simp only [sort.insert]
    rw [List.pairwise_cons] at hl
    split_ifs with h
    · have hxy : key x < key y := (hless x y).1 h
      rw [List.pairwise_cons]
      refine ⟨?_, List.pairwise_cons.2 hl⟩
      intro z hz
      rcases List.mem_cons.1 hz with rfl | hz
      · exact le_of_lt hxy
      · exact le_trans (le_of_lt hxy) (hl.1 z hz)
    · have hyx : key y ≤ key x := not_lt.1 (fun hlt => h ((hless x y).2 hlt))
      rw [List.pairwise_cons]
      refine ⟨?_, ih hl.2⟩
      intro z hz
      rcases List.mem_cons.1 ((sort.insert_perm less x ys).subset hz) with rfl | hz
      · exact hyx
      · exact hl.1 z hz

/-- When the comparison is the strict order of a key, the result of
`sort.Slice` is in ascending order of the key. -/
theorem sort.Slice_sorted {α β : Type} [LinearOrder β] (key : α → β) (less : α → α → Bool)
    (hless : ∀ a b, less a b = true ↔ key a < key b) (data : List α) :
    (sort.Slice less data).Pairwise (fun a b => key a ≤ key b) := by
  have aux : ∀ (data sorted : List α), sorted.Pairwise (fun a b => key a ≤ key b) →
      (data.foldl (fun sorted x => sort.insert less x sorted) sorted).Pairwise
        (fun a b => key a ≤ key b) := by
    intro data
    induction data with
    | nil => intro sorted h; exact h
    | cons x xs ih =>
      intro sorted h
      exact ih _ (sort.insert_sorted key less hless x sorted h)
  exact aux data [] List.Pairwise.nil

/-! ## `UniqueIPNetList` -/

theorem UniqueIPNetList.map_invariant (cidr : IPNet → String) (ipnets : List IPNet)
    (m : List (String × IPNet))
    (hk : (m.map (fun kv => kv.1)).Nodup) (hv : ∀ kv ∈ m, cidr kv.2 = kv.1) :
    ((ipnets.foldl
        (fun uniqueMap ipnet =>
          if (mapGet uniqueMap (cidr ipnet)).isSome = true then uniqueMap
          else mapSet uniqueMap (cidr ipnet) ipnet) m).map (fun kv => kv.1)).Nodup ∧
      ∀ kv ∈ ipnets.foldl
        (fun uniqueMap ipnet =>
          if (mapGet uniqueMap (cidr ipnet)).isSome = true then uniqueMap
          else mapSet uniqueMap (cidr ipnet) ipnet) m, cidr kv.2 = kv.1 := by
  induction ipnets generalizing m with
  | nil => exact ⟨hk, hv⟩
  | cons x xs ih =>
    simp only [List.foldl_cons]
    split_ifs with h
    · exact ih m hk hv
    · apply ih
      · simp only [mapSet, List.map_append, List.map_cons, List.map_nil]
        rw [List.nodup_append]
        refine ⟨(hk.sublist ((List.filter_sublist _).map _)), List.nodup_singleton _, ?_⟩
        intro k hk1 hk2
        rw [List.mem_singleton] at hk2
        rw [List.mem_map] at hk1
        obtain ⟨kv, hkv, rfl⟩ := hk1
        rw [List.mem_filter] at hkv
        simp only [decide_eq_true_eq] at hkv
        exact hkv.2 hk2
      · intro kv hkv
        simp only [mapSet, List.mem_append, List.mem_filter, List.mem_singleton] at hkv
        rcases hkv with ⟨hm, -⟩ | rfl
        · exact hv kv hm
        · rfl

/-- The result of `UniqueIPNetList` has no two entries with the same CIDR
string and is in ascending order of (16-byte address, prefix length). -/
theorem UniqueIPNetList_uniqueSorted (cidr : IPNet → String) (ipnets : List IPNet) :
    uniqueSorted cidr (UniqueIPNetList cidr ipnets) := by
  obtain ⟨hk, hv⟩ := UniqueIPNetList.map_invariant cidr ipnets [] List.nodup_nil
    (fun _ h => absurd h (List.not_mem_nil _))
  constructor
  · simp only [UniqueIPNetList, sortIPNets]
    refine ((sort.Slice_perm _ _).map cidr).nodup_iff.2 ?_
    rw [List.map_map]
    rw [List.map_congr_left (g := fun kv : String × IPNet => kv.1)
      (fun kv hkv => by simpa using hv kv hkv)]
    exact hk
  · exact sort.Slice_sorted sortKey sortIPNets.less sortIPNets.less_iff _

/-! ## C20: the address lists of the compiled rules -/

theorem foldl_invariant {α β : Type} (P : β → Prop) (f : β → α → β) (l : List α) (init : β)
    (h0 : P init) (hstep : ∀ acc x, P acc → P (f acc x)) : P (l.foldl f init) := by
  induction l generalizing init with
  | nil => exact h0
  | cons x xs ih => exact ih _ (hstep _ _ h0)

theorem mapSet_forall {α : Type} (P : α → Prop) (m : List (String × α)) (k : String) (v : α)
    (hm : ∀ kv ∈ m, P kv.2) (hv : P v) : ∀ kv ∈ mapSet m k v, P kv.2 := by
  intro kv hkv
  simp only [mapSet, List.mem_append, List.mem_filter, List.mem_singleton] at hkv
  rcases hkv with ⟨h, -⟩ | rfl
  · exact hm kv h
  · exact hv

theorem GetAclRulesForNode.policyStep_listsOk (ix : Index) (taggedNodes : String → List Node)
    (targetnode : Node) (nodeTag : String) (rules : List (String × AclRule)) (acl : Acl)
    (h : ∀ kv ∈ rules, kv.2.listsOk ix.cidr) :
    ∀ kv ∈ GetAclRulesForNode.policyStep ix taggedNodes targetnode nodeTag rules acl,
      kv.2.listsOk ix.cidr := by
  simp only [GetAclRulesForNode.policyStep]
  split_ifs
  · exact h
  · exact mapSet_forall _ _ _ _ h
      ⟨UniqueIPNetList_uniqueSorted _ _, UniqueIPNetList_uniqueSorted _ _⟩
  · exact h

theorem GetAclRulesForNode.devicePass_listsOk (w : World) (ix : Index) (targetnode : Node) :
    ∀ kv ∈ GetAclRulesForNode.devicePass w ix targetnode, kv.2.listsOk ix.cidr := by
  simp only [GetAclRulesForNode.devicePass]
  apply foldl_invariant (fun rules : List (String × AclRule) =>
    ∀ kv ∈ rules, kv.2.listsOk ix.cidr)
  · intro kv hkv
    exact absurd hkv (List.not_mem_nil _)
  · intro acc nodeTag hacc
    apply foldl_invariant (fun rules : List (String × AclRule) =>
      ∀ kv ∈ rules, kv.2.listsOk ix.cidr)
    · exact hacc
    · intro acc2 acl hacc2
      exact GetAclRulesForNode.policyStep_listsOk ix _ targetnode nodeTag acc2 acl hacc2

theorem getUserAclRulesForNode.ruleStep_listsOk (ix : Index) (userNode : Node)
    (rules : List (String × AclRule)) (acl : Acl)
    (h : ∀ kv ∈ rules, kv.2.listsOk ix.cidr) :
    ∀ kv ∈ getUserAclRulesForNode.ruleStep ix userNode rules acl, kv.2.listsOk ix.cidr := by
  unfold getUserAclRulesForNode.ruleStep
  by_cases hen : acl.Enabled = false
  · rw [if_pos hen]
    exact h
  · rw [if_neg hen]
    cases mapGet rules acl.ID <;>
      exact mapSet_forall _ _ _ _ h
        ⟨UniqueIPNetList_uniqueSorted _ _, UniqueIPNetList_uniqueSorted _ _⟩

theorem getUserAclRulesForNode.nodeStep_listsOk (ix : Index)
    (allowedUsers : List (String × List Acl)) (rules : List (String × AclRule))
    (userNode : Node) (h : ∀ kv ∈ rules, kv.2.listsOk ix.cidr) :
    ∀ kv ∈ getUserAclRulesForNode.nodeStep ix allowedUsers rules userNode,
      kv.2.listsOk ix.cidr := by
  unfold getUserAclRulesForNode.nodeStep
  by_cases hen : userNode.StaticNode.Enabled = false
  · rw [if_pos hen]
    exact h
  · rw [if_neg hen]
    cases mapGet allowedUsers userNode.StaticNode.OwnerID with
    | none => exact h
    | some acls =>
      apply foldl_invariant (fun rules : List (String × AclRule) =>
        ∀ kv ∈ rules, kv.2.listsOk ix.cidr)
      · exact h
      · intro acc2 acl hacc2
        exact getUserAclRulesForNode.ruleStep_listsOk ix userNode acc2 acl hacc2

theorem getUserAclRulesForNode_listsOk (w : World) (ix : Index) (targetnode : Node)
    (rules : List (String × AclRule)) (h : ∀ kv ∈ rules, kv.2.listsOk ix.cidr) :
    ∀ kv ∈ getUserAclRulesForNode w ix targetnode rules, kv.2.listsOk ix.cidr := by
  unfold getUserAclRulesForNode
  apply foldl_invariant (fun rules : List (String × AclRule) =>
    ∀ kv ∈ rules, kv.2.listsOk ix.cidr)
  · exact h
  · intro acc userNode hacc
    exact getUserAclRulesForNode.nodeStep_listsOk ix _ acc userNode hacc

/-- C20: for every target node and every policy ID in `GetAclRulesForNode`,
the `IPList` and the `IP6List` of the rule have no two entries with the same
CIDR string and are sorted ascending by (16-byte form of the IP compared
bytewise, then prefix length); and the user-policy pass keeps this for the
rules it produces, merges or leaves alone. -/
theorem C20_rule_lists_unique_sorted (w : World) (ix : Index) (targetnode : Node) :
    (∀ id r, mapGet (GetAclRulesForNode w ix targetnode) id = some r →
      uniqueSorted ix.cidr r.IPList ∧ uniqueSorted ix.cidr r.IP6List) ∧
    (∀ rules : List (String × AclRule),
      (∀ kv ∈ rules, uniqueSorted ix.cidr kv.2.IPList ∧ uniqueSorted ix.cidr kv.2.IP6List) →
      ∀ kv ∈ getUserAclRulesForNode w ix targetnode rules,
        uniqueSorted ix.cidr kv.2.IPList ∧ uniqueSorted ix.cidr kv.2.IP6List) := by
  constructor
  · intro id r h
    have hall : ∀ kv ∈ GetAclRulesForNode w ix targetnode, kv.2.listsOk ix.cidr := by
      simp only [GetAclRulesForNode]
      split_ifs
      · exact getUserAclRulesForNode_listsOk w ix targetnode _
          (GetAclRulesForNode.devicePass_listsOk w ix targetnode)
      · exact GetAclRulesForNode.devicePass_listsOk w ix targetnode
    exact hall (id, r) (mapGet_mem _ _ _ h)
  · intro rules h
    exact getUserAclRulesForNode_listsOk w ix targetnode rules h

/-- C20 in scenario S1: the rule of `N1` under `netA.all-nodes` holds exactly
`10.0.0.2/32`, and its lists are free of repetitions and sorted. -/
theorem C20_rule_lists_unique_sorted_witness :
    mapGet (GetAclRulesForNode worldS1 indexS N1addr) "netA.all-nodes" = some ruleS1 ∧
      uniqueSorted indexS.cidr ruleS1.IPList ∧ uniqueSorted indexS.cidr ruleS1.IP6List :=
  ⟨by decide,
    (C20_rule_lists_unique_sorted worldS1 indexS N1addr).1 "netA.all-nodes" ruleS1
      (by decide)⟩

/-! ## What `UniqueIPNetList` keeps -/

theorem mapGet_isSome_iff {α : Type} (m : List (String × α)) (k : String) :
    (mapGet m k).isSome = true ↔ k ∈ m.map (fun kv => kv.1) := by
  induction m with
  | nil => simp [mapGet]
  | cons kv rest ih =>
    rw [mapGet_cons]
    by_cases h : kv.1 = k
    · simp [h]
    · rw [if_neg h, ih]
      simp [h, Ne.symm h, eq_comm]

theorem mapSet_of_absent {α : Type} (m : List (String × α)) (k : String) (v : α)
    (h : k ∉ m.map (fun kv => kv.1)) : mapSet m k v = m ++ [(k, v)] := by
  simp only [mapSet]
  rw [List.filter_eq_self.2]
  intro kv hkv
  simp only [decide_eq_true_eq]
  intro he
  exact h (List.mem_map.2 ⟨kv, hkv, he⟩)

theorem UniqueIPNetList_eq (cidr : IPNet → String) (ipnets : List IPNet) :
    UniqueIPNetList cidr ipnets =
      sortIPNets ((UniqueIPNetList.collect cidr [] ipnets).map (fun kv => kv.2)) := rfl

theorem UniqueIPNetList.collect_cons (cidr : IPNet → String) (m : List (String × IPNet))
    (x : IPNet) (xs : List IPNet) :
    UniqueIPNetList.collect cidr m (x :: xs) =
      UniqueIPNetList.collect cidr
        (if (mapGet m (cidr x)).isSome = true then m else mapSet m (cidr x) x) xs := rfl

/-- The keys of the map are the keys it started with and the CIDR strings of
the list. -/
theorem UniqueIPNetList.collect_keys (cidr : IPNet → String) (ipnets : List IPNet)
    (m : List (String × IPNet)) (c : String) :
    c ∈ (UniqueIPNetList.collect cidr m ipnets).map (fun kv => kv.1) ↔
      c ∈ m.map (fun kv => kv.1) ∨ c ∈ ipnets.map cidr := by
  induction ipnets generalizing m with
  | nil => simp [UniqueIPNetList.collect]
  | cons x xs ih =>
    rw [UniqueIPNetList.collect_cons, ih]
    by_cases h : (mapGet m (cidr x)).isSome = true
    · rw [if_pos h]
      have hx := (mapGet_isSome_iff m (cidr x)).1 h
      simp only [List.map_cons, List.mem_cons]
      constructor
      · rintro (h1 | h1)
        · exact Or.inl h1
        · exact Or.inr (Or.inr h1)
      · rintro (h1 | h1 | h1)
        · exact Or.inl h1
        · exact Or.inl (h1 ▸ hx)
        · exact Or.inr h1
    · rw [if_neg h]
      have hx : cidr x ∉ m.map (fun kv => kv.1) := fun hx => h ((mapGet_isSome_iff m _).2 hx)
      rw [mapSet_of_absent m _ _ hx]
      simp only [List.map_append, List.map_cons, List.map_nil, List.mem_append,
        List.mem_singleton, List.mem_cons]
      tauto

/-- Every value of the map is a value it started with or an entry of the
list. -/
theorem UniqueIPNetList.collect_values (cidr : IPNet → String) (ipnets : List IPNet)
    (m : List (String × IPNet)) (kv : String × IPNet)
    (h : kv ∈ UniqueIPNetList.collect cidr m ipnets) : kv ∈ m ∨ kv.2 ∈ ipnets := by
  induction ipnets generalizing m with
  | nil => exact Or.inl h
  | cons x xs ih =>
    rw [UniqueIPNetList.collect_cons] at h
    rcases ih _ h with h1 | h1
    · split_ifs at h1 with hx
      · exact Or.inl h1
      · simp only [mapSet, List.mem_append, List.mem_filter, List.mem_singleton] at h1
        rcases h1 with ⟨h1, -⟩ | rfl
        · exact Or.inl h1
        · exact Or.inr (List.mem_cons_self _ _)
    · exact Or.inr (List.mem_cons_of_mem _ h1)

/-- On a list without repeated CIDR strings, none of them a key of the map,
the loop appends the entries in order. -/
theorem UniqueIPNetList.collect_of_nodup (cidr : IPNet → String) (ipnets : List IPNet)
    (m : List (String × IPNet)) (hnd : (ipnets.map cidr).Nodup)
    (hdis : ∀ x ∈ ipnets, cidr x ∉ m.map (fun kv => kv.1)) :
    UniqueIPNetList.collect cidr m ipnets = m ++ ipnets.map (fun x => (cidr x, x)) := by
  induction ipnets generalizing m with
  | nil => simp [UniqueIPNetList.collect]
  | cons x xs ih =>
    rw [UniqueIPNetList.collect_cons]
    have hx : cidr x ∉ m.map (fun kv => kv.1) := hdis x (List.mem_cons_self _ _)
    have hx2 : ¬ (mapGet m (cidr x)).isSome = true := fun h => hx ((mapGet_isSome_iff m _).1 h)
    rw [if_neg hx2, mapSet_of_absent m _ _ hx]
    rw [List.map_cons, List.nodup_cons] at hnd
    rw [ih _ hnd.2]
    · simp
    · intro y hy hmem
      simp only [List.map_append, List.map_cons, List.map_nil, List.mem_append,
        List.mem_singleton] at hmem
      rcases hmem with hmem | hmem
      · exact hdis y (List.mem_cons_of_mem _ hy) hmem
      · exact hnd.1 (hmem ▸ List.mem_map_of_mem cidr hy)

theorem sort.insert_of_not_less {α : Type} (less : α → α → Bool) (x : α) (l : List α)
    (h : ∀ y ∈ l, less x y = false) : sort.insert less x l = l ++ [x] := by
  induction l with
  | nil => rfl
  | cons y ys ih =>
    simp only [sort.insert]
    rw [if_neg (by simp [h y (List.mem_cons_self _ _)])]
    rw [ih (fun z hz => h z (List.mem_cons_of_mem _ hz))]
    rfl

/-- The insertion sort leaves a list alone that is in ascending order of the
key. -/
theorem sort.Slice_of_sorted {α β : Type} [LinearOrder β] (key : α → β) (less : α → α → Bool)
    (hless : ∀ a b, less a b = true ↔ key a < key b) (data : List α)
    (h : data.Pairwise (fun a b => key a ≤ key b)) : sort.Slice less data = data := by
  have aux : ∀ (data sorted : List α), (sorted ++ data).Pairwise (fun a b => key a ≤ key b) →
      data.foldl (fun sorted x => sort.insert less x sorted) sorted = sorted ++ data := by
    intro data
    induction data with
    | nil => intro sorted _; simp
    | cons x xs ih =>
      intro sorted hs
      simp only [List.foldl_cons]
      have hx : ∀ y ∈ sorted, less x y = false := by
        intro y hy
        have hle : key y ≤ key x := by
          rw [List.pairwise_append] at hs
          exact hs.2.2 y hy x (List.mem_cons_self _ _)
        cases hxy : less x y with
        | false => rfl
        | true => exact absurd ((hless x y).1 hxy) (not_lt.2 hle)
      rw [sort.insert_of_not_less less x sorted hx, ih]
      · simp
      · simpa using hs
  simpa [sort.Slice] using aux data [] (by simpa using h)

theorem UniqueIPNetList.mem_cidr (cidr : IPNet → String) (ipnets : List IPNet) (c : String) :
    c ∈ (UniqueIPNetList cidr ipnets).map cidr ↔ c ∈ ipnets.map cidr := by
  obtain ⟨-, hv⟩ := UniqueIPNetList.map_invariant cidr ipnets [] List.nodup_nil
    (fun _ h => absurd h (List.not_mem_nil _))
  have hperm := (sort.Slice_perm sortIPNets.less
    ((UniqueIPNetList.collect cidr [] ipnets).map (fun kv => kv.2))).map cidr
  rw [UniqueIPNetList_eq, sortIPNets, hperm.mem_iff, List.map_map,
    List.map_congr_left (g := fun kv : String × IPNet => kv.1)
      (fun kv hkv => by simpa using hv kv hkv),
    UniqueIPNetList.collect_keys]
  simp

theorem UniqueIPNetList.mem_of_mem (cidr : IPNet → String) (ipnets : List IPNet) (x : IPNet)
    (h : x ∈ UniqueIPNetList cidr ipnets) : x ∈ ipnets := by
  rw [UniqueIPNetList_eq, sortIPNets, (sort.Slice_perm _ _).mem_iff, List.mem_map] at h
  obtain ⟨kv, hkv, rfl⟩ := h
  rcases UniqueIPNetList.collect_values cidr ipnets [] kv hkv with h1 | h1
  · exact absurd h1 (List.not_mem_nil _)
  · exact h1

/-- A list that is already free of repeated CIDR strings and sorted is left as
it is. -/
theorem UniqueIPNetList_of_uniqueSorted (cidr : IPNet → String) (l : List IPNet)
    (h : uniqueSorted cidr l) : UniqueIPNetList cidr l = l := by
  rw [UniqueIPNetList_eq, UniqueIPNetList.collect_of_nodup cidr l [] h.1 (by simp)]
  simp only [List.nil_append, List.map_map]
  have : (l.map ((fun kv : String × IPNet => kv.2) ∘ fun x => (cidr x, x))) = l := by
    simp [Function.comp_def]
  rw [this]
  exact sort.Slice_of_sorted sortKey sortIPNets.less sortIPNets.less_iff l h.2

instance sortKey.lt_antisymm : IsAntisymm IPNet (fun a b => sortKey a < sortKey b) :=
  ⟨fun _ _ h1 h2 => absurd h1 (lt_asymm h2)⟩

/-- When entries with different CIDR strings never share a sort key, a list
free of repeated CIDR strings has one sorted arrangement only. -/
theorem uniqueSorted_unique (cidr : IPNet → String) (l r : List IPNet)
    (hl : uniqueSorted cidr l) (hperm : r.Perm l)
    (hr : r.Pairwise (fun a b => sortKey a ≤ sortKey b))
    (hkey : ∀ a ∈ l, ∀ b ∈ l, sortKey a = sortKey b → cidr a = cidr b) : r = l := by
  have strict : ∀ t : List IPNet, t.Perm l → t.Pairwise (fun a b => sortKey a ≤ sortKey b) →
      t.Pairwise (fun a b => sortKey a < sortKey b) := by
    intro t ht hs
    have hnd : (t.map cidr).Nodup := (ht.map cidr).nodup_iff.2 hl.1
    have hne : t.Pairwise (fun a b => cidr a ≠ cidr b) := by
      rw [List.Nodup, List.pairwise_map] at hnd
      exact hnd
    have hboth := hs.and hne
    refine hboth.imp_of_mem ?_
    intro a b ha hb hab
    refine lt_of_le_of_ne hab.1 ?_
    intro he
    exact hab.2 (hkey a (ht.subset ha) b (ht.subset hb) he)
  exact List.eq_of_perm_of_sorted hperm (strict r hperm hr) (strict l (List.Perm.refl _) hl.2)

/-- The run of `UniqueIPNetList` in which the map is ranged over in insertion
order and tied entries keep that order: the CIDR strings of
`UniqueIPNetList l` are exactly the distinct CIDR strings of `l`, each once;
every entry of the result is an entry of `l`; and `UniqueIPNetList` applied to
its own result returns it unchanged.  The result is moreover the only sorted
arrangement of its entries when entries with different CIDR strings never
share the sort key. -/
theorem UniqueIPNetList_exact (cidr : IPNet → String) (l : List IPNet) :
    ((UniqueIPNetList cidr l).map cidr).Perm ((l.map cidr).dedup) ∧
    (∀ x ∈ UniqueIPNetList cidr l, x ∈ l) ∧
    (∀ x ∈ l, ∃ y ∈ UniqueIPNetList cidr l, cidr y = cidr x) ∧
    UniqueIPNetList cidr (UniqueIPNetList cidr l) = UniqueIPNetList cidr l ∧
    (∀ r : List IPNet, r.Perm (UniqueIPNetList cidr l) →
      r.Pairwise (fun a b => sortKey a ≤ sortKey b) →
      (∀ a ∈ l, ∀ b ∈ l, sortKey a = sortKey b → cidr a = cidr b) →
      r = UniqueIPNetList cidr l) := by
  have hus := UniqueIPNetList_uniqueSorted cidr l
  refine ⟨?_, UniqueIPNetList.mem_of_mem cidr l, ?_, ?_, ?_⟩
  · rw [List.perm_ext_iff_of_nodup hus.1 (List.nodup_dedup _)]
    intro c
    rw [UniqueIPNetList.mem_cidr, List.mem_dedup]
  · intro x hx
    have := (UniqueIPNetList.mem_cidr cidr l (cidr x)).2 (List.mem_map_of_mem cidr hx)
    obtain ⟨y, hy, hc⟩ := List.mem_map.1 this
    exact ⟨y, hy, hc⟩
  · exact UniqueIPNetList_of_uniqueSorted cidr _ hus
  · intro r hperm hr hkey
    refine uniqueSorted_unique cidr _ r hus hperm hr ?_
    intro a ha b hb
    exact hkey a (UniqueIPNetList.mem_of_mem cidr l a ha) b (UniqueIPNetList.mem_of_mem cidr l b hb)

/-- On the list `10.0.0.2/32, 10.0.0.1/32, 10.0.0.2/32`: the result is
`10.0.0.1/32, 10.0.0.2/32`, and every entry of it is an entry of the list. -/
theorem UniqueIPNetList_exact_example :
    UniqueIPNetList indexS.cidr [host4 10 0 0 2, host4 10 0 0 1, host4 10 0 0 2] =
        [host4 10 0 0 1, host4 10 0 0 2] ∧
      ∀ x ∈ UniqueIPNetList indexS.cidr [host4 10 0 0 2, host4 10 0 0 1, host4 10 0 0 2],
        x ∈ [host4 10 0 0 2, host4 10 0 0 1, host4 10 0 0 2] :=
  ⟨by decide,
    (UniqueIPNetList_exact indexS.cidr [host4 10 0 0 2, host4 10 0 0 1, host4 10 0 0 2]).2.1⟩

/-! ## C22, C23: one rule per policy, written once per tag of the target -/

/-- C22: the target `N3` of `netA` carries the tags `web` and `db`; the only
enabled policy is the bidirectional `netA.webdb`.  When the tag set is ranged
over as `web, db` the rule under `netA.webdb` holds `10.0.0.2/32`; when it is
ranged over as `db, web` the rule holds `10.0.0.1/32`.  Nothing else differs
between the two calls. -/
theorem C22_rule_depends_on_tag_order :
    (N3addr ["web", "db"]).Tags.Perm (N3addr ["db", "web"]).Tags ∧
      { N3addr ["db", "web"] with Tags := ["web", "db"] } = N3addr ["web", "db"] ∧
      ipListOf (GetAclRulesForNode worldS3 indexS3 (N3addr ["web", "db"])) "netA.webdb" =
        [host4 10 0 0 2] ∧
      ipListOf (GetAclRulesForNode worldS3 indexS3 (N3addr ["db", "web"])) "netA.webdb" =
        [host4 10 0 0 1] := by
  refine ⟨by decide, by decide, by decide, by decide⟩

/-- C23: for the target `N3` with the tags `web` and `db` and the enabled
bidirectional policy `netA.webdb`, the tag `web` contributes `10.0.0.1/32`
and the tag `db` contributes `10.0.0.2/32`, but the rule emitted under
`netA.webdb` holds `10.0.0.2/32` only. -/
theorem C23_rule_of_last_tag_only :
    webdbBi ∈ listDevicePolicies worldS3 "netA" ∧ webdbBi.Enabled = true ∧
      (GetAclRulesForNode.rule indexS3 (indexS3.GetTagMapWithNodesByNetwork "netA" true)
        (N3addr ["web", "db"]) "web" webdbBi).IPList = [host4 10 0 0 1] ∧
      (GetAclRulesForNode.rule indexS3 (indexS3.GetTagMapWithNodesByNetwork "netA" true)
        (N3addr ["web", "db"]) "db" webdbBi).IPList = [host4 10 0 0 2] ∧
      (mapGet (GetAclRulesForNode worldS3 indexS3 (N3addr ["web", "db"])) "netA.webdb").map
        (fun r => r.IPList) = some [host4 10 0 0 2] := by
  refine ⟨by decide, by decide, by decide, by decide, by decide⟩

/-! ## C24: the flag of the tag index -/

theorem GetAclRulesForNode.addNodes_index (ix : Index)
    (f : String → Bool → String → List Node) (targetID : String) (nodes : List Node)
    (aclRule : AclRule) :
    GetAclRulesForNode.addNodes { ix with GetTagMapWithNodesByNetwork := f } targetID aclRule
        nodes =
      GetAclRulesForNode.addNodes ix targetID aclRule nodes := by
  induction nodes generalizing aclRule with
  | nil => rfl
  | cons node rest ih =>
    simp only [GetAclRulesForNode.addNodes]
    rw [ih, ih]

theorem GetAclRulesForNode.addTags_index (ix : Index)
    (f : String → Bool → String → List Node) (taggedNodes : String → List Node)
    (targetID nodeTag : String) (tags : List String) (aclRule : AclRule) :
    GetAclRulesForNode.addTags { ix with GetTagMapWithNodesByNetwork := f } taggedNodes
        targetID nodeTag aclRule tags =
      GetAclRulesForNode.addTags ix taggedNodes targetID nodeTag aclRule tags := by
  induction tags generalizing aclRule with
  | nil => rfl
  | cons tag rest ih =>
    simp only [GetAclRulesForNode.addTags]
    rw [ih, ih, GetAclRulesForNode.addNodes_index]

theorem GetAclRulesForNode.policyStep_index (ix : Index)
    (f : String → Bool → String → List Node) (taggedNodes : String → List Node)
    (targetnode : Node) :
    GetAclRulesForNode.policyStep { ix with GetTagMapWithNodesByNetwork := f } taggedNodes
        targetnode =
      GetAclRulesForNode.policyStep ix taggedNodes targetnode := by
  funext nodeTag rules acl
  simp only [GetAclRulesForNode.policyStep, GetAclRulesForNode.rule,
    GetAclRulesForNode.addTags_index, GetAclRulesForNode.addNodes_index]

theorem getUserAclRulesForNode_index (w : World) (ix : Index)
    (f : String → Bool → String → List Node) (targetnode : Node)
    (rules : List (String × AclRule)) :
    getUserAclRulesForNode w { ix with GetTagMapWithNodesByNetwork := f } targetnode rules =
      getUserAclRulesForNode w ix targetnode rules := rfl

/-- C24 as stated fails: `indexFlagged` and `indexS` hold the same nodes under
the flag `true`, and the ingress gateway `GW` gets no rule from the first and
the rule `netA.all-nodes` from the second; the plain node `N1` gets the same
rules from both. -/
theorem C24_gateway_index_fetched_with_false :
    gatewayS.IsIngressGateway = true ∧
      (∀ net tag, indexFlagged.GetTagMapWithNodesByNetwork net true tag =
        indexS.GetTagMapWithNodesByNetwork net true tag) ∧
      GetAclRulesForNode worldS1 indexFlagged gatewayS = [] ∧
      ipListOf (GetAclRulesForNode worldS1 indexS gatewayS) "netA.all-nodes" =
        [host4 10 0 0 1, host4 10 0 0 2] ∧
      GetAclRulesForNode worldS1 indexFlagged N1addr =
        GetAclRulesForNode worldS1 indexS N1addr := by
  refine ⟨rfl, fun _ _ => rfl, by decide, by decide, by decide⟩

/-- C24, amended: the rules of a target depend on the tag index only through
the map fetched with the flag `false` when the target is an ingress gateway
and with the flag `true` when it is not: replacing the index by one that
agrees with it under that flag, for the network of the target, leaves the
result unchanged. -/
theorem C24_index_flag (w : World) (ix : Index) (f : String → Bool → String → List Node)
    (targetnode : Node)
    (h : ∀ tag, f targetnode.Network (!targetnode.IsIngressGateway) tag =
      ix.GetTagMapWithNodesByNetwork targetnode.Network (!targetnode.IsIngressGateway) tag) :
    GetAclRulesForNode w { ix with GetTagMapWithNodesByNetwork := f } targetnode =
      GetAclRulesForNode w ix targetnode := by
  have hfun : f targetnode.Network (!targetnode.IsIngressGateway) =
      ix.GetTagMapWithNodesByNetwork targetnode.Network (!targetnode.IsIngressGateway) :=
    funext h
  have hdev : GetAclRulesForNode.devicePass w { ix with GetTagMapWithNodesByNetwork := f }
      targetnode = GetAclRulesForNode.devicePass w ix targetnode := by
    cases hg : targetnode.IsIngressGateway
    · rw [hg] at hfun
      simp only [GetAclRulesForNode.devicePass, hg, Bool.false_eq_true, if_false]
      simp only [Bool.not_false] at hfun
      rw [hfun, GetAclRulesForNode.policyStep_index]
    · rw [hg] at hfun
      simp only [GetAclRulesForNode.devicePass, hg, if_true]
      simp only [Bool.not_true] at hfun
      rw [hfun, GetAclRulesForNode.policyStep_index]
  simp only [GetAclRulesForNode]
  rw [hdev, getUserAclRulesForNode_index]

/-- C24 on the gateway `GW`: the index `indexFlagged` changed under the flag
`true` only gives the same rules. -/
theorem C24_index_flag_witness :
    GetAclRulesForNode worldS1
        { indexFlagged with
          GetTagMapWithNodesByNetwork := fun _ flag _ => if flag = true then [N2addr] else [] }
        gatewayS =
      GetAclRulesForNode worldS1 indexFlagged gatewayS :=
  C24_index_flag worldS1 indexFlagged (fun _ flag _ => if flag = true then [N2addr] else [])
    gatewayS (fun _ => rfl)

/-! ## The user-policy pass -/

theorem getUserAclRulesForNode_eq (w : World) (ix : Index) (targetnode : Node)
    (rules : List (String × AclRule)) :
    getUserAclRulesForNode w ix targetnode rules =
      (ix.GetStaticUserNodesByNetwork targetnode.Network).foldl
        (getUserAclRulesForNode.nodeStep ix (getUserAclRulesForNode.allowedUsers w ix targetnode))
        rules := by
  simp only [getUserAclRulesForNode, getUserAclRulesForNode.allowedUsers, ite_self]

/-- A loop whose step adds to an observation of the accumulator what `P` says
of the item: the observation of the result is that of the initial value or
`P` of some item. -/
theorem foldl_obs_iff {α β : Type} (obs : β → Prop) (P : α → Prop) (f : β → α → β)
    (h : ∀ acc x, obs (f acc x) ↔ obs acc ∨ P x) (l : List α) (init : β) :
    obs (l.foldl f init) ↔ obs init ∨ ∃ x ∈ l, P x := by
  induction l generalizing init with
  | nil => simp
  | cons x xs ih =>
    rw [List.foldl_cons, ih, h]
    simp only [List.mem_cons, exists_eq_or_imp, or_assoc]

theorem getUserAclRulesForNode.mem_allow (m : List (String × List Acl)) (key k : String)
    (acl a : Acl) :
    a ∈ getUserAclRulesForNode.allowedOf (getUserAclRulesForNode.allow m key acl) k ↔
      a ∈ getUserAclRulesForNode.allowedOf m k ∨ (key = k ∧ a = acl) := by
  simp only [getUserAclRulesForNode.allowedOf, getUserAclRulesForNode.allow]
  by_cases hk : k = key
  · subst hk
    rw [mapGet_mapSet_self]
    simp
  · rw [mapGet_mapSet_ne _ _ _ _ hk]
    simp [Ne.symm hk]

theorem getUserAclRulesForNode.mem_srcStep (ix : Index) (acl : Acl)
    (m : List (String × List Acl)) (srcAcl : AclPolicyTag) (k : String) (a : Acl) :
    a ∈ getUserAclRulesForNode.allowedOf (getUserAclRulesForNode.srcStep ix acl m srcAcl) k ↔
      a ∈ getUserAclRulesForNode.allowedOf m k ∨
        (a = acl ∧ getUserAclRulesForNode.names ix srcAcl k) := by
  have hne : UserAclID ≠ UserGroupAclID := by decide
  simp only [getUserAclRulesForNode.srcStep, getUserAclRulesForNode.names]
  by_cases h1 : srcAcl.ID = UserAclID
  · rw [if_pos h1, getUserAclRulesForNode.mem_allow]
    have h2 : srcAcl.ID ≠ UserGroupAclID := by rw [h1]; exact hne
    simp only [h1, h2, true_and, false_and, or_false]
    tauto
  · rw [if_neg h1]
    by_cases h2 : srcAcl.ID = UserGroupAclID
    · rw [if_pos h2]
      cases hg : ix.GetUserGrpMap srcAcl.Value with
      | none => simp [h1, h2, Ne.symm hne]
      | some usersMap =>
        simp only [h2, Ne.symm hne, false_and, true_and, false_or, Option.some.injEq,
          exists_eq_left']
        rw [foldl_obs_iff
          (fun m => a ∈ getUserAclRulesForNode.allowedOf m k)
          (fun userName => userName = k ∧ a = acl)
          (fun m userName => getUserAclRulesForNode.allow m userName acl)
          (fun acc x => getUserAclRulesForNode.mem_allow acc x k acl a)]
        constructor
        · rintro (h | ⟨x, hx, rfl, rfl⟩)
          · exact Or.inl h
          · exact Or.inr ⟨rfl, hx⟩
        · rintro (h | ⟨rfl, hx⟩)
          · exact Or.inl h
          · exact Or.inr ⟨k, hx, rfl, rfl⟩
    · rw [if_neg h2]
      simp [h1, h2]

theorem getUserAclRulesForNode.mem_aclStep (ix : Index) (nodeTag : String)
    (m : List (String × List Acl)) (acl : Acl) (k : String) (a : Acl) :
    a ∈ getUserAclRulesForNode.allowedOf (getUserAclRulesForNode.aclStep ix nodeTag m acl) k ↔
      a ∈ getUserAclRulesForNode.allowedOf m k ∨
        (a = acl ∧ acl.Enabled = true ∧ nodeTag ∈ convAclTagToValueMap acl.Dst ∧
          ∃ srcAcl ∈ acl.Src, getUserAclRulesForNode.names ix srcAcl k) := by
  simp only [getUserAclRulesForNode.aclStep]
  by_cases hen : acl.Enabled = false
  · rw [if_pos hen]
    simp [hen]
  · rw [if_neg hen]
    have hen2 : acl.Enabled = true := by simpa using hen
    by_cases hd : nodeTag ∈ convAclTagToValueMap acl.Dst
    · rw [if_pos hd,
        foldl_obs_iff (fun m => a ∈ getUserAclRulesForNode.allowedOf m k)
          (fun srcAcl => a = acl ∧ getUserAclRulesForNode.names ix srcAcl k)
          (getUserAclRulesForNode.srcStep ix acl)
          (fun acc x => getUserAclRulesForNode.mem_srcStep ix acl acc x k a)]
      simp only [hen2, hd, true_and]
      constructor
      · rintro (h | ⟨x, hx, h1, h2⟩)
        · exact Or.inl h
        · exact Or.inr ⟨h1, x, hx, h2⟩
      · rintro (h | ⟨h1, x, hx, h2⟩)
        · exact Or.inl h
        · exact Or.inr ⟨x, hx, h1, h2⟩
    · rw [if_neg hd]
      simp [hd]

/-- The policies listed for a user name in `allowedUsers`: the enabled user
policies of the network whose `Dst` holds a tag of the target and whose `Src`
names the user. -/
theorem getUserAclRulesForNode.mem_allowedUsers (w : World) (ix : Index) (targetnode : Node)
    (k : String) (a : Acl) :
    a ∈ getUserAclRulesForNode.allowedOf
        (getUserAclRulesForNode.allowedUsers w ix targetnode) k ↔
      a ∈ listUserPolicies w targetnode.Network ∧ a.Enabled = true ∧
        hitsEntries targetnode.Tags a.Dst ∧
        ∃ srcAcl ∈ a.Src, getUserAclRulesForNode.names ix srcAcl k := by
  simp only [getUserAclRulesForNode.allowedUsers]
  rw [foldl_obs_iff (fun m => a ∈ getUserAclRulesForNode.allowedOf m k)
    (fun nodeTag => a ∈ listUserPolicies w targetnode.Network ∧ a.Enabled = true ∧
      nodeTag ∈ convAclTagToValueMap a.Dst ∧
      ∃ srcAcl ∈ a.Src, getUserAclRulesForNode.names ix srcAcl k)]
  · simp only [getUserAclRulesForNode.allowedOf, mapGet, List.find?_nil, Option.map_none',
      Option.getD_none, List.not_mem_nil, false_or, hitsEntries, mem_convAclTagToValueMap]
    constructor
    · rintro ⟨t, ht, h1, h2, ⟨e, he, hv⟩, h4⟩
      exact ⟨h1, h2, ⟨t, ht, e, he, hv⟩, h4⟩
    · rintro ⟨h1, h2, ⟨t, ht, e, he, hv⟩, h4⟩
      exact ⟨t, ht, h1, h2, ⟨e, he, hv⟩, h4⟩
  · intro acc nodeTag
    rw [foldl_obs_iff (fun m => a ∈ getUserAclRulesForNode.allowedOf m k)
      (fun acl => a = acl ∧ acl.Enabled = true ∧ nodeTag ∈ convAclTagToValueMap acl.Dst ∧
        ∃ srcAcl ∈ acl.Src, getUserAclRulesForNode.names ix srcAcl k)
      (getUserAclRulesForNode.aclStep ix nodeTag)
      (fun acc x => getUserAclRulesForNode.mem_aclStep ix nodeTag acc x k a)]
    constructor
    · rintro (h | ⟨x, hx, rfl, h2⟩)
      · exact Or.inl h
      · exact Or.inr ⟨hx, h2⟩
    · rintro (h | ⟨hx, h2⟩)
      · exact Or.inl h
      · exact Or.inr ⟨a, hx, rfl, h2⟩

theorem ipListOf_mapSet (rules : List (String × AclRule)) (k id : String) (r : AclRule) :
    ipListOf (mapSet rules k r) id = if id = k then r.IPList else ipListOf rules id := by
  simp only [ipListOf]
  by_cases h : id = k
  · rw [if_pos h, h, mapGet_mapSet_self]
  · rw [if_neg h, mapGet_mapSet_ne _ _ _ _ h]

theorem ip6ListOf_mapSet (rules : List (String × AclRule)) (k id : String) (r : AclRule) :
    ip6ListOf (mapSet rules k r) id = if id = k then r.IP6List else ip6ListOf rules id := by
  simp only [ip6ListOf]
  by_cases h : id = k
  · rw [if_pos h, h, mapGet_mapSet_self]
  · rw [if_neg h, mapGet_mapSet_ne _ _ _ _ h]

/-- A step of the loop over the policies of a user leaves the rule under
another ID alone, and so does a disabled policy. -/
theorem getUserAclRulesForNode.ruleStep_frame (ix : Index) (userNode : Node)
    (rules : List (String × AclRule)) (acl : Acl) (id : String)
    (h : acl.Enabled = true → acl.ID ≠ id) :
    mapGet (getUserAclRulesForNode.ruleStep ix userNode rules acl) id = mapGet rules id := by
  unfold getUserAclRulesForNode.ruleStep
  by_cases hen : acl.Enabled = false
  · rw [if_pos hen]
  · rw [if_neg hen]
    have hne := h (by simpa using hen)
    cases mapGet rules acl.ID <;> exact mapGet_mapSet_ne _ _ _ _ (Ne.symm hne)

/-- A step of the loop over the policies of a user keeps every rule that is
there. -/
theorem getUserAclRulesForNode.ruleStep_present (ix : Index) (userNode : Node)
    (rules : List (String × AclRule)) (acl : Acl) (id : String)
    (h : (mapGet rules id).isSome = true) :
    (mapGet (getUserAclRulesForNode.ruleStep ix userNode rules acl) id).isSome = true := by
  unfold getUserAclRulesForNode.ruleStep
  by_cases hen : acl.Enabled = false
  · rw [if_pos hen]
    exact h
  · rw [if_neg hen]
    cases mapGet rules acl.ID <;> exact mapGet_isSome_mapSet _ _ _ _ h

/-- The CIDR strings under an ID after a step of the loop over the policies of
a user: those that were there, and the client's address when the policy is
enabled and has this ID. -/
theorem getUserAclRulesForNode.ruleStep_cidrs (ix : Index) (userNode : Node)
    (rules : List (String × AclRule)) (acl : Acl) (id c : String) :
    (c ∈ (ipListOf (getUserAclRulesForNode.ruleStep ix userNode rules acl) id).map ix.cidr ↔
      c ∈ (ipListOf rules id).map ix.cidr ∨
        (acl.Enabled = true ∧ acl.ID = id ∧ userNode.StaticNode.Address ≠ "" ∧
          ix.cidr (ix.ClientAddressIPNet4 userNode.StaticNode) = c)) ∧
    (c ∈ (ip6ListOf (getUserAclRulesForNode.ruleStep ix userNode rules acl) id).map ix.cidr ↔
      c ∈ (ip6ListOf rules id).map ix.cidr ∨
        (acl.Enabled = true ∧ acl.ID = id ∧ userNode.StaticNode.Address6 ≠ "" ∧
          ix.cidr (ix.ClientAddressIPNet6 userNode.StaticNode) = c)) := by
  unfold getUserAclRulesForNode.ruleStep
  by_cases hen : acl.Enabled = false
  · rw [if_pos hen]
    simp [hen]
  · rw [if_neg hen]
    have hen2 : acl.Enabled = true := by simpa using hen
    by_cases hid : acl.ID = id
    · subst hid
      cases hget : mapGet rules acl.ID with
      | none =>
        simp only [ipListOf_mapSet, ip6ListOf_mapSet, if_true, UniqueIPNetList.mem_cidr]
        simp only [ipListOf, ip6ListOf, hget, hen2, true_and, List.map_nil, List.not_mem_nil,
          false_or]
        by_cases h4 : userNode.StaticNode.Address = "" <;>
          by_cases h6 : userNode.StaticNode.Address6 = "" <;>
          simp [h4, h6, eq_comm]
      | some aclRule =>
        simp only [ipListOf_mapSet, ip6ListOf_mapSet, if_true, UniqueIPNetList.mem_cidr]
        simp only [ipListOf, ip6ListOf, hget, hen2, true_and, List.map_append, List.mem_append]
        by_cases h4 : userNode.StaticNode.Address = "" <;>
          by_cases h6 : userNode.StaticNode.Address6 = "" <;>
          simp [h4, h6, eq_comm]
    · have hid2 : ¬ id = acl.ID := fun h => hid h.symm
      cases hget : mapGet rules acl.ID <;>
        simp only [ipListOf_mapSet, ip6ListOf_mapSet, hid, hid2, if_false, false_and, and_false,
          or_false, and_self]

theorem getUserAclRulesForNode.nodeStep_eq (ix : Index)
    (allowedUsers : List (String × List Acl)) (rules : List (String × AclRule))
    (userNode : Node) :
    getUserAclRulesForNode.nodeStep ix allowedUsers rules userNode =
      if userNode.StaticNode.Enabled = false then rules
      else (getUserAclRulesForNode.allowedOf allowedUsers userNode.StaticNode.OwnerID).foldl
        (getUserAclRulesForNode.ruleStep ix userNode) rules := by
  simp only [getUserAclRulesForNode.nodeStep, getUserAclRulesForNode.allowedOf]
  cases mapGet allowedUsers userNode.StaticNode.OwnerID <;> rfl

/-- The user-policy pass leaves alone the rule under an ID that no enabled
user policy of the network has. -/
theorem getUserAclRulesForNode_frame (w : World) (ix : Index) (targetnode : Node)
    (rules : List (String × AclRule)) (id : String)
    (h : ∀ a ∈ listUserPolicies w targetnode.Network, a.Enabled = true → a.ID ≠ id) :
    mapGet (getUserAclRulesForNode w ix targetnode rules) id = mapGet rules id := by
  rw [getUserAclRulesForNode_eq]
  apply foldl_invariant (fun r : List (String × AclRule) => mapGet r id = mapGet rules id)
  · rfl
  · intro acc userNode hacc
    rw [getUserAclRulesForNode.nodeStep_eq]
    split_ifs
    · exact hacc
    · have hsub : ∀ a ∈ getUserAclRulesForNode.allowedOf
          (getUserAclRulesForNode.allowedUsers w ix targetnode) userNode.StaticNode.OwnerID,
          a.Enabled = true → a.ID ≠ id := by
        intro a ha
        exact h a ((getUserAclRulesForNode.mem_allowedUsers w ix targetnode _ a).1 ha).1
      revert hsub
      generalize getUserAclRulesForNode.allowedOf
        (getUserAclRulesForNode.allowedUsers w ix targetnode) userNode.StaticNode.OwnerID = l
      intro hsub
      induction l generalizing acc with
      | nil => exact hacc
      | cons a rest ih =>
        rw [List.foldl_cons]
        apply ih
        · rw [getUserAclRulesForNode.ruleStep_frame ix userNode acc a id
            (hsub a (List.mem_cons_self _ _))]
          exact hacc
        · intro b hb
          exact hsub b (List.mem_cons_of_mem _ hb)

/-- The user-policy pass keeps every rule that is there. -/
theorem getUserAclRulesForNode_present (w : World) (ix : Index) (targetnode : Node)
    (rules : List (String × AclRule)) (id : String) (h : (mapGet rules id).isSome = true) :
    (mapGet (getUserAclRulesForNode w ix targetnode rules) id).isSome = true := by
  rw [getUserAclRulesForNode_eq]
  apply foldl_invariant (fun r : List (String × AclRule) => (mapGet r id).isSome = true)
  · exact h
  · intro acc userNode hacc
    rw [getUserAclRulesForNode.nodeStep_eq]
    split_ifs
    · exact hacc
    · apply foldl_invariant (fun r : List (String × AclRule) => (mapGet r id).isSome = true)
      · exact hacc
      · intro acc2 a hacc2
        exact getUserAclRulesForNode.ruleStep_present ix userNode acc2 a id hacc2

/-! ## The rule of one tag and one policy -/

theorem GetAclRulesForNode.addNodes_lists (ix : Index) (targetID : String) (nodes : List Node)
    (aclRule : AclRule) :
    (GetAclRulesForNode.addNodes ix targetID aclRule nodes).IPList =
        aclRule.IPList ++ (otherNodes targetID nodes).flatMap (Node.prefixes4 ix) ∧
      (GetAclRulesForNode.addNodes ix targetID aclRule nodes).IP6List =
        aclRule.IP6List ++ (otherNodes targetID nodes).flatMap (Node.prefixes6 ix) := by
  induction nodes generalizing aclRule with
  | nil => simp [GetAclRulesForNode.addNodes, otherNodes]
  | cons node rest ih =>
    simp only [GetAclRulesForNode.addNodes]
    by_cases hid : node.ID = targetID
    · rw [if_pos hid]
      have : otherNodes targetID (node :: rest) = otherNodes targetID rest := by
        simp [otherNodes, hid]
      rw [this]
      exact ih aclRule
    · rw [if_neg hid]
      have : otherNodes targetID (node :: rest) = node :: otherNodes targetID rest := by
        simp [otherNodes, hid]
      rw [this, (ih _).1, (ih _).2]
      simp only [List.flatMap_cons, Node.prefixes4, Node.prefixes6]
      by_cases h1 : node.Address.IP.bytes = [] <;>
        by_cases h2 : node.Address6.IP.bytes = [] <;>
        by_cases h3 : node.IsStatic = true <;>
        by_cases h4 : node.StaticNode.Address = "" <;>
        by_cases h5 : node.StaticNode.Address6 = "" <;>
        simp [h1, h2, h3, h4, h5]

theorem GetAclRulesForNode.addTags_lists (ix : Index) (taggedNodes : String → List Node)
    (targetID nodeTag : String) (tags : List String) (aclRule : AclRule) :
    (GetAclRulesForNode.addTags ix taggedNodes targetID nodeTag aclRule tags).IPList =
        aclRule.IPList ++ (tags.filter (fun tag => decide (tag ≠ nodeTag))).flatMap
          (fun tag => (otherNodes targetID (taggedNodes tag)).flatMap (Node.prefixes4 ix)) ∧
      (GetAclRulesForNode.addTags ix taggedNodes targetID nodeTag aclRule tags).IP6List =
        aclRule.IP6List ++ (tags.filter (fun tag => decide (tag ≠ nodeTag))).flatMap
          (fun tag => (otherNodes targetID (taggedNodes tag)).flatMap (Node.prefixes6 ix)) := by
  induction tags generalizing aclRule with
  | nil => simp [GetAclRulesForNode.addTags]
  | cons tag rest ih =>
    simp only [GetAclRulesForNode.addTags]
    by_cases h : tag = nodeTag
    · rw [if_pos h]
      simp only [List.filter_cons, h, ne_eq, not_true_eq_false, decide_False,
        Bool.false_eq_true, if_false]
      exact ih aclRule
    · rw [if_neg h, (ih _).1, (ih _).2,
        (GetAclRulesForNode.addNodes_lists ix targetID (taggedNodes tag) aclRule).1,
        (GetAclRulesForNode.addNodes_lists ix targetID (taggedNodes tag) aclRule).2]
      simp [List.filter_cons, h]

theorem convAclTagToValueMap_singleton (entries : List AclPolicyTag) (v : String)
    (h : entries.map (fun e => e.Value) = [v]) : convAclTagToValueMap entries = [v] := by
  match entries, h with
  | [e], h =>
    simp only [List.map_cons, List.map_nil, List.cons.injEq, and_true] at h
    simp [convAclTagToValueMap, h]

/-- The device-policy pass, written with the tag index and the tag list it
works on. -/
theorem GetAclRulesForNode.devicePass_eq (w : World) (ix : Index) (targetnode : Node) :
    GetAclRulesForNode.devicePass w ix targetnode =
      (GetAclRulesForNode.targetNodeTags targetnode).foldl
        (fun rules nodeTag =>
          (listDevicePolicies w targetnode.Network).foldl
            (GetAclRulesForNode.policyStep ix (GetAclRulesForNode.taggedNodes ix targetnode)
              targetnode nodeTag) rules) [] := by
  simp only [GetAclRulesForNode.devicePass, GetAclRulesForNode.targetNodeTags,
    GetAclRulesForNode.taggedNodes, ite_self]

/-- A step of the policy loop leaves the rule under another ID alone. -/
theorem GetAclRulesForNode.policyStep_frame (ix : Index) (taggedNodes : String → List Node)
    (targetnode : Node) (nodeTag : String) (rules : List (String × AclRule)) (acl : Acl)
    (id : String) (h : acl.Enabled = true → acl.ID ≠ id) :
    mapGet (GetAclRulesForNode.policyStep ix taggedNodes targetnode nodeTag rules acl) id =
      mapGet rules id := by
  simp only [GetAclRulesForNode.policyStep]
  by_cases hen : acl.Enabled = false
  · rw [if_pos hen]
  · rw [if_neg hen]
    have hne := h (by simpa using hen)
    split_ifs
    · exact mapGet_mapSet_ne _ _ _ _ (Ne.symm hne)
    · rfl

/-- The policy loop for one tag, read at the ID of a policy `p` that is the
only enabled policy of the list with this ID: the rule of `p` when it has an
address, the rule that was there otherwise. -/
theorem GetAclRulesForNode.policyLoop_at (ix : Index) (taggedNodes : String → List Node)
    (targetnode : Node) (nodeTag : String) (p : Acl) (acls : List Acl)
    (rules : List (String × AclRule))
    (hu : ∀ a ∈ acls, a.Enabled = true → a.ID = p.ID → a = p) :
    mapGet (acls.foldl (GetAclRulesForNode.policyStep ix taggedNodes targetnode nodeTag) rules)
        p.ID =
      if p ∈ acls ∧ p.Enabled = true ∧
          ((GetAclRulesForNode.rule ix taggedNodes targetnode nodeTag p).IPList.length > 0 ∨
            (GetAclRulesForNode.rule ix taggedNodes targetnode nodeTag p).IP6List.length > 0)
      then
        some { GetAclRulesForNode.rule ix taggedNodes targetnode nodeTag p with
          IPList := UniqueIPNetList ix.cidr
            (GetAclRulesForNode.rule ix taggedNodes targetnode nodeTag p).IPList,
          IP6List := UniqueIPNetList ix.cidr
            (GetAclRulesForNode.rule ix taggedNodes targetnode nodeTag p).IP6List }
      else mapGet rules p.ID := by
  induction acls generalizing rules with
  | nil => simp
  | cons a rest ih =>
    rw [List.foldl_cons, ih _ (fun b hb => hu b (List.mem_cons_of_mem _ hb))]
    by_cases ha : a.Enabled = true ∧ a.ID = p.ID
    · have hap : a = p := hu a (List.mem_cons_self _ _) ha.1 ha.2
      subst hap
      by_cases hW : (GetAclRulesForNode.rule ix taggedNodes targetnode nodeTag a).IPList.length > 0 ∨
          (GetAclRulesForNode.rule ix taggedNodes targetnode nodeTag a).IP6List.length > 0
      · have hstep : mapGet (GetAclRulesForNode.policyStep ix taggedNodes targetnode nodeTag
            rules a) a.ID = some { GetAclRulesForNode.rule ix taggedNodes targetnode nodeTag a with
              IPList := UniqueIPNetList ix.cidr
                (GetAclRulesForNode.rule ix taggedNodes targetnode nodeTag a).IPList,
              IP6List := UniqueIPNetList ix.cidr
                (GetAclRulesForNode.rule ix taggedNodes targetnode nodeTag a).IP6List } := by
          simp only [GetAclRulesForNode.policyStep]
          rw [if_neg (by simp [ha.1]), if_pos hW, mapGet_mapSet_self]
        rw [hstep]
        simp [ha.1, hW]
      · have hstep : GetAclRulesForNode.policyStep ix taggedNodes targetnode nodeTag rules a =
            rules := by
          simp only [GetAclRulesForNode.policyStep]
          rw [if_neg (by simp [ha.1]), if_neg hW]
        rw [hstep]
        simp [hW]
    · have hframe := GetAclRulesForNode.policyStep_frame ix taggedNodes targetnode nodeTag rules
        a p.ID (fun h1 h2 => ha ⟨h1, h2⟩)
      rw [hframe]
      have hne : (p ∈ a :: rest ∧ p.Enabled = true ∧
          ((GetAclRulesForNode.rule ix taggedNodes targetnode nodeTag p).IPList.length > 0 ∨
            (GetAclRulesForNode.rule ix taggedNodes targetnode nodeTag p).IP6List.length > 0)) ↔
          (p ∈ rest ∧ p.Enabled = true ∧
          ((GetAclRulesForNode.rule ix taggedNodes targetnode nodeTag p).IPList.length > 0 ∨
            (GetAclRulesForNode.rule ix taggedNodes targetnode nodeTag p).IP6List.length > 0)) := by
        constructor
        · rintro ⟨h1, h2, h3⟩
          rcases List.mem_cons.1 h1 with h1 | h1
          · exact absurd ⟨h1 ▸ h2, by rw [h1]⟩ ha
          · exact ⟨h1, h2, h3⟩
        · rintro ⟨h1, h2, h3⟩
          exact ⟨List.mem_cons_of_mem _ h1, h2, h3⟩
      simp only [hne]

/-- A loop whose step writes `E x` under `id` when `W x` holds and leaves the
entry alone otherwise, over a list in which only `x0` can write: the entry is
`E x0` when `x0` is in the list and writes, the initial entry otherwise. -/
theorem foldl_single_writer {α β : Type} (g : List (String × β) → α → List (String × β))
    (id : String) (W : α → Prop) [DecidablePred W] [DecidableEq α] (E : α → β)
    (hg : ∀ rules x, mapGet (g rules x) id = if W x then some (E x) else mapGet rules id)
    (x0 : α) (l : List α) (hother : ∀ x ∈ l, x ≠ x0 → ¬ W x) (rules : List (String × β)) :
    mapGet (l.foldl g rules) id = if x0 ∈ l ∧ W x0 then some (E x0) else mapGet rules id := by
  induction l generalizing rules with
  | nil => simp
  | cons x rest ih =>
    rw [List.foldl_cons, ih (fun y hy => hother y (List.mem_cons_of_mem _ hy)), hg]
    by_cases hx : x = x0
    · subst hx
      by_cases hW : W x
      · simp [hW]
      · simp [hW]
    · have hW : ¬ W x := hother x (List.mem_cons_self _ _) hx
      have hmem : x0 ∈ x :: rest ↔ x0 ∈ rest := by
        simp [List.mem_cons, Ne.symm hx]
      simp only [hW, if_false, hmem]

theorem UniqueIPNetList_nil (cidr : IPNet → String) : UniqueIPNetList cidr [] = [] := rfl

/-- The device-policy pass read at the ID of a policy `p` that is the only
enabled device policy of the network with this ID, when only the tag `t0` of
the target gives the rule of `p` an address: the two lists under `p.ID` are the
deduplicated lists of the rule computed for `t0`. -/
theorem GetAclRulesForNode.devicePass_at (w : World) (ix : Index) (targetnode : Node) (p : Acl)
    (t0 : String)
    (hp : p ∈ listDevicePolicies w targetnode.Network) (hen : p.Enabled = true)
    (hu : ∀ a ∈ listDevicePolicies w targetnode.Network, a.Enabled = true → a.ID = p.ID → a = p)
    (ht0 : t0 ∈ GetAclRulesForNode.targetNodeTags targetnode)
    (hother : ∀ tag ∈ GetAclRulesForNode.targetNodeTags targetnode, tag ≠ t0 →
      (GetAclRulesForNode.rule ix (GetAclRulesForNode.taggedNodes ix targetnode) targetnode tag
          p).IPList = [] ∧
        (GetAclRulesForNode.rule ix (GetAclRulesForNode.taggedNodes ix targetnode) targetnode tag
          p).IP6List = []) :
    ipListOf (GetAclRulesForNode.devicePass w ix targetnode) p.ID =
        UniqueIPNetList ix.cidr
          (GetAclRulesForNode.rule ix (GetAclRulesForNode.taggedNodes ix targetnode) targetnode
            t0 p).IPList ∧
      ip6ListOf (GetAclRulesForNode.devicePass w ix targetnode) p.ID =
        UniqueIPNetList ix.cidr
          (GetAclRulesForNode.rule ix (GetAclRulesForNode.taggedNodes ix targetnode) targetnode
            t0 p).IP6List := by
  have key := foldl_single_writer
    (fun rules nodeTag =>
      (listDevicePolicies w targetnode.Network).foldl
        (GetAclRulesForNode.policyStep ix (GetAclRulesForNode.taggedNodes ix targetnode)
          targetnode nodeTag) rules)
    p.ID
    (fun tag =>
      (GetAclRulesForNode.rule ix (GetAclRulesForNode.taggedNodes ix targetnode) targetnode tag
          p).IPList.length > 0 ∨
        (GetAclRulesForNode.rule ix (GetAclRulesForNode.taggedNodes ix targetnode) targetnode tag
          p).IP6List.length > 0)
    (fun tag =>
      { GetAclRulesForNode.rule ix (GetAclRulesForNode.taggedNodes ix targetnode) targetnode tag
          p with
        IPList := UniqueIPNetList ix.cidr
          (GetAclRulesForNode.rule ix (GetAclRulesForNode.taggedNodes ix targetnode) targetnode
            tag p).IPList,
        IP6List := UniqueIPNetList ix.cidr
          (GetAclRulesForNode.rule ix (GetAclRulesForNode.taggedNodes ix targetnode) targetnode
            tag p).IP6List })
    (by
      intro rules tag
      rw [GetAclRulesForNode.policyLoop_at ix _ targetnode tag p _ rules hu]
      simp only [hp, hen, true_and])
    t0 (GetAclRulesForNode.targetNodeTags targetnode)
    (by
      intro tag htag hne
      obtain ⟨h1, h2⟩ := hother tag htag hne
      simp [h1, h2])
    []
  rw [GetAclRulesForNode.devicePass_eq]
  simp only [ipListOf, ip6ListOf, key, ht0, true_and]
  by_cases hW : (GetAclRulesForNode.rule ix (GetAclRulesForNode.taggedNodes ix targetnode)
      targetnode t0 p).IPList.length > 0 ∨
    (GetAclRulesForNode.rule ix (GetAclRulesForNode.taggedNodes ix targetnode) targetnode t0
      p).IP6List.length > 0
  · rw [if_pos hW]
    exact ⟨rfl, rfl⟩
  · rw [if_neg hW]
    have h1 : (GetAclRulesForNode.rule ix (GetAclRulesForNode.taggedNodes ix targetnode)
        targetnode t0 p).IPList = [] := by
      by_contra hne
      exact hW (Or.inl (List.length_pos.2 hne))
    have h2 : (GetAclRulesForNode.rule ix (GetAclRulesForNode.taggedNodes ix targetnode)
        targetnode t0 p).IP6List = [] := by
      by_contra hne
      exact hW (Or.inr (List.length_pos.2 hne))
    rw [h1, h2]
    exact ⟨rfl, rfl⟩

theorem mem_listUserPolicies (w : World) (netID : String) (p : Acl) :
    p ∈ listUserPolicies w netID ↔
      p ∈ w.ListAcls ∧ p.NetworkID = netID ∧ p.RuleType = UserPolicy := by
  simp [listUserPolicies]

/-- The rule list under an ID that no enabled user policy of the network has
is the one of the device-policy pass. -/
theorem GetAclRulesForNode_at_device_id (w : World) (ix : Index) (targetnode : Node)
    (id : String)
    (h : ∀ a ∈ listUserPolicies w targetnode.Network, a.Enabled = true → a.ID ≠ id) :
    ipListOf (GetAclRulesForNode w ix targetnode) id =
        ipListOf (GetAclRulesForNode.devicePass w ix targetnode) id ∧
      ip6ListOf (GetAclRulesForNode w ix targetnode) id =
        ip6ListOf (GetAclRulesForNode.devicePass w ix targetnode) id := by
  simp only [GetAclRulesForNode, ipListOf, ip6ListOf]
  split_ifs
  · rw [getUserAclRulesForNode_frame w ix targetnode _ id h]
    exact ⟨rfl, rfl⟩
  · exact ⟨rfl, rfl⟩

/-- The rule of a bidirectional policy with `"*"` on both sides: the `"*"` tag
collects the other nodes of the `"*"` entry of the index, every other tag
collects nothing. -/
theorem GetAclRulesForNode.rule_wildcard (ix : Index) (taggedNodes : String → List Node)
    (targetnode : Node) (nodeTag : String) (p : Acl)
    (hdir : p.AllowedDirection = TrafficDirectionBi)
    (hsrc : p.Src.map (fun e => e.Value) = ["*"]) (hdst : p.Dst.map (fun e => e.Value) = ["*"]) :
    (GetAclRulesForNode.rule ix taggedNodes targetnode nodeTag p).IPList =
        (if nodeTag = "*" then
          (otherNodes targetnode.ID (taggedNodes "*")).flatMap (Node.prefixes4 ix) else []) ∧
      (GetAclRulesForNode.rule ix taggedNodes targetnode nodeTag p).IP6List =
        (if nodeTag = "*" then
          (otherNodes targetnode.ID (taggedNodes "*")).flatMap (Node.prefixes6 ix) else []) := by
  simp only [GetAclRulesForNode.rule, convAclTagToValueMap_singleton _ _ hsrc,
    convAclTagToValueMap_singleton _ _ hdst, if_pos hdir, List.mem_singleton]
  by_cases h : nodeTag = "*"
  · subst h
    simp [(GetAclRulesForNode.addNodes_lists ix targetnode.ID (taggedNodes "*") _).1,
      (GetAclRulesForNode.addNodes_lists ix targetnode.ID (taggedNodes "*") _).2]
  · simp [h]

theorem GetAclRulesForNode.mem_targetNodeTags (targetnode : Node) (tag : String) :
    tag ∈ GetAclRulesForNode.targetNodeTags targetnode ↔ tag ∈ targetnode.Tags ∨ tag = "*" := by
  simp only [GetAclRulesForNode.targetNodeTags]
  split_ifs with h
  · constructor
    · exact Or.inl
    · rintro (h1 | rfl)
      · exact h1
      · exact h
  · simp

/-! ## The all-nodes policy -/

/-- The rule of the all-nodes policy, for a target whose `Tags` map is not
nil: in a network whose only enabled device policy `p` is bidirectional
with `Src = ["*"]` and `Dst = ["*"]`, and whose ID no enabled user policy
shares, the `IPList` under `p.ID` in `GetAclRulesForNode(target)` is the
deduplicated, sorted list of the IPv4 networks of the nodes other than the
target that the index holds under `"*"`; its CIDR strings are exactly theirs;
and when `p` is the policy `GetAcl` finds under `<net>.all-nodes`,
`IsPeerAllowed` with `checkDefault = true` is true for every node `A` of the
network and every `B`. -/
theorem GetAclRulesForNode_all_nodes (w : World) (ix : Index) (targetnode : Node) (p : Acl)
    (A B : Node)
    (hp : p ∈ listDevicePolicies w targetnode.Network) (hen : p.Enabled = true)
    (honly : ∀ q ∈ listDevicePolicies w targetnode.Network, q.Enabled = true → q = p)
    (hdir : p.AllowedDirection = TrafficDirectionBi)
    (hsrc : p.Src.map (fun e => e.Value) = ["*"]) (hdst : p.Dst.map (fun e => e.Value) = ["*"])
    (hid : ∀ a ∈ listUserPolicies w targetnode.Network, a.Enabled = true → a.ID ≠ p.ID)
    (hget : w.GetAcl (targetnode.Network ++ ".all-nodes") = some p)
    (hA : (staticNormal w A).Network = targetnode.Network) :
    ipListOf (GetAclRulesForNode w ix targetnode) p.ID =
        UniqueIPNetList ix.cidr
          ((otherNodes targetnode.ID (GetAclRulesForNode.taggedNodes ix targetnode "*")).flatMap
            (Node.prefixes4 ix)) ∧
      (∀ c, c ∈ (ipListOf (GetAclRulesForNode w ix targetnode) p.ID).map ix.cidr ↔
        ∃ node ∈ GetAclRulesForNode.taggedNodes ix targetnode "*", node.ID ≠ targetnode.ID ∧
          ∃ x ∈ Node.prefixes4 ix node, ix.cidr x = c) ∧
      IsPeerAllowed w A B true = true := by
  have hlist : ipListOf (GetAclRulesForNode w ix targetnode) p.ID =
      UniqueIPNetList ix.cidr
        ((otherNodes targetnode.ID (GetAclRulesForNode.taggedNodes ix targetnode "*")).flatMap
          (Node.prefixes4 ix)) := by
    rw [(GetAclRulesForNode_at_device_id w ix targetnode p.ID hid).1,
      (GetAclRulesForNode.devicePass_at w ix targetnode p "*" hp hen
        (fun a ha hena _ => honly a ha hena)
        ((GetAclRulesForNode.mem_targetNodeTags targetnode "*").2 (Or.inr rfl))
        (fun tag _ hne => by
          have h := GetAclRulesForNode.rule_wildcard ix
            (GetAclRulesForNode.taggedNodes ix targetnode) targetnode tag p hdir hsrc hdst
          rw [if_neg hne, if_neg hne] at h
          exact h)).1,
      (GetAclRulesForNode.rule_wildcard ix (GetAclRulesForNode.taggedNodes ix targetnode)
        targetnode "*" p hdir hsrc hdst).1, if_pos rfl]
  refine ⟨hlist, ?_, ?_⟩
  · intro c
    rw [hlist, UniqueIPNetList.mem_cidr]
    simp only [List.mem_map, List.mem_flatMap, otherNodes, List.mem_filter, decide_eq_true_eq]
    constructor
    · rintro ⟨x, ⟨node, ⟨hn, hne⟩, hx⟩, hc⟩
      exact ⟨node, hn, hne, x, hx, hc⟩
    · rintro ⟨node, hn, hne, x, hx, hc⟩
      exact ⟨x, ⟨node, ⟨hn, hne⟩, hx⟩, hc⟩
  · have hdef : GetDefaultPolicy w (staticNormal w A).Network DevicePolicy = (p, none) := by
      apply GetDefaultPolicy_of_enabled w _ DevicePolicy p _ hen
      rw [hA, if_pos rfl, dot_append_assoc]
      exact hget
    simp only [IsPeerAllowed, hdef, hen, and_self, if_true]

/-- Scenario S1: the list of `N1` under `netA.all-nodes` is
`[10.0.0.2/32]`, and `IsPeerAllowed(N1, N2, true)` is true. -/
theorem GetAclRulesForNode_all_nodes_S1 :
    ipListOf (GetAclRulesForNode worldS1 indexS N1addr) "netA.all-nodes" = [host4 10 0 0 2] ∧
      (ipListOf (GetAclRulesForNode worldS1 indexS N1addr) (allNodes true).ID =
          UniqueIPNetList indexS.cidr
            ((otherNodes N1addr.ID (GetAclRulesForNode.taggedNodes indexS N1addr "*")).flatMap
              (Node.prefixes4 indexS)) ∧
        (∀ c, c ∈ (ipListOf (GetAclRulesForNode worldS1 indexS N1addr)
            (allNodes true).ID).map indexS.cidr ↔
          ∃ node ∈ GetAclRulesForNode.taggedNodes indexS N1addr "*", node.ID ≠ N1addr.ID ∧
            ∃ x ∈ Node.prefixes4 indexS node, indexS.cidr x = c) ∧
        IsPeerAllowed worldS1 N1addr N2addr true = true) :=
  ⟨by decide,
    GetAclRulesForNode_all_nodes worldS1 indexS N1addr (allNodes true) N1addr N2addr (by decide)
      (by decide) (by decide) (by decide) (by decide) (by decide) (by decide) (by decide)
      (by decide)⟩

/-! ## C26: a bidirectional policy between two tags -/

theorem getUserAclRulesForNode_cidrs (w : World) (ix : Index) (targetnode : Node)
    (rules : List (String × AclRule)) (id c : String) :
    (c ∈ (ipListOf (getUserAclRulesForNode w ix targetnode rules) id).map ix.cidr ↔
      c ∈ (ipListOf rules id).map ix.cidr ∨
        ∃ userNode, getUserAclRulesForNode.grants w ix targetnode id userNode ∧
          userNode.StaticNode.Address ≠ "" ∧
          ix.cidr (ix.ClientAddressIPNet4 userNode.StaticNode) = c) ∧
    (c ∈ (ip6ListOf (getUserAclRulesForNode w ix targetnode rules) id).map ix.cidr ↔
      c ∈ (ip6ListOf rules id).map ix.cidr ∨
        ∃ userNode, getUserAclRulesForNode.grants w ix targetnode id userNode ∧
          userNode.StaticNode.Address6 ≠ "" ∧
          ix.cidr (ix.ClientAddressIPNet6 userNode.StaticNode) = c) := by
  rw [getUserAclRulesForNode_eq]
  constructor
  · rw [foldl_obs_iff (fun r => c ∈ (ipListOf r id).map ix.cidr)
      (fun userNode => userNode.StaticNode.Enabled = true ∧
        ∃ acl ∈ getUserAclRulesForNode.allowedOf
          (getUserAclRulesForNode.allowedUsers w ix targetnode) userNode.StaticNode.OwnerID,
          acl.Enabled = true ∧ acl.ID = id ∧ userNode.StaticNode.Address ≠ "" ∧
            ix.cidr (ix.ClientAddressIPNet4 userNode.StaticNode) = c)]
    · simp only [getUserAclRulesForNode.grants, getUserAclRulesForNode.mem_allowedUsers]
      constructor
      · rintro (h | ⟨u, hu, hen, a, ⟨ha, _, hd, hs⟩, haen, haid, hadr, hc⟩)
        · exact Or.inl h
        · exact Or.inr ⟨u, ⟨hu, hen, a, ha, haid, haen, hd, hs⟩, hadr, hc⟩
      · rintro (h | ⟨u, ⟨hu, hen, a, ha, haid, haen, hd, hs⟩, hadr, hc⟩)
        · exact Or.inl h
        · exact Or.inr ⟨u, hu, hen, a, ⟨ha, haen, hd, hs⟩, haen, haid, hadr, hc⟩
    · intro acc userNode
      rw [getUserAclRulesForNode.nodeStep_eq]
      by_cases hen : userNode.StaticNode.Enabled = false
      · rw [if_pos hen]
        simp [hen]
      · rw [if_neg hen,
          foldl_obs_iff (fun r => c ∈ (ipListOf r id).map ix.cidr)
            (fun acl => acl.Enabled = true ∧ acl.ID = id ∧ userNode.StaticNode.Address ≠ "" ∧
              ix.cidr (ix.ClientAddressIPNet4 userNode.StaticNode) = c)
            (getUserAclRulesForNode.ruleStep ix userNode)
            (fun acc2 x => (getUserAclRulesForNode.ruleStep_cidrs ix userNode acc2 x id c).1)]
        have hen2 : userNode.StaticNode.Enabled = true := by simpa using hen
        simp only [hen2, true_and]
  · rw [foldl_obs_iff (fun r => c ∈ (ip6ListOf r id).map ix.cidr)
      (fun userNode => userNode.StaticNode.Enabled = true ∧
        ∃ acl ∈ getUserAclRulesForNode.allowedOf
          (getUserAclRulesForNode.allowedUsers w ix targetnode) userNode.StaticNode.OwnerID,
          acl.Enabled = true ∧ acl.ID = id ∧ userNode.StaticNode.Address6 ≠ "" ∧
            ix.cidr (ix.ClientAddressIPNet6 userNode.StaticNode) = c)]
    · simp only [getUserAclRulesForNode.grants, getUserAclRulesForNode.mem_allowedUsers]
      constructor
      · rintro (h | ⟨u, hu, hen, a, ⟨ha, _, hd, hs⟩, haen, haid, hadr, hc⟩)
        · exact Or.inl h
        · exact Or.inr ⟨u, ⟨hu, hen, a, ha, haid, haen, hd, hs⟩, hadr, hc⟩
      · rintro (h | ⟨u, ⟨hu, hen, a, ha, haid, haen, hd, hs⟩, hadr, hc⟩)
        · exact Or.inl h
        · exact Or.inr ⟨u, hu, hen, a, ⟨ha, haen, hd, hs⟩, haen, haid, hadr, hc⟩
    · intro acc userNode
      rw [getUserAclRulesForNode.nodeStep_eq]
      by_cases hen : userNode.StaticNode.Enabled = false
      · rw [if_pos hen]
        simp [hen]
      · rw [if_neg hen,
          foldl_obs_iff (fun r => c ∈ (ip6ListOf r id).map ix.cidr)
            (fun acl => acl.Enabled = true ∧ acl.ID = id ∧ userNode.StaticNode.Address6 ≠ "" ∧
              ix.cidr (ix.ClientAddressIPNet6 userNode.StaticNode) = c)
            (getUserAclRulesForNode.ruleStep ix userNode)
            (fun acc2 x => (getUserAclRulesForNode.ruleStep_cidrs ix userNode acc2 x id c).2)]
        have hen2 : userNode.StaticNode.Enabled = true := by simpa using hen
        simp only [hen2, true_and]

/-- C27: `getUserAclRulesForNode(target, rules)` keeps every rule that is
present and every CIDR string a rule had; and under every ID the CIDR strings
of the IPv4 (IPv6) list are those that were there together with the IPv4
(IPv6) addresses of the enabled static user clients of the network whose owner
an enabled user policy with this ID names in `Src`, by a `UserAclID` entry or
by a `UserGroupAclID` entry of a group the owner belongs to, the `Dst` of the
policy holding a tag of the target.  Disabled clients and disabled policies
add nothing. -/
theorem C27_user_pass (w : World) (ix : Index) (targetnode : Node)
    (rules : List (String × AclRule)) :
    (∀ id, (mapGet rules id).isSome = true →
      (mapGet (getUserAclRulesForNode w ix targetnode rules) id).isSome = true) ∧
    (∀ id c, (c ∈ (ipListOf rules id).map ix.cidr →
        c ∈ (ipListOf (getUserAclRulesForNode w ix targetnode rules) id).map ix.cidr) ∧
      (c ∈ (ip6ListOf rules id).map ix.cidr →
        c ∈ (ip6ListOf (getUserAclRulesForNode w ix targetnode rules) id).map ix.cidr)) ∧
    (∀ id c,
      (c ∈ (ipListOf (getUserAclRulesForNode w ix targetnode rules) id).map ix.cidr ↔
        c ∈ (ipListOf rules id).map ix.cidr ∨
          ∃ userNode, getUserAclRulesForNode.grants w ix targetnode id userNode ∧
            userNode.StaticNode.Address ≠ "" ∧
            ix.cidr (ix.ClientAddressIPNet4 userNode.StaticNode) = c) ∧
      (c ∈ (ip6ListOf (getUserAclRulesForNode w ix targetnode rules) id).map ix.cidr ↔
        c ∈ (ip6ListOf rules id).map ix.cidr ∨
          ∃ userNode, getUserAclRulesForNode.grants w ix targetnode id userNode ∧
            userNode.StaticNode.Address6 ≠ "" ∧
            ix.cidr (ix.ClientAddressIPNet6 userNode.StaticNode) = c)) := by
  refine ⟨fun id h => getUserAclRulesForNode_present w ix targetnode rules id h, ?_, ?_⟩
  · intro id c
    exact ⟨fun h => (getUserAclRulesForNode_cidrs w ix targetnode rules id c).1.2 (Or.inl h),
      fun h => (getUserAclRulesForNode_cidrs w ix targetnode rules id c).2.2 (Or.inl h)⟩
  · intro id c
    exact getUserAclRulesForNode_cidrs w ix targetnode rules id c

/-- C27 in scenario S4: for the target `N1` (tag `db`) the pass adds the rule
`netA.eng-db` with the address `10.0.0.9/32` of the client of `alice`, and
keeps the rule `netA.all-nodes` that was there. -/
theorem C27_user_pass_witness :
    ipListOf (getUserAclRulesForNode worldS2 indexS4 N1addr [("netA.all-nodes", ruleS1)])
        "netA.eng-db" = [host4 10 0 0 9] ∧
      ((mapGet [("netA.all-nodes", ruleS1)] "netA.all-nodes").isSome = true →
        (mapGet (getUserAclRulesForNode worldS2 indexS4 N1addr [("netA.all-nodes", ruleS1)])
          "netA.all-nodes").isSome = true) :=
  ⟨by decide,
    (C27_user_pass worldS2 indexS4 N1addr [("netA.all-nodes", ruleS1)]).1 "netA.all-nodes"⟩

/-! ## `UpdateDeviceTag` on a registry that lists its whole table -/

theorem UpdateDeviceTag.retag_eq (OldID newID : String) (update : Bool)
    (entries : List AclPolicyTag) :
    (UpdateDeviceTag.retag OldID newID update entries).1 = retagged OldID newID entries ∧
      ((UpdateDeviceTag.retag OldID newID update entries).2 = false →
        update = false ∧ retagged OldID newID entries = entries) := by
  induction entries generalizing update with
  | nil => simp [UpdateDeviceTag.retag, retagged]
  | cons tagI rest ih =>
    simp only [UpdateDeviceTag.retag]
    by_cases h : tagI.ID = DeviceAclID ∧ OldID = tagI.Value
    · rw [if_pos h]
      have h2 : tagI.ID = DeviceAclID ∧ tagI.Value = OldID := ⟨h.1, h.2.symm⟩
      refine ⟨?_, ?_⟩
      · simp only [retagged, List.map_cons, if_pos h2]
        rw [← retagged, ← (ih true).1]
      · intro hf
        exact absurd ((ih true).2 hf).1 (by simp)
    · rw [if_neg h]
      have h2 : ¬ (tagI.ID = DeviceAclID ∧ tagI.Value = OldID) := fun h3 => h ⟨h3.1, h3.2.symm⟩
      refine ⟨?_, ?_⟩
      · simp only [retagged, List.map_cons, if_neg h2]
        rw [← retagged, ← (ih update).1]
      · intro hf
        refine ⟨((ih update).2 hf).1, ?_⟩
        simp only [retagged, List.map_cons, if_neg h2]
        rw [← retagged, ((ih update).2 hf).2]

theorem UpdateDeviceTag.assign_eq (OldID newID : String) (update : Bool) (acl : Acl) :
    (UpdateDeviceTag.assign OldID newID update acl).1 = acl.retagged OldID newID ∧
      ((UpdateDeviceTag.assign OldID newID update acl).2 = false →
        acl.retagged OldID newID = acl) := by
  have hsrc := UpdateDeviceTag.retag_eq OldID newID update acl.Src
  have hdst := UpdateDeviceTag.retag_eq OldID newID
    (UpdateDeviceTag.retag OldID newID update acl.Src).2 acl.Dst
  simp only [UpdateDeviceTag.assign, Acl.retagged, hsrc.1, hdst.1, true_and]
  intro hfalse
  have hd := hdst.2 hfalse
  have hs := hsrc.2 hd.1
  rw [hs.2, hd.2]

theorem Registry.UpsertAcl_ok (s : Registry) (a : Acl) (hf : s.fault = none) :
    (s.UpsertAcl a).2.fault = none ∧
      (s.UpsertAcl a).2.CacheEnabled = s.CacheEnabled ∧
      (s.UpsertAcl a).2.aclsTable = mapSet s.aclsTable a.ID a ∧
      (s.CacheEnabled = true → (s.UpsertAcl a).2.aclCacheMap = mapSet s.aclCacheMap a.ID a) := by
  cases hc : s.CacheEnabled <;>
    simp [Registry.UpsertAcl, database.Insert, hf, hc, Registry.storeAclInCache]

/-- In a map without repeated keys, a pair is found under its key. -/
theorem mapGet_eq_some_iff {α : Type} (m : List (String × α))
    (hnd : (m.map (fun kv => kv.1)).Nodup) (k : String) (v : α) :
    mapGet m k = some v ↔ (k, v) ∈ m := by
  constructor
  · exact mapGet_mem m k v
  · intro h
    induction m with
    | nil => exact absurd h (List.not_mem_nil _)
    | cons kv rest ih =>
      rw [List.map_cons, List.nodup_cons] at hnd
      rw [mapGet_cons]
      rcases List.mem_cons.1 h with h1 | h1
      · rw [← h1]
        simp
      · have hne : kv.1 ≠ k := by
          intro he
          exact hnd.1 (List.mem_map.2 ⟨(k, v), h1, he.symm⟩)
        rw [if_neg hne]
        exact ih hnd.2 h1

theorem mapGet_perm {α : Type} (m1 m2 : List (String × α))
    (hnd : (m2.map (fun kv => kv.1)).Nodup) (hp : m1.Perm m2) (k : String) :
    mapGet m1 k = mapGet m2 k := by
  have hnd1 : (m1.map (fun kv => kv.1)).Nodup := (hp.map _).nodup_iff.2 hnd
  apply Option.ext
  intro v
  simp only [Option.mem_def]
  rw [mapGet_eq_some_iff m1 hnd1, mapGet_eq_some_iff m2 hnd, hp.mem_iff]

/-- The cache agrees with the table on every key, when the cache is in use. -/
theorem Registry.GetAcl_of_agree (s : Registry) (k : String) (hf : s.fault = none)
    (hag : s.CacheEnabled = true → ∀ k, mapGet s.aclCacheMap k = mapGet s.aclsTable k) :
    (s.GetAcl k).1 =
      match mapGet s.aclsTable k with
      | some a => (a, none)
      | none => (Acl.zero, some StoreError.EmptyRecord) := by
  cases hc : s.CacheEnabled with
  | false =>
    cases ht : mapGet s.aclsTable k with
    | none => rw [Registry.GetAcl_absent s k (Or.inl hc) hf ht]
    | some a => rw [Registry.GetAcl_fetch_uncached s k a hc hf ht]
  | true =>
    cases ht : mapGet s.aclsTable k with
    | none =>
      rw [Registry.GetAcl_absent s k (Or.inr ((hag hc k).trans ht)) hf ht]
    | some a =>
      rw [Registry.GetAcl_cache_hit s k a hc ((hag hc k).trans ht)]

/-- The cache that the loop of `ListAcls` leaves: on a table without repeated
keys whose records are stored under their IDs, a key of the table has its
record, another key what the cache had. -/
theorem Registry.ListAcls.loop_cache (s : Registry) (data : List (String × Acl))
    (hc : s.CacheEnabled = true) (hnd : (data.map (fun kv => kv.1)).Nodup)
    (hk : ∀ kv ∈ data, kv.2.ID = kv.1) (k : String) :
    mapGet (Registry.ListAcls.loop s data).2.aclCacheMap k =
      match mapGet data k with
      | some a => some a
      | none => mapGet s.aclCacheMap k := by
  induction data generalizing s with
  | nil => simp [Registry.ListAcls.loop, mapGet]
  | cons d rest ih =>
    rw [List.map_cons, List.nodup_cons] at hnd
    simp only [Registry.ListAcls.loop, hc, if_true]
    rw [ih (s.storeAclInCache d.2) (by simp [Registry.storeAclInCache, hc]) hnd.2
      (fun kv hkv => hk kv (List.mem_cons_of_mem _ hkv))]
    have hd : d.2.ID = d.1 := hk d (List.mem_cons_self _ _)
    rw [mapGet_cons]
    by_cases hkd : d.1 = k
    · rw [if_pos hkd]
      have hnone : mapGet rest k = none := by
        cases hr : mapGet rest k with
        | none => rfl
        | some v =>
          exact absurd (List.mem_map.2 ⟨(k, v), mapGet_mem rest k v hr, rfl⟩) (hkd ▸ hnd.1)
      rw [hnone]
      simp only [Registry.storeAclInCache, hd, hkd, mapGet_mapSet_self]
    · rw [if_neg hkd]
      cases hr : mapGet rest k with
      | some v => rfl
      | none =>
        simp only [Registry.storeAclInCache, hd]
        rw [mapGet_mapSet_ne _ _ _ _ (Ne.symm hkd)]

theorem Registry.ListAcls.loop_list (s : Registry) (data : List (String × Acl)) :
    (Registry.ListAcls.loop s data).1 = data.map (fun kv => kv.2) := by
  induction data generalizing s with
  | nil => rfl
  | cons d rest ih =>
    simp only [Registry.ListAcls.loop, List.map_cons, ih]

/-- What `ListAcls` returns and leaves on a working backend, when the table has
no repeated key, every record is stored under its ID, and the cache, if it is
in use and filled, holds the records of the table: the records of the table,
and a cache that agrees with the table. -/
theorem Registry.ListAcls_settled (s : Registry) (hf : s.fault = none)
    (hnd : (s.aclsTable.map (fun kv => kv.1)).Nodup) (hk : s.keyed)
    (hc : s.CacheEnabled = true → s.aclCacheMap = [] ∨ s.aclCacheMap.Perm s.aclsTable) :
    s.ListAcls.1.Perm (s.aclsTable.map (fun kv => kv.2)) ∧
      (s.ListAcls.2.CacheEnabled = true →
        ∀ k, mapGet s.ListAcls.2.aclCacheMap k = mapGet s.ListAcls.2.aclsTable k) := by
  by_cases h : s.CacheEnabled = true ∧ s.aclCacheMap.length > 0
  · have hne : s.aclCacheMap ≠ [] := List.length_pos.1 h.2
    have hperm : s.aclCacheMap.Perm s.aclsTable := by
      rcases hc h.1 with h1 | h1
      · exact absurd h1 hne
      · exact h1
    simp only [Registry.ListAcls, if_pos h, Registry.listAclFromCache]
    exact ⟨hperm.map _, fun _ k => mapGet_perm _ _ hnd hperm k⟩
  · simp only [Registry.ListAcls, if_neg h, database.FetchRecords, hf]
    by_cases ht : s.aclsTable = []
    · rw [if_pos ht]
      simp only [ht, List.map_nil, List.Perm.refl, true_and]
      intro hen k
      have hlen : ¬ s.aclCacheMap.length > 0 := fun h2 => h ⟨hen, h2⟩
      have hnil : s.aclCacheMap = [] := by
        cases hcm : s.aclCacheMap with
        | nil => rfl
        | cons a l => rw [hcm] at hlen; simp at hlen
      rw [hnil]
    · rw [if_neg ht]
      simp only []
      refine ⟨by rw [Registry.ListAcls.loop_list], ?_⟩
      intro hen k
      have hst := Registry.ListAcls.loop_state s s.aclsTable
      rw [hst.1] at hen
      have hlen : ¬ s.aclCacheMap.length > 0 := fun h2 => h ⟨hen, h2⟩
      have hnil : s.aclCacheMap = [] := by
        cases hcm : s.aclCacheMap with
        | nil => rfl
        | cons a l => rw [hcm] at hlen; simp at hlen
      rw [Registry.ListAcls.loop_cache s s.aclsTable hen hnd hk k, hst.2.2.1, hnil]
      cases mapGet s.aclsTable k <;> rfl

/-- One iteration of the loop of `UpdateDeviceTag` on a working backend, for a
policy that the table holds under its ID: afterwards the table holds the
re-tagged policy there and is unchanged elsewhere, and the cache still agrees
with the table. -/
theorem UpdateDeviceTag.step_table (OldID newID : String) (st : Bool × Registry) (acl : Acl)
    (hf : st.2.fault = none)
    (hag : st.2.CacheEnabled = true →
      ∀ k, mapGet st.2.aclCacheMap k = mapGet st.2.aclsTable k)
    (hacl : mapGet st.2.aclsTable acl.ID = some acl) :
    (UpdateDeviceTag.step OldID newID st acl).2.fault = none ∧
      (UpdateDeviceTag.step OldID newID st acl).2.CacheEnabled = st.2.CacheEnabled ∧
      ((UpdateDeviceTag.step OldID newID st acl).2.CacheEnabled = true →
        ∀ k, mapGet (UpdateDeviceTag.step OldID newID st acl).2.aclCacheMap k =
          mapGet (UpdateDeviceTag.step OldID newID st acl).2.aclsTable k) ∧
      mapGet (UpdateDeviceTag.step OldID newID st acl).2.aclsTable acl.ID =
        some (acl.retagged OldID newID) ∧
      ∀ k, k ≠ acl.ID →
        mapGet (UpdateDeviceTag.step OldID newID st acl).2.aclsTable k =
          mapGet st.2.aclsTable k := by
  obtain ⟨ha1, ha2⟩ := UpdateDeviceTag.assign_eq OldID newID st.1 acl
  simp only [UpdateDeviceTag.step, ha1]
  by_cases hflag : (UpdateDeviceTag.assign OldID newID st.1 acl).2 = true
  · rw [if_pos hflag]
    obtain ⟨h1, h2, h3, h4⟩ := Registry.UpsertAcl_ok st.2 (acl.retagged OldID newID) hf
    have hid : (acl.retagged OldID newID).ID = acl.ID := rfl
    rw [hid] at h3 h4
    refine ⟨h1, h2, ?_, ?_, ?_⟩
    · intro hen k
      rw [h2] at hen
      rw [h3, h4 hen]
      by_cases hk : k = acl.ID
      · rw [hk, mapGet_mapSet_self, mapGet_mapSet_self]
      · rw [mapGet_mapSet_ne _ _ _ _ hk, mapGet_mapSet_ne _ _ _ _ hk]
        exact hag hen k
    · rw [h3, mapGet_mapSet_self]
    · intro k hk
      rw [h3, mapGet_mapSet_ne _ _ _ _ hk]
  · rw [if_neg hflag]
    have hsame : acl.retagged OldID newID = acl := ha2 (by simpa using hflag)
    refine ⟨hf, rfl, hag, ?_, fun _ _ => rfl⟩
    rw [hsame]
    exact hacl

/-- The loop of `UpdateDeviceTag` on a working backend, over policies with
distinct IDs that the table holds under their IDs: afterwards the table holds
each of them re-tagged and is unchanged at every other key, and the cache
still agrees with the table. -/
theorem UpdateDeviceTag.loop_table (OldID newID : String) (acls : List Acl)
    (st : Bool × Registry) (hf : st.2.fault = none)
    (hag : st.2.CacheEnabled = true →
      ∀ k, mapGet st.2.aclCacheMap k = mapGet st.2.aclsTable k)
    (hnd : (acls.map (fun a => a.ID)).Nodup)
    (hacls : ∀ a ∈ acls, mapGet st.2.aclsTable a.ID = some a) :
    (acls.foldl (UpdateDeviceTag.step OldID newID) st).2.fault = none ∧
      ((acls.foldl (UpdateDeviceTag.step OldID newID) st).2.CacheEnabled = true →
        ∀ k, mapGet (acls.foldl (UpdateDeviceTag.step OldID newID) st).2.aclCacheMap k =
          mapGet (acls.foldl (UpdateDeviceTag.step OldID newID) st).2.aclsTable k) ∧
      (∀ k, k ∉ acls.map (fun a => a.ID) →
        mapGet (acls.foldl (UpdateDeviceTag.step OldID newID) st).2.aclsTable k =
          mapGet st.2.aclsTable k) ∧
      (∀ a ∈ acls,
        mapGet (acls.foldl (UpdateDeviceTag.step OldID newID) st).2.aclsTable a.ID =
          some (a.retagged OldID newID)) := by
  induction acls generalizing st with
  | nil =>
    exact ⟨hf, hag, fun _ _ => rfl, fun a ha => absurd ha (List.not_mem_nil _)⟩
  | cons acl rest ih =>
    rw [List.map_cons, List.nodup_cons] at hnd
    obtain ⟨s1, s2, s3, s4, s5⟩ := UpdateDeviceTag.step_table OldID newID st acl hf hag
      (hacls acl (List.mem_cons_self _ _))
    have hrest : ∀ a ∈ rest,
        mapGet (UpdateDeviceTag.step OldID newID st acl).2.aclsTable a.ID = some a := by
      intro a ha
      have hne : a.ID ≠ acl.ID := by
        intro he
        exact hnd.1 (List.mem_map.2 ⟨a, ha, he⟩)
      rw [s5 a.ID hne]
      exact hacls a (List.mem_cons_of_mem _ ha)
    obtain ⟨i1, i2, i3, i4⟩ := ih (UpdateDeviceTag.step OldID newID st acl) s1 s3 hnd.2 hrest
    rw [List.foldl_cons]
    refine ⟨i1, i2, ?_, ?_⟩
    · intro k hk
      rw [List.map_cons, List.mem_cons, not_or] at hk
      rw [i3 k hk.2, s5 k hk.1]
    · intro a ha
      rcases List.mem_cons.1 ha with h1 | h1
      · rw [h1, i3 acl.ID hnd.1, s4]
      · exact i4 a h1

/-- The state `UpdateDeviceTag` leaves on a working backend, when the table has
no repeated key, every record is stored under its ID, and the cache, if it is
in use and filled, holds the records of the table: the backend still works,
the cache agrees with the table, a key that held a device policy of the network
holds it re-tagged, and every other key holds what it held. -/
theorem Registry.UpdateDeviceTag_table (s : Registry) (OldID newID netID : String)
    (hf : s.fault = none) (hnd : (s.aclsTable.map (fun kv => kv.1)).Nodup) (hk : s.keyed)
    (hc : s.CacheEnabled = true → s.aclCacheMap = [] ∨ s.aclCacheMap.Perm s.aclsTable) :
    (s.UpdateDeviceTag OldID newID netID).fault = none ∧
      ((s.UpdateDeviceTag OldID newID netID).CacheEnabled = true →
        ∀ k, mapGet (s.UpdateDeviceTag OldID newID netID).aclCacheMap k =
          mapGet (s.UpdateDeviceTag OldID newID netID).aclsTable k) ∧
      ∀ k, mapGet (s.UpdateDeviceTag OldID newID netID).aclsTable k =
        match mapGet s.aclsTable k with
        | some a =>
          if a.NetworkID = netID ∧ a.RuleType = DevicePolicy then some (a.retagged OldID newID)
          else some a
        | none => none := by
  obtain ⟨hperm, hagree⟩ := Registry.ListAcls_settled s hf hnd hk hc
  obtain ⟨-, hfault, htable, -⟩ := Registry.ListAcls_state s
  have hmemL : ∀ a, a ∈ s.ListAcls.1 ↔ (a.ID, a) ∈ s.aclsTable := by
    intro a
    rw [hperm.mem_iff, List.mem_map]
    constructor
    · rintro ⟨kv, hkv, rfl⟩
      have := hk kv hkv
      rw [this]
      exact hkv
    · intro h
      exact ⟨(a.ID, a), h, rfl⟩
  have hndL : (s.ListAcls.1.map (fun a => a.ID)).Nodup := by
    refine ((hperm.map (fun a => a.ID)).nodup_iff).2 ?_
    rw [List.map_map]
    rw [List.map_congr_left (g := fun kv : String × Acl => kv.1)
      (fun kv hkv => by simpa using hk kv hkv)]
    exact hnd
  have hndD : ((s.ListAcls.1.filter
      (fun acl => decide (acl.NetworkID = netID ∧ acl.RuleType = DevicePolicy))).map
      (fun a => a.ID)).Nodup :=
    hndL.sublist ((List.filter_sublist _).map _)
  have hD : ∀ a ∈ s.ListAcls.1.filter
      (fun acl => decide (acl.NetworkID = netID ∧ acl.RuleType = DevicePolicy)),
      mapGet s.ListAcls.2.aclsTable a.ID = some a := by
    intro a ha
    rw [htable, mapGet_eq_some_iff _ hnd, ← hmemL]
    exact (List.mem_filter.1 ha).1
  obtain ⟨r1, r2, r3, r4⟩ := UpdateDeviceTag.loop_table OldID newID
    (s.ListAcls.1.filter
      (fun acl => decide (acl.NetworkID = netID ∧ acl.RuleType = DevicePolicy)))
    (false, s.ListAcls.2) (hfault.trans hf) hagree hndD hD
  refine ⟨r1, r2, ?_⟩
  intro k
  cases hget : mapGet s.aclsTable k with
  | none =>
    have hnot : k ∉ (s.ListAcls.1.filter
        (fun acl => decide (acl.NetworkID = netID ∧ acl.RuleType = DevicePolicy))).map
        (fun a => a.ID) := by
      intro hmem
      obtain ⟨b, hb, hbk⟩ := List.mem_map.1 hmem
      have := hD b hb
      rw [htable, hbk, hget] at this
      exact absurd this (by simp)
    exact (r3 k hnot).trans (by rw [htable]; exact hget)
  | some a =>
    have hak : a.ID = k := hk (k, a) (mapGet_mem _ _ _ hget)
    by_cases hdev : a.NetworkID = netID ∧ a.RuleType = DevicePolicy
    · simp only [if_pos hdev]
      have hmem : a ∈ s.ListAcls.1.filter
          (fun acl => decide (acl.NetworkID = netID ∧ acl.RuleType = DevicePolicy)) := by
        rw [List.mem_filter]
        refine ⟨(hmemL a).2 ?_, by simpa using hdev⟩
        rw [hak]
        exact mapGet_mem _ _ _ hget
      have := r4 a hmem
      rw [hak] at this
      exact this
    · simp only [if_neg hdev]
      have hnot : k ∉ (s.ListAcls.1.filter
          (fun acl => decide (acl.NetworkID = netID ∧ acl.RuleType = DevicePolicy))).map
          (fun a => a.ID) := by
        intro hmem
        obtain ⟨b, hb, hbk⟩ := List.mem_map.1 hmem
        have h1 := hD b hb
        rw [htable, hbk, hget] at h1
        have hba : a = b := Option.some.inj h1
        apply hdev
        rw [hba]
        simpa using (List.mem_filter.1 hb).2
      exact (r3 k hnot).trans (by rw [htable]; exact hget)

/-- Re-tagging on a registry whose list read yields the whole table: on a
working backend, with a table without repeated keys whose
records are stored under their IDs and a cache that, if it is in use and
filled, holds the records of the table: after `UpdateDeviceTag(old, new, net)`
every device policy of `net` is stored under the same ID with `Src` and `Dst`
re-tagged (each entry `{DeviceAclID, old}` with the value `new`, every other
entry unchanged in value and position) and is what `GetAcl` returns; every
other policy is stored unchanged; and no ID is added or removed. -/
theorem Registry.UpdateDeviceTag_retags (s : Registry) (OldID newID netID : String)
    (hf : s.fault = none) (hnd : (s.aclsTable.map (fun kv => kv.1)).Nodup) (hk : s.keyed)
    (hc : s.CacheEnabled = true → s.aclCacheMap = [] ∨ s.aclCacheMap.Perm s.aclsTable) :
    (∀ k a, mapGet s.aclsTable k = some a → a.NetworkID = netID → a.RuleType = DevicePolicy →
      mapGet (s.UpdateDeviceTag OldID newID netID).aclsTable k =
          some (a.retagged OldID newID) ∧
        ((s.UpdateDeviceTag OldID newID netID).GetAcl k).1 =
          (a.retagged OldID newID, none)) ∧
    (∀ k a, mapGet s.aclsTable k = some a →
      ¬ (a.NetworkID = netID ∧ a.RuleType = DevicePolicy) →
      mapGet (s.UpdateDeviceTag OldID newID netID).aclsTable k = some a ∧
        ((s.UpdateDeviceTag OldID newID netID).GetAcl k).1 = (a, none)) ∧
    (∀ k, (mapGet (s.UpdateDeviceTag OldID newID netID).aclsTable k).isSome =
      (mapGet s.aclsTable k).isSome) := by
  obtain ⟨h1, h2, h3⟩ := Registry.UpdateDeviceTag_table s OldID newID netID hf hnd hk hc
  refine ⟨?_, ?_, ?_⟩
  · intro k a hget hnet hrt
    have ht : mapGet (s.UpdateDeviceTag OldID newID netID).aclsTable k =
        some (a.retagged OldID newID) := by
      rw [h3 k, hget]
      simp only [hnet, hrt, and_self, if_true]
    refine ⟨ht, ?_⟩
    rw [Registry.GetAcl_of_agree _ k h1 h2, ht]
  · intro k a hget hdev
    have ht : mapGet (s.UpdateDeviceTag OldID newID netID).aclsTable k = some a := by
      rw [h3 k, hget]
      simp only [if_neg hdev]
    refine ⟨ht, ?_⟩
    rw [Registry.GetAcl_of_agree _ k h1 h2, ht]
  · intro k
    rw [h3 k]
    cases mapGet s.aclsTable k with
    | none => rfl
    | some a => simp only []; split_ifs <;> rfl

/-- Scenario S5 from a cold cache: after
`UpdateDeviceTag("db", "database", "netA")` the
policy `netA.webdb` is found with `Dst` holding `database`, and the default
policy `netA.all-nodes` as it was. -/
theorem Registry.UpdateDeviceTag_retags_S5 :
    (((registryS2 true).UpdateDeviceTag "db" "database" "netA").GetAcl "netA.webdb").1 =
        ({ webdb with Dst := [⟨DeviceAclID, "database"⟩] }, none) ∧
      (mapGet ((registryS2 true).UpdateDeviceTag "db" "database" "netA").aclsTable
            "netA.webdb" = some (webdb.retagged "db" "database") ∧
        (((registryS2 true).UpdateDeviceTag "db" "database" "netA").GetAcl "netA.webdb").1 =
          (webdb.retagged "db" "database", none)) :=
  ⟨by decide,
    (Registry.UpdateDeviceTag_retags (registryS2 true) "db" "database" "netA" (by decide) (by decide)
      (by decide) (by decide)).1 "netA.webdb" webdb (by decide) (by decide) (by decide)⟩

/-! ## C29: `RemoveDeviceTagFromAclPolicies` on a repeated tag -/

/-- C29: with `Src = [web, web]` the call `RemoveDeviceTagFromAclPolicies("web",
"netA")` panics on the slice expression `acl.Src[i+1:]` at `i = 1`; with
`Src = [web, web, app]` it returns and leaves `Src = [web, app]`, which still
holds the tag; with `Src = [web]` (scenario S6) it leaves `Src` empty. -/
theorem C29_repeated_tag_not_removed :
    (registrySrc [⟨DeviceAclID, "web"⟩, ⟨DeviceAclID, "web"⟩]).RemoveDeviceTagFromAclPolicies
        "web" "netA" = none ∧
      ((registrySrc [⟨DeviceAclID, "web"⟩, ⟨DeviceAclID, "web"⟩,
          ⟨DeviceAclID, "app"⟩]).RemoveDeviceTagFromAclPolicies "web" "netA").map
          (fun s => (mapGet s.aclsTable "netA.webdb").map (fun a => a.Src)) =
        some (some [⟨DeviceAclID, "web"⟩, ⟨DeviceAclID, "app"⟩]) ∧
      ((registrySrc [⟨DeviceAclID, "web"⟩]).RemoveDeviceTagFromAclPolicies "web" "netA").map
          (fun s => (mapGet s.aclsTable "netA.webdb").map (fun a => a.Src)) =
        some (some []) := by
  refine ⟨by decide, by decide, by decide⟩

/-! ## C30: a policy with an empty side -/

theorem forwardMatch_of_empty_side (p : Acl) (nodeTags peerTags : List String)
    (h : p.Src = [] ∨ p.Dst = []) : ¬ forwardMatch p nodeTags peerTags := by
  have hh : ∀ tags : List String, ¬ hitsEntries tags [] := by
    rintro tags ⟨_, _, e, he, _⟩
    exact absurd he (List.not_mem_nil _)
  have hw : ¬ hasWildcard [] := by
    rintro ⟨e, he, _⟩
    exact absurd he (List.not_mem_nil _)
  unfold forwardMatch
  rcases h with h | h <;> rw [h] <;> rintro (⟨h1, h2⟩ | ⟨h1, h2⟩)
  · exact hh _ h1
  · rcases h2 with h2 | h2
    · exact hw h2
    · exact hh _ h2
  · rcases h2 with h2 | h2
    · exact hw h2
    · exact hh _ h2
  · exact hh _ h1

/-- C30: if every enabled device policy of the peer's network has an empty
`Src` or an empty `Dst`, then `IsPeerAllowed(A, B, false)` is false and
`IsNodeAllowedToCommunicate(A, B, false)` is `(false, [])`, for all nodes `A`
and `B`. -/
theorem C30_empty_side_never_grants (w : World) (A B : Node)
    (h : ∀ p ∈ listDevicePolicies w (staticNormal w B).Network, p.Enabled = true →
      p.Src = [] ∨ p.Dst = []) :
    IsPeerAllowed w A B false = false ∧
      IsNodeAllowedToCommunicate w A B false = (false, []) := by
  constructor
  · have hiff : IsPeerAllowed w A B false = true ↔
        ∃ p ∈ listDevicePolicies w (staticNormal w B).Network, p.Enabled = true ∧
          peerMatch p (staticNormal w A).Tags (staticNormal w B).Tags := by
      simp only [IsPeerAllowed, snapshotTags_eq]
      rw [if_neg (by simp)]
      exact IsPeerAllowed.policyLoop_iff _ _ _
    cases hv : IsPeerAllowed w A B false with
    | false => rfl
    | true =>
      obtain ⟨p, hp, hen, hm⟩ := hiff.1 hv
      rcases hm with hm | hm
      · exact absurd hm (forwardMatch_of_empty_side p _ _ (h p hp hen))
      · exact absurd hm (forwardMatch_of_empty_side p _ _ (h p hp hen))
  · have hnil : IsNodeAllowedToCommunicate.policyLoop (staticNormal w A).Tags
        (staticNormal w B).Tags (listDevicePolicies w (staticNormal w B).Network) = [] := by
      apply List.eq_nil_iff_forall_not_mem.2
      intro q hq
      obtain ⟨hp, hen, hm⟩ := (IsNodeAllowedToCommunicate.mem_policyLoop _ _ _ q).1 hq
      rcases hm with hm | ⟨_, hm⟩
      · exact forwardMatch_of_empty_side q _ _ (h q hp hen) hm
      · exact forwardMatch_of_empty_side q _ _ (h q hp hen) hm
    simp only [IsNodeAllowedToCommunicate, snapshotTags_eq]
    rw [if_neg (by simp), hnil]
    rfl

/-- C30 in scenario S6: `netA.webdb` has an empty `Src`, and
`IsPeerAllowed(N2, N1, false)` is false. -/
theorem C30_empty_side_never_grants_witness :
    (∀ p ∈ listDevicePolicies worldS6 (staticNormal worldS6 N1).Network, p.Enabled = true →
        p.Src = [] ∨ p.Dst = []) ∧
      IsPeerAllowed worldS6 N2 N1 false = false ∧
      IsNodeAllowedToCommunicate worldS6 N2 N1 false = (false, []) :=
  ⟨by decide, C30_empty_side_never_grants worldS6 N2 N1 (by decide)⟩

/-! ## C31: `DeleteRole` -/

theorem DeleteRole.inUse_iff (rid : String) (users : List User) :
    DeleteRole.inUse rid users = true ↔ ∃ user ∈ users, user.PlatformRoleID = rid := by
  induction users with
  | nil => simp [DeleteRole.inUse]
  | cons u rest ih =>
    simp only [DeleteRole.inUse]
    by_cases h : u.PlatformRoleID = rid
    · simp [h]
    · simp [h, ih]

/-- C31: `DeleteRole(rid, force)` returns an error and leaves the role table
as it is when `rid` is empty, when `GetRole` finds no role under `rid`, or when
some user has the platform role `rid`; its result does not depend on `force`;
when the table changes, no user has `rid` as platform role; and with a
non-empty `rid`, a readable user list, an existing role no user has and a
working backend it returns no error and removes the record of the role. -/
theorem C31_DeleteRole (s : RoleStore) (usersDB : List User × Option String) (rid : String)
    (force : Bool) :
    ((rid = "" ∨ (∀ r, GetRole s rid ≠ Except.ok r) ∨
        (∃ user ∈ usersDB.1, user.PlatformRoleID = rid)) →
      (DeleteRole s usersDB rid force).1 ≠ none ∧ (DeleteRole s usersDB rid force).2 = s) ∧
    DeleteRole s usersDB rid true = DeleteRole s usersDB rid false ∧
    ((DeleteRole s usersDB rid force).2 ≠ s → ∀ user ∈ usersDB.1, user.PlatformRoleID ≠ rid) ∧
    ((DeleteRole s usersDB rid force).1 ≠ none → (DeleteRole s usersDB rid force).2 = s) ∧
    (∀ role, rid ≠ "" → usersDB.2 = none → mapGet s.rolesTable rid = some role →
      s.fault = none → (∀ user ∈ usersDB.1, user.PlatformRoleID ≠ rid) →
      DeleteRole s usersDB rid force =
        (none, { s with rolesTable := mapDelete s.rolesTable role.ID })) := by
  have hcases : (DeleteRole s usersDB rid force).2 = s ∨
      (rid ≠ "" ∧ DeleteRole.inUse rid usersDB.1 = false ∧
        (DeleteRole s usersDB rid force).1 = none) := by
    unfold DeleteRole
    by_cases h1 : rid = ""
    · rw [if_pos h1]
      exact Or.inl rfl
    · rw [if_neg h1]
      cases usersDB.2 with
      | some msg => exact Or.inl rfl
      | none =>
        cases GetRole s rid with
        | error err => exact Or.inl rfl
        | ok role =>
          simp only []
          by_cases h2 : DeleteRole.inUse rid usersDB.1 = true
          · rw [if_pos h2]
            exact Or.inl rfl
          · rw [if_neg h2]
            cases hf : s.fault with
            | some msg => exact Or.inl rfl
            | none => exact Or.inr ⟨h1, by simpa using h2, rfl⟩
  have herr : (DeleteRole s usersDB rid force).1 ≠ none →
      (DeleteRole s usersDB rid force).2 = s := by
    intro h
    rcases hcases with h1 | ⟨_, _, h3⟩
    · exact h1
    · exact absurd h3 h
  have hkeep : (DeleteRole s usersDB rid force).2 ≠ s →
      ∀ user ∈ usersDB.1, user.PlatformRoleID ≠ rid := by
    intro h user hu he
    rcases hcases with h1 | ⟨_, h2, _⟩
    · exact h h1
    · have := (DeleteRole.inUse_iff rid usersDB.1).2 ⟨user, hu, he⟩
      rw [h2] at this
      exact absurd this (by simp)
  refine ⟨?_, rfl, hkeep, herr, ?_⟩
  · intro h
    have hne : (DeleteRole s usersDB rid force).1 ≠ none := by
      unfold DeleteRole
      by_cases h1 : rid = ""
      · rw [if_pos h1]
        simp
      · rw [if_neg h1]
        cases usersDB.2 with
        | some msg => simp
        | none =>
          cases hg : GetRole s rid with
          | error err => simp
          | ok role =>
            simp only []
            rcases h with h | h | h
            · exact absurd h h1
            · exact absurd hg (h role)
            · rw [if_pos ((DeleteRole.inUse_iff rid usersDB.1).2 h)]
              simp
    exact ⟨hne, herr hne⟩
  · intro role h1 h2 h3 h4 h5
    have hg : GetRole s rid = Except.ok role := by
      simp [GetRole, h4, h3]
    have hin : ¬ DeleteRole.inUse rid usersDB.1 = true := by
      rw [DeleteRole.inUse_iff]
      rintro ⟨user, hu, he⟩
      exact h5 user hu he
    unfold DeleteRole
    rw [if_neg h1, h2]
    simp only [hg, if_neg hin, h4]

/-- C31 on the role scenario: `admin` is the platform role of `alice`, so
deleting it fails and changes nothing, with and without `force`. -/
theorem C31_DeleteRole_witness :
    (DeleteRole rolesS usersRoles "admin" true).1 = some DeleteRoleError.active ∧
      ((DeleteRole rolesS usersRoles "admin" true).1 ≠ none ∧
        (DeleteRole rolesS usersRoles "admin" true).2 = rolesS) :=
  ⟨by decide,
    (C31_DeleteRole rolesS usersRoles "admin" true).1
      (Or.inr (Or.inr ⟨_, List.mem_singleton.2 rfl, rfl⟩))⟩

/-! ## C32: `HasNetworkRsrcScope` -/

/-- C32: `HasNetworkRsrcScope(template, netid, rsrcType, rsrcID, op)` is true
exactly when `template.FullAccess` is set or `template.NetworkLevelAccess` has
an entry for `rsrcType` that holds `rsrcID`; a full-access role gets true for
every resource; the result is the same for every `op` and every `netid`. -/
theorem C32_HasNetworkRsrcScope (template : UserRolePermissionTemplate)
    (netid rsrcType rsrcID op : String) :
    (HasNetworkRsrcScope template netid rsrcType rsrcID op = true ↔
      template.FullAccess = true ∨
        ∃ rsrcScope, mapGet template.NetworkLevelAccess rsrcType = some rsrcScope ∧
          (mapGet rsrcScope rsrcID).isSome = true) ∧
    (template.FullAccess = true →
      ∀ rsrcType2 rsrcID2, HasNetworkRsrcScope template netid rsrcType2 rsrcID2 op = true) ∧
    (∀ netid2 op2, HasNetworkRsrcScope template netid2 rsrcType rsrcID op2 =
      HasNetworkRsrcScope template netid rsrcType rsrcID op) := by
  refine ⟨?_, ?_, fun _ _ => rfl⟩
  · unfold HasNetworkRsrcScope
    by_cases hfa : template.FullAccess = true
    · simp [hfa]
    · rw [if_neg hfa]
      cases hget : mapGet template.NetworkLevelAccess rsrcType with
      | none => simp [hfa]
      | some rsrcScope => simp [hfa]
  · intro hfa rsrcType2 rsrcID2
    simp [HasNetworkRsrcScope, hfa]

/-- C32 on the role scenario: `admin` has full access and gets the scope of
a host that no entry names. -/
theorem C32_HasNetworkRsrcScope_witness :
    adminRole.FullAccess = true ∧
      HasNetworkRsrcScope adminRole "netA" "hosts" "h9" "read" = true :=
  ⟨rfl, (C32_HasNetworkRsrcScope adminRole "netA" "hosts" "h1" "read").2.1 rfl "hosts" "h9"⟩

/-! ## C33: the SQL settings -/

theorem getSQLString_eq (env : String → String) (name fileValue dflt : String) :
    (env name ≠ "" → getSQLString env name fileValue dflt = env name) ∧
      (env name = "" → fileValue ≠ "" → getSQLString env name fileValue dflt = fileValue) ∧
      (env name = "" → fileValue = "" → getSQLString env name fileValue dflt = dflt) := by
  unfold getSQLString
  refine ⟨fun h => by rw [if_pos h], fun h1 h2 => by rw [if_neg (by simp [h1]), if_pos h2],
    fun h1 h2 => by rw [if_neg (by simp [h1]), if_neg (by simp [h2])]⟩

/-- C33: with `SQL_PORT=4294967296` the variable parses to a non-zero integer
and `GetSQLPort` returns 0. -/
theorem C33_port_zero_from_environment :
    strconv.Atoi (envPort "SQL_PORT") = some 4294967296 ∧
      GetSQLPort envPort noSQLConfig = 0 ∧
      GetSQLPort envPort { noSQLConfig with Port := 6543 } = 0 := by
  refine ⟨by decide, by decide, by decide⟩

/-! ## C35: `ListAcls` on a partly filled cache -/

/-- C35: from the store with `netA.all-nodes` and `netA.webdb` and an empty
cache, with caching enabled, `GetAcl("netA.webdb")` followed by `ListAcls`
returns `netA.webdb` only, and `InsertAcl` of `netA.eng-db` followed by
`ListAcls` returns `netA.eng-db` only; with caching disabled `ListAcls` returns
every policy of the store. -/
theorem C35_cold_cache_lists_part :
    (registryS2 true).aclCacheMap = [] ∧
      ((registryS2 true).GetAcl "netA.webdb").1 = (webdb, none) ∧
      ((registryS2 true).GetAcl "netA.webdb").2.ListAcls.1 = [webdb] ∧
      ((registryS2 false).GetAcl "netA.webdb").2.ListAcls.1 = [allNodes false, webdb] ∧
      ((registryS2 true).InsertAcl engdb).2.ListAcls.1 = [engdb] ∧
      ((registryS2 false).InsertAcl engdb).2.ListAcls.1 = [allNodes false, webdb, engdb] := by
  refine ⟨by decide, by decide, by decide, by decide, by decide, by decide⟩

/-! ## C36: the two device evaluators -/

theorem peerMatch_of_accept (policy : Acl) (nodeTags peerTags : List String)
    (h : forwardMatch policy nodeTags peerTags ∨
      (policy.AllowedDirection = TrafficDirectionBi ∧ reverseMatch policy nodeTags peerTags)) :
    peerMatch policy nodeTags peerTags := by
  rcases h with h | ⟨_, h⟩
  · exact Or.inl h
  · exact Or.inr h

/-- C36: whenever `IsNodeAllowedToCommunicate(node, peer, checkDefault)` returns
true, `IsPeerAllowed(node, peer, checkDefault)` returns true; and when every
enabled device policy of the peer's network is bidirectional the two booleans
are equal. -/
theorem C36_reporting_refines_mesh (w : World) (node peer : Node) (checkDefaultPolicy : Bool) :
    ((IsNodeAllowedToCommunicate w node peer checkDefaultPolicy).1 = true →
      IsPeerAllowed w node peer checkDefaultPolicy = true) ∧
    ((∀ p ∈ listDevicePolicies w (staticNormal w peer).Network, p.Enabled = true →
        p.AllowedDirection = TrafficDirectionBi) →
      (IsNodeAllowedToCommunicate w node peer checkDefaultPolicy).1 =
        IsPeerAllowed w node peer checkDefaultPolicy) := by
  have hloop : (IsNodeAllowedToCommunicate.policyLoop (staticNormal w node).Tags
      (staticNormal w peer).Tags (listDevicePolicies w (staticNormal w peer).Network)).length
      > 0 →
      IsPeerAllowed.policyLoop (staticNormal w node).Tags (staticNormal w peer).Tags
        (listDevicePolicies w (staticNormal w peer).Network) = true := by
    intro hlen
    obtain ⟨q, hq⟩ := List.exists_mem_of_length_pos hlen
    obtain ⟨h1, h2, h3⟩ := (IsNodeAllowedToCommunicate.mem_policyLoop _ _ _ q).1 hq
    exact (IsPeerAllowed.policyLoop_iff _ _ _).2 ⟨q, h1, h2, peerMatch_of_accept q _ _ h3⟩
  have hback : (∀ p ∈ listDevicePolicies w (staticNormal w peer).Network, p.Enabled = true →
        p.AllowedDirection = TrafficDirectionBi) →
      IsPeerAllowed.policyLoop (staticNormal w node).Tags (staticNormal w peer).Tags
        (listDevicePolicies w (staticNormal w peer).Network) = true →
      (IsNodeAllowedToCommunicate.policyLoop (staticNormal w node).Tags
        (staticNormal w peer).Tags (listDevicePolicies w (staticNormal w peer).Network)).length
        > 0 := by
    intro hbi hp
    obtain ⟨q, h1, h2, h3⟩ := (IsPeerAllowed.policyLoop_iff _ _ _).1 hp
    apply List.length_pos_of_mem
    apply (IsNodeAllowedToCommunicate.mem_policyLoop _ _ _ q).2
    refine ⟨h1, h2, ?_⟩
    rcases h3 with h3 | h3
    · exact Or.inl h3
    · exact Or.inr ⟨hbi q h1 h2, h3⟩
  simp only [IsNodeAllowedToCommunicate, IsPeerAllowed, snapshotTags_eq]
  by_cases hd : checkDefaultPolicy = true ∧
      (GetDefaultPolicy w (staticNormal w node).Network DevicePolicy).2 = none ∧
      (GetDefaultPolicy w (staticNormal w node).Network DevicePolicy).1.Enabled = true
  · rw [if_pos hd, if_pos hd]
    exact ⟨fun _ => rfl, fun _ => rfl⟩
  · rw [if_neg hd, if_neg hd]
    by_cases hlen : (IsNodeAllowedToCommunicate.policyLoop (staticNormal w node).Tags
        (staticNormal w peer).Tags
        (listDevicePolicies w (staticNormal w peer).Network)).length > 0
    · rw [if_pos hlen]
      exact ⟨fun _ => hloop hlen, fun _ => (hloop hlen).symm⟩
    · rw [if_neg hlen]
      refine ⟨fun h => absurd h (by simp), ?_⟩
      intro hbi
      cases hp : IsPeerAllowed.policyLoop (staticNormal w node).Tags (staticNormal w peer).Tags
        (listDevicePolicies w (staticNormal w peer).Network) with
      | false => rfl
      | true => exact absurd (hback hbi hp) hlen

/-- C36 in scenario S3, where the only enabled device policy is bidirectional:
both evaluators answer true for `N1` and `N2`. -/
theorem C36_reporting_refines_mesh_witness :
    (IsNodeAllowedToCommunicate worldS3 N1 N2 true).1 = true ∧
      IsPeerAllowed worldS3 N1 N2 true = true ∧
      (IsNodeAllowedToCommunicate worldS3 N1 N2 true).1 = IsPeerAllowed worldS3 N1 N2 true :=
  ⟨by decide,
    (C36_reporting_refines_mesh worldS3 N1 N2 true).1 (by decide),
    (C36_reporting_refines_mesh worldS3 N1 N2 true).2 (by decide)⟩

/-! ## C37: a user policy with the wildcard in `Dst` -/

/-- C37: `alice` is named by the enabled user policy `netA.alice-any`, whose
`Dst` is the wildcard; the default user policy is disabled; the target `N1` is
not an ingress gateway; the client of `alice` is the enabled static client of
the network, with the address `10.0.0.9/32`.  `IsUserAllowedToCommunicate`
answers true with the policy in its list, and `GetAclRulesForNode(N1)` has no
rule under `netA.alice-any`. -/
theorem C37_wildcard_policy_without_rule :
    N1addr.IsIngressGateway = false ∧
      (GetDefaultPolicy worldAliceAny "netA" UserPolicy).1.Enabled = false ∧
      IsUserAllowedToCommunicate worldAliceAny "alice" N1addr = (true, [aliceAny]) ∧
      indexS4.GetStaticUserNodesByNetwork "netA" = [clientNode aliceClient] ∧
      aliceClient.Enabled = true ∧ aliceClient.OwnerID = "alice" ∧
      aliceClient.Address ≠ "" ∧
      mapGet (GetAclRulesForNode worldAliceAny indexS4 N1addr) "netA.alice-any" = none := by
  refine ⟨rfl, by decide, by decide, rfl, rfl, rfl, by decide, by decide⟩

/-! ## `CheckIfTagAsActivePolicy` and re-tagged lists -/

theorem foldl_invariant_mem {α β : Type} (P : β → Prop) (f : β → α → β) (l : List α) (init : β)
    (h0 : P init) (hstep : ∀ acc x, x ∈ l → P acc → P (f acc x)) : P (l.foldl f init) := by
  induction l generalizing init with
  | nil => exact h0
  | cons x xs ih =>
    exact ih _ (hstep _ _ (List.mem_cons_self _ _) h0)
      (fun acc y hy => hstep acc y (List.mem_cons_of_mem _ hy))

theorem UniqueIPNetList_ne_nil (cidr : IPNet → String) (l : List IPNet) (h : l ≠ []) :
    UniqueIPNetList cidr l ≠ [] := by
  obtain ⟨x, hx⟩ := List.exists_mem_of_ne_nil l h
  have h1 : cidr x ∈ (UniqueIPNetList cidr l).map cidr :=
    (UniqueIPNetList.mem_cidr cidr l (cidr x)).2 (List.mem_map_of_mem cidr hx)
  intro hnil
  rw [hnil] at h1
  exact absurd h1 (List.not_mem_nil _)

theorem GetAclRulesForNode.addNodes_header (ix : Index) (targetID : String) (nodes : List Node)
    (aclRule : AclRule) :
    (GetAclRulesForNode.addNodes ix targetID aclRule nodes).ID = aclRule.ID ∧
      (GetAclRulesForNode.addNodes ix targetID aclRule nodes).AllowedProtocol =
        aclRule.AllowedProtocol ∧
      (GetAclRulesForNode.addNodes ix targetID aclRule nodes).AllowedPorts =
        aclRule.AllowedPorts ∧
      (GetAclRulesForNode.addNodes ix targetID aclRule nodes).Direction = aclRule.Direction := by
  induction nodes generalizing aclRule with
  | nil => simp [GetAclRulesForNode.addNodes]
  | cons node rest ih =>
    simp only [GetAclRulesForNode.addNodes]
    by_cases hid : node.ID = targetID
    · rw [if_pos hid]
      exact ih aclRule
    · rw [if_neg hid, (ih _).1, (ih _).2.1, (ih _).2.2.1, (ih _).2.2.2]
      by_cases h1 : node.Address.IP.bytes = [] <;>
        by_cases h2 : node.Address6.IP.bytes = [] <;>
        by_cases h3 : node.IsStatic = true <;>
        by_cases h4 : node.StaticNode.Address = "" <;>
        by_cases h5 : node.StaticNode.Address6 = "" <;>
        simp [h1, h2, h3, h4, h5]

theorem GetAclRulesForNode.addTags_header (ix : Index) (taggedNodes : String → List Node)
    (targetID nodeTag : String) (tags : List String) (aclRule : AclRule) :
    (GetAclRulesForNode.addTags ix taggedNodes targetID nodeTag aclRule tags).ID = aclRule.ID ∧
      (GetAclRulesForNode.addTags ix taggedNodes targetID nodeTag aclRule tags).AllowedProtocol =
        aclRule.AllowedProtocol ∧
      (GetAclRulesForNode.addTags ix taggedNodes targetID nodeTag aclRule tags).AllowedPorts =
        aclRule.AllowedPorts ∧
      (GetAclRulesForNode.addTags ix taggedNodes targetID nodeTag aclRule tags).Direction =
        aclRule.Direction := by
  induction tags generalizing aclRule with
  | nil => simp [GetAclRulesForNode.addTags]
  | cons tag rest ih =>
    simp only [GetAclRulesForNode.addTags]
    by_cases h : tag = nodeTag
    · rw [if_pos h]
      exact ih aclRule
    · rw [if_neg h, (ih _).1, (ih _).2.1, (ih _).2.2.1, (ih _).2.2.2]
      exact GetAclRulesForNode.addNodes_header ix targetID (taggedNodes tag) aclRule

/-- The rule of one target tag and one policy carries the ID, protocol, ports
and direction of the policy. -/
theorem GetAclRulesForNode.rule_header (ix : Index) (taggedNodes : String → List Node)
    (targetnode : Node) (nodeTag : String) (acl : Acl) :
    (GetAclRulesForNode.rule ix taggedNodes targetnode nodeTag acl).ID = acl.ID ∧
      (GetAclRulesForNode.rule ix taggedNodes targetnode nodeTag acl).AllowedProtocol =
        acl.Proto ∧
      (GetAclRulesForNode.rule ix taggedNodes targetnode nodeTag acl).AllowedPorts = acl.Port ∧
      (GetAclRulesForNode.rule ix taggedNodes targetnode nodeTag acl).Direction =
        acl.AllowedDirection := by
  simp only [GetAclRulesForNode.rule]
  split_ifs <;>
    simp only [GetAclRulesForNode.addNodes_header, GetAclRulesForNode.addTags_header,
      and_self]

theorem GetAclRulesForNode.mem_addNodes (ix : Index) (targetID : String) (nodes : List Node)
    (aclRule : AclRule) (x : IPNet) :
    (x ∈ (GetAclRulesForNode.addNodes ix targetID aclRule nodes).IPList ↔
        x ∈ aclRule.IPList ∨ ∃ node ∈ nodes, node.ID ≠ targetID ∧ x ∈ Node.prefixes4 ix node) ∧
      (x ∈ (GetAclRulesForNode.addNodes ix targetID aclRule nodes).IP6List ↔
        x ∈ aclRule.IP6List ∨
          ∃ node ∈ nodes, node.ID ≠ targetID ∧ x ∈ Node.prefixes6 ix node) := by
  rw [(GetAclRulesForNode.addNodes_lists ix targetID nodes aclRule).1,
    (GetAclRulesForNode.addNodes_lists ix targetID nodes aclRule).2]
  simp only [List.mem_append, List.mem_flatMap, otherNodes, List.mem_filter, decide_eq_true_eq,
    and_assoc]
  exact ⟨trivial, trivial⟩

theorem GetAclRulesForNode.mem_addTags (ix : Index) (taggedNodes : String → List Node)
    (targetID nodeTag : String) (tags : List String) (aclRule : AclRule) (x : IPNet) :
    (x ∈ (GetAclRulesForNode.addTags ix taggedNodes targetID nodeTag aclRule tags).IPList ↔
        x ∈ aclRule.IPList ∨ ∃ tag, (tag ∈ tags ∧ tag ≠ nodeTag) ∧
          ∃ node ∈ taggedNodes tag, node.ID ≠ targetID ∧ x ∈ Node.prefixes4 ix node) ∧
      (x ∈ (GetAclRulesForNode.addTags ix taggedNodes targetID nodeTag aclRule tags).IP6List ↔
        x ∈ aclRule.IP6List ∨ ∃ tag, (tag ∈ tags ∧ tag ≠ nodeTag) ∧
          ∃ node ∈ taggedNodes tag, node.ID ≠ targetID ∧ x ∈ Node.prefixes6 ix node) := by
  rw [(GetAclRulesForNode.addTags_lists ix taggedNodes targetID nodeTag tags aclRule).1,
    (GetAclRulesForNode.addTags_lists ix taggedNodes targetID nodeTag tags aclRule).2]
  simp only [List.mem_append, List.mem_flatMap, otherNodes, List.mem_filter, decide_eq_true_eq,
    and_assoc]
  exact ⟨trivial, trivial⟩

/-- The entries of the rule of one target tag and one policy: the prefixes of
the nodes, other than the target, that the index holds under a collected
tag. -/
theorem GetAclRulesForNode.mem_rule (ix : Index) (taggedNodes : String → List Node)
    (targetnode : Node) (nodeTag : String) (acl : Acl) (x : IPNet) :
    (x ∈ (GetAclRulesForNode.rule ix taggedNodes targetnode nodeTag acl).IPList ↔
        ∃ tag, GetAclRulesForNode.collects acl nodeTag tag ∧
          ∃ node ∈ taggedNodes tag, node.ID ≠ targetnode.ID ∧ x ∈ Node.prefixes4 ix node) ∧
      (x ∈ (GetAclRulesForNode.rule ix taggedNodes targetnode nodeTag acl).IP6List ↔
        ∃ tag, GetAclRulesForNode.collects acl nodeTag tag ∧
          ∃ node ∈ taggedNodes tag, node.ID ≠ targetnode.ID ∧ x ∈ Node.prefixes6 ix node) := by
  simp only [GetAclRulesForNode.rule, GetAclRulesForNode.collects]
  by_cases hbi : acl.AllowedDirection = TrafficDirectionBi
  · simp only [if_pos hbi]
    by_cases hs : nodeTag ∈ convAclTagToValueMap acl.Src <;>
      by_cases hd : nodeTag ∈ convAclTagToValueMap acl.Dst <;>
      simp [hs, hd, GetAclRulesForNode.mem_addTags, GetAclRulesForNode.mem_addNodes]
  · simp only [if_neg hbi]
    by_cases hd : nodeTag ∈ convAclTagToValueMap acl.Dst ∨ "*" ∈ convAclTagToValueMap acl.Dst
    · simp [hd, GetAclRulesForNode.mem_addTags]
    · simp [hd]

/-- Every entry of the device-policy pass was written for one tag of the
target and one enabled device policy of the network with the ID of the entry:
it is the rule of the two, deduplicated, and the rule had an address. -/
theorem GetAclRulesForNode.devicePass_sound (w : World) (ix : Index) (targetnode : Node)
    (id : String) (r : AclRule)
    (h : mapGet (GetAclRulesForNode.devicePass w ix targetnode) id = some r) :
    ∃ t ∈ GetAclRulesForNode.targetNodeTags targetnode,
      ∃ p ∈ listDevicePolicies w targetnode.Network, p.Enabled = true ∧ p.ID = id ∧
        ((GetAclRulesForNode.rule ix (GetAclRulesForNode.taggedNodes ix targetnode)
            targetnode t p).IPList ≠ [] ∨
          (GetAclRulesForNode.rule ix (GetAclRulesForNode.taggedNodes ix targetnode)
            targetnode t p).IP6List ≠ []) ∧
        r.ID = p.ID ∧ r.AllowedProtocol = p.Proto ∧ r.AllowedPorts = p.Port ∧
        r.Direction = p.AllowedDirection ∧
        r.IPList = UniqueIPNetList ix.cidr
          (GetAclRulesForNode.rule ix (GetAclRulesForNode.taggedNodes ix targetnode)
            targetnode t p).IPList ∧
        r.IP6List = UniqueIPNetList ix.cidr
          (GetAclRulesForNode.rule ix (GetAclRulesForNode.taggedNodes ix targetnode)
            targetnode t p).IP6List := by
  rw [GetAclRulesForNode.devicePass_eq] at h
  revert r
  apply foldl_invariant_mem (fun rules : List (String × AclRule) =>
    ∀ r, mapGet rules id = some r →
      ∃ t ∈ GetAclRulesForNode.targetNodeTags targetnode,
        ∃ p ∈ listDevicePolicies w targetnode.Network, p.Enabled = true ∧ p.ID = id ∧
          ((GetAclRulesForNode.rule ix (GetAclRulesForNode.taggedNodes ix targetnode)
              targetnode t p).IPList ≠ [] ∨
            (GetAclRulesForNode.rule ix (GetAclRulesForNode.taggedNodes ix targetnode)
              targetnode t p).IP6List ≠ []) ∧
          r.ID = p.ID ∧ r.AllowedProtocol = p.Proto ∧ r.AllowedPorts = p.Port ∧
          r.Direction = p.AllowedDirection ∧
          r.IPList = UniqueIPNetList ix.cidr
            (GetAclRulesForNode.rule ix (GetAclRulesForNode.taggedNodes ix targetnode)
              targetnode t p).IPList ∧
          r.IP6List = UniqueIPNetList ix.cidr
            (GetAclRulesForNode.rule ix (GetAclRulesForNode.taggedNodes ix targetnode)
              targetnode t p).IP6List)
  · intro r hr
    simp [mapGet] at hr
  · intro acc t ht hacc
    apply foldl_invariant_mem (fun rules : List (String × AclRule) =>
      ∀ r, mapGet rules id = some r →
        ∃ t ∈ GetAclRulesForNode.targetNodeTags targetnode,
          ∃ p ∈ listDevicePolicies w targetnode.Network, p.Enabled = true ∧ p.ID = id ∧
            ((GetAclRulesForNode.rule ix (GetAclRulesForNode.taggedNodes ix targetnode)
                targetnode t p).IPList ≠ [] ∨
              (GetAclRulesForNode.rule ix (GetAclRulesForNode.taggedNodes ix targetnode)
                targetnode t p).IP6List ≠ []) ∧
            r.ID = p.ID ∧ r.AllowedProtocol = p.Proto ∧ r.AllowedPorts = p.Port ∧
            r.Direction = p.AllowedDirection ∧
            r.IPList = UniqueIPNetList ix.cidr
              (GetAclRulesForNode.rule ix (GetAclRulesForNode.taggedNodes ix targetnode)
                targetnode t p).IPList ∧
            r.IP6List = UniqueIPNetList ix.cidr
              (GetAclRulesForNode.rule ix (GetAclRulesForNode.taggedNodes ix targetnode)
                targetnode t p).IP6List)
    · exact hacc
    · intro acc2 p hp hacc2 r hr
      simp only [GetAclRulesForNode.policyStep] at hr
      by_cases hen : p.Enabled = false
      · rw [if_pos hen] at hr
        exact hacc2 r hr
      · rw [if_neg hen] at hr
        have hen2 : p.Enabled = true := by simpa using hen
        by_cases hlen :
            (GetAclRulesForNode.rule ix (GetAclRulesForNode.taggedNodes ix targetnode)
                targetnode t p).IPList.length > 0 ∨
              (GetAclRulesForNode.rule ix (GetAclRulesForNode.taggedNodes ix targetnode)
                targetnode t p).IP6List.length > 0
        · rw [if_pos hlen] at hr
          by_cases hid : p.ID = id
          · rw [hid, mapGet_mapSet_self] at hr
            have hr2 := (Option.some.inj hr).symm
            have hhead := GetAclRulesForNode.rule_header ix
              (GetAclRulesForNode.taggedNodes ix targetnode) targetnode t p
            refine ⟨t, ht, p, hp, hen2, hid, ?_, ?_, ?_, ?_, ?_, ?_, ?_⟩
            · rcases hlen with h1 | h1
              · exact Or.inl (List.length_pos.1 h1)
              · exact Or.inr (List.length_pos.1 h1)
            · rw [hr2]; exact hhead.1
            · rw [hr2]; exact hhead.2.1
            · rw [hr2]; exact hhead.2.2.1
            · rw [hr2]; exact hhead.2.2.2
            · rw [hr2]
            · rw [hr2]
          · rw [mapGet_mapSet_ne _ _ _ _ (Ne.symm hid)] at hr
            exact hacc2 r hr
        · rw [if_neg hlen] at hr
          exact hacc2 r hr

theorem GetAclRulesForNode.collects_side (acl : Acl) (nodeTag tag : String)
    (h : GetAclRulesForNode.collects acl nodeTag tag) :
    (∃ e ∈ acl.Src, e.Value = tag) ∨ (∃ e ∈ acl.Dst, e.Value = tag) := by
  simp only [GetAclRulesForNode.collects] at h
  rw [← mem_convAclTagToValueMap, ← mem_convAclTagToValueMap]
  split_ifs at h
  · rcases h with ⟨-, -, h3, -⟩ | ⟨-, -, h3, -⟩ | ⟨-, h2, h3⟩
    · exact Or.inr h3
    · exact Or.inl h3
    · rw [h3]
      exact Or.inl h2
  · exact Or.inl h.2.1

/-- C39: a rule that `GetAclRulesForNode(target)` holds under an ID that the
device-policy pass wrote (the entry of the pass itself, or the entry of the
result under an ID that no enabled user policy of the network has) belongs to
an enabled device policy `p` of the target's network with this ID; the ID,
protocol, ports and direction of the rule are those of `p`; its two lists are
not both empty; and every prefix of either list is an address, or a
static-client address, of a node that the tag index holds under a tag value
occurring in `p.Src` or `p.Dst` and whose ID differs from the target's. -/
theorem C39_device_pass_sound (w : World) (ix : Index) (targetnode : Node) (id : String)
    (r : AclRule)
    (h : mapGet (GetAclRulesForNode.devicePass w ix targetnode) id = some r ∨
      (mapGet (GetAclRulesForNode w ix targetnode) id = some r ∧
        ∀ a ∈ listUserPolicies w targetnode.Network, a.Enabled = true → a.ID ≠ id)) :
    ∃ p ∈ listDevicePolicies w targetnode.Network, p.Enabled = true ∧ p.ID = id ∧
      r.ID = p.ID ∧ r.AllowedProtocol = p.Proto ∧ r.AllowedPorts = p.Port ∧
      r.Direction = p.AllowedDirection ∧
      (r.IPList ≠ [] ∨ r.IP6List ≠ []) ∧
      (∀ x ∈ r.IPList, ∃ tag node,
        ((∃ e ∈ p.Src, e.Value = tag) ∨ (∃ e ∈ p.Dst, e.Value = tag)) ∧
          node ∈ GetAclRulesForNode.taggedNodes ix targetnode tag ∧
          node.ID ≠ targetnode.ID ∧ x ∈ Node.prefixes4 ix node) ∧
      (∀ x ∈ r.IP6List, ∃ tag node,
        ((∃ e ∈ p.Src, e.Value = tag) ∨ (∃ e ∈ p.Dst, e.Value = tag)) ∧
          node ∈ GetAclRulesForNode.taggedNodes ix targetnode tag ∧
          node.ID ≠ targetnode.ID ∧ x ∈ Node.prefixes6 ix node) := by
  have hdev : mapGet (GetAclRulesForNode.devicePass w ix targetnode) id = some r := by
    rcases h with h | ⟨h, hid⟩
    · exact h
    · simp only [GetAclRulesForNode] at h
      split_ifs at h
      · rw [getUserAclRulesForNode_frame w ix targetnode _ id hid] at h
        exact h
      · exact h
  obtain ⟨t, -, p, hp, hen, hpid, hne, h1, h2, h3, h4, h5, h6⟩ :=
    GetAclRulesForNode.devicePass_sound w ix targetnode id r hdev
  refine ⟨p, hp, hen, hpid, h1, h2, h3, h4, ?_, ?_, ?_⟩
  · rcases hne with hne | hne
    · exact Or.inl (by rw [h5]; exact UniqueIPNetList_ne_nil _ _ hne)
    · exact Or.inr (by rw [h6]; exact UniqueIPNetList_ne_nil _ _ hne)
  · intro x hx
    rw [h5] at hx
    obtain ⟨tag, hc, node, hn, hnid, hxn⟩ :=
      (GetAclRulesForNode.mem_rule ix _ targetnode t p x).1.1
        (UniqueIPNetList.mem_of_mem _ _ x hx)
    exact ⟨tag, node, GetAclRulesForNode.collects_side p t tag hc, hn, hnid, hxn⟩
  · intro x hx
    rw [h6] at hx
    obtain ⟨tag, hc, node, hn, hnid, hxn⟩ :=
      (GetAclRulesForNode.mem_rule ix _ targetnode t p x).2.1
        (UniqueIPNetList.mem_of_mem _ _ x hx)
    exact ⟨tag, node, GetAclRulesForNode.collects_side p t tag hc, hn, hnid, hxn⟩

/-- C39 in scenario S3: the rule of `N1` under `netA.webdb` belongs to an
enabled device policy of `netA` with this ID. -/
theorem C39_device_pass_sound_witness :
    mapGet (GetAclRulesForNode worldS3 indexS N1addr) "netA.webdb" = some ruleS3 ∧
      ∃ p ∈ listDevicePolicies worldS3 N1addr.Network, p.Enabled = true ∧
        p.ID = "netA.webdb" ∧ ruleS3.ID = p.ID :=
  ⟨by decide, by
    obtain ⟨p, hp, hen, hid, h1, -⟩ :=
      C39_device_pass_sound worldS3 indexS N1addr "netA.webdb" ruleS3
        (Or.inr ⟨by decide, by decide⟩)
    exact ⟨p, hp, hen, hid, h1⟩⟩

/-! ## C34: the device-policy pass and `IsPeerAllowed` -/

theorem forwardMatch_of_sides (p : Acl) (nodeTags peerTags : List String) (t tag : String)
    (ht : t ∈ nodeTags ∨ t = "*") (htag : tag ∈ peerTags ∨ tag = "*")
    (hs : t ∈ convAclTagToValueMap p.Src) (hd : tag ∈ convAclTagToValueMap p.Dst) :
    forwardMatch p nodeTags peerTags ∨ (hasWildcard p.Src ∧ hasWildcard p.Dst) := by
  rw [mem_convAclTagToValueMap] at hs hd
  rcases ht with ht | ht
  · rcases htag with htag | htag
    · exact Or.inl (Or.inl ⟨⟨t, ht, hs⟩, Or.inr ⟨tag, htag, hd⟩⟩)
    · rw [htag] at hd
      exact Or.inl (Or.inl ⟨⟨t, ht, hs⟩, Or.inl hd⟩)
  · rw [ht] at hs
    rcases htag with htag | htag
    · exact Or.inl (Or.inr ⟨⟨tag, htag, hd⟩, Or.inl hs⟩)
    · rw [htag] at hd
      exact Or.inr ⟨hs, hd⟩

/-- A collected tag gives a match of `IsPeerAllowed`, or the policy has the
wildcard on both sides. -/
theorem peerMatch_of_collects (p : Acl) (nodeTags peerTags : List String) (t tag : String)
    (ht : t ∈ nodeTags ∨ t = "*") (htag : tag ∈ peerTags ∨ tag = "*")
    (hc : GetAclRulesForNode.collects p t tag) :
    peerMatch p nodeTags peerTags ∨ (hasWildcard p.Src ∧ hasWildcard p.Dst) := by
  have fwd : t ∈ convAclTagToValueMap p.Src → tag ∈ convAclTagToValueMap p.Dst →
      peerMatch p nodeTags peerTags ∨ (hasWildcard p.Src ∧ hasWildcard p.Dst) := by
    intro hs hd
    rcases forwardMatch_of_sides p nodeTags peerTags t tag ht htag hs hd with h | h
    · exact Or.inl (Or.inl h)
    · exact Or.inr h
  have rev : ∀ t2, (t2 ∈ nodeTags ∨ t2 = "*") → t2 ∈ convAclTagToValueMap p.Dst →
      tag ∈ convAclTagToValueMap p.Src →
      peerMatch p nodeTags peerTags ∨ (hasWildcard p.Src ∧ hasWildcard p.Dst) := by
    intro t2 ht2 hd hs
    rcases forwardMatch_of_sides p peerTags nodeTags tag t2 htag ht2 hs hd with h | h
    · exact Or.inl (Or.inr h)
    · exact Or.inr h
  simp only [GetAclRulesForNode.collects] at hc
  split_ifs at hc
  · rcases hc with ⟨h1, -, h3, -⟩ | ⟨h1, -, h3, -⟩ | ⟨h1, h2, h3⟩
    · exact fwd h1 h3
    · exact rev t ht h1 h3
    · exact fwd h2 (by rw [h3]; exact h1)
  · rcases hc with ⟨h1 | h1, h2, -⟩
    · exact rev t ht h1 h2
    · exact rev "*" (Or.inr rfl) h1 h2

/-- With the canonical default device policy stored, an enabled device policy
of the network with the wildcard on both sides makes `GetDefaultPolicy` return
an enabled policy without error. -/
theorem GetDefaultPolicy_of_wildcard (w : World) (netID : String) (d p : Acl)
    (hdefault : w.GetAcl (netID ++ "." ++ "all-nodes") = some d)
    (hp : p ∈ listDevicePolicies w netID) (hen : p.Enabled = true)
    (hw : hasWildcard p.Src ∧ hasWildcard p.Dst) :
    (GetDefaultPolicy w netID DevicePolicy).2 = none ∧
      (GetDefaultPolicy w netID DevicePolicy).1.Enabled = true := by
  simp only [GetDefaultPolicy, if_true, hdefault]
  by_cases hd : d.Enabled = true
  · simp [hd]
  · have hp2 := (mem_listDevicePolicies w netID p).1 hp
    obtain ⟨q, hq⟩ := GetDefaultPolicy.scan_of_exists DevicePolicy (ListAclsByNetwork w netID)
      ⟨p, (mem_ListAclsByNetwork w netID p).2 ⟨hp2.1, hp2.2.1⟩, hen, hp2.2.2, hw.1, hw.2⟩
    have hq2 := GetDefaultPolicy.scan_some DevicePolicy _ q hq
    simp [hd, hq, hq2.2.1]

theorem IsPeerAllowed_of_match (w : World) (node peer : Node) (d p : Acl)
    (hns : node.IsStatic = false) (hps : peer.IsStatic = false)
    (hnet : peer.Network = node.Network)
    (hdefault : w.GetAcl (node.Network ++ "." ++ "all-nodes") = some d)
    (hp : p ∈ listDevicePolicies w node.Network) (hen : p.Enabled = true)
    (hm : peerMatch p node.Tags peer.Tags ∨ (hasWildcard p.Src ∧ hasWildcard p.Dst)) :
    IsPeerAllowed w node peer true = true := by
  simp only [IsPeerAllowed, staticNormal, hns, hps, snapshotTags_eq, Bool.false_eq_true,
    if_false, true_and]
  rcases hm with hm | hm
  · split_ifs
    · rfl
    · rw [IsPeerAllowed.policyLoop_iff, hnet]
      exact ⟨p, hp, hen, hm⟩
  · rw [if_pos (GetDefaultPolicy_of_wildcard w node.Network d p hdefault hp hen hm)]

/-- C34: the target and the peer are non-static nodes of one network; the tag
index the compiler reads holds a node under a tag other than `"*"` only if the
node carries the tag; the canonical default device policy of the network is
stored; the prefix `x` is an address of the peer, no other node of the index
has it, and it is listed in a rule of the device-policy pass of
`GetAclRulesForNode(target)`.  Then `IsPeerAllowed(target, peer, true)` is
true, and the peer is not the target. -/
theorem C34_compiled_peer_is_allowed (w : World) (ix : Index) (target peer : Node) (d : Acl)
    (id : String) (r : AclRule) (x : IPNet)
    (hts : target.IsStatic = false) (hps : peer.IsStatic = false)
    (hnet : peer.Network = target.Network)
    (hindex : ∀ tag node, node ∈ GetAclRulesForNode.taggedNodes ix target tag →
      tag ≠ "*" → tag ∈ node.Tags)
    (hdefault : w.GetAcl (target.Network ++ "." ++ "all-nodes") = some d)
    (hr : mapGet (GetAclRulesForNode.devicePass w ix target) id = some r)
    (hx : (x ∈ r.IPList ∧ x ∈ Node.prefixes4 ix peer) ∨
      (x ∈ r.IP6List ∧ x ∈ Node.prefixes6 ix peer))
    (hown : ∀ tag node, node ∈ GetAclRulesForNode.taggedNodes ix target tag →
      x ∈ Node.prefixes4 ix node ∨ x ∈ Node.prefixes6 ix node → node = peer) :
    IsPeerAllowed w target peer true = true ∧ peer.ID ≠ target.ID := by
  obtain ⟨t, ht, p, hp, hen, -, -, -, -, -, -, h5, h6⟩ :=
    GetAclRulesForNode.devicePass_sound w ix target id r hr
  have hcol : ∃ tag, GetAclRulesForNode.collects p t tag ∧
      ∃ node ∈ GetAclRulesForNode.taggedNodes ix target tag, node.ID ≠ target.ID ∧
        (x ∈ Node.prefixes4 ix node ∨ x ∈ Node.prefixes6 ix node) := by
    rcases hx with ⟨hx, -⟩ | ⟨hx, -⟩
    · rw [h5] at hx
      obtain ⟨tag, hc, node, hn, hnid, hxn⟩ :=
        (GetAclRulesForNode.mem_rule ix _ target t p x).1.1
          (UniqueIPNetList.mem_of_mem _ _ x hx)
      exact ⟨tag, hc, node, hn, hnid, Or.inl hxn⟩
    · rw [h6] at hx
      obtain ⟨tag, hc, node, hn, hnid, hxn⟩ :=
        (GetAclRulesForNode.mem_rule ix _ target t p x).2.1
          (UniqueIPNetList.mem_of_mem _ _ x hx)
      exact ⟨tag, hc, node, hn, hnid, Or.inr hxn⟩
  obtain ⟨tag, hc, node, hn, hnid, hxn⟩ := hcol
  have hpeer : node = peer := hown tag node hn hxn
  rw [hpeer] at hn hnid
  have htag : tag ∈ peer.Tags ∨ tag = "*" := by
    by_cases hstar : tag = "*"
    · exact Or.inr hstar
    · exact Or.inl (hindex tag peer hn hstar)
  exact ⟨IsPeerAllowed_of_match w target peer d p hts hps hnet hdefault hp hen
    (peerMatch_of_collects p target.Tags peer.Tags t tag
      ((GetAclRulesForNode.mem_targetNodeTags target t).1 ht) htag hc), hnid⟩

/-- C34 in scenario S3: the address `10.0.0.2/32` of `N2` is listed in the
rule of `N1` under `netA.webdb`, and `IsPeerAllowed(N1, N2, true)` is true
although the default device policy is disabled. -/
theorem C34_compiled_peer_is_allowed_witness :
    mapGet (GetAclRulesForNode.devicePass worldS3 indexS N1addr) "netA.webdb" = some ruleS3 ∧
      host4 10 0 0 2 ∈ ruleS3.IPList ∧ host4 10 0 0 2 ∈ Node.prefixes4 indexS N2addr ∧
      (GetDefaultPolicy worldS3 "netA" DevicePolicy).1.Enabled = false ∧
      IsPeerAllowed worldS3 N1addr N2addr true = true :=
  ⟨by decide, by decide, by decide, by decide,
    (C34_compiled_peer_is_allowed worldS3 indexS N1addr N2addr (allNodes false) "netA.webdb"
      ruleS3 (host4 10 0 0 2) rfl rfl rfl
      (by
        intro tag node hn hne
        simp only [GetAclRulesForNode.taggedNodes, indexS, ite_self, if_neg hne] at hn
        split_ifs at hn with h1 h2
        · rw [List.mem_singleton.1 hn, h1]
          decide
        · rw [List.mem_singleton.1 hn, h2]
          decide
        · exact absurd hn (List.not_mem_nil _))
      (by decide) (by decide) (Or.inl ⟨by decide, by decide⟩)
      (by
        intro tag node hn hx
        have hmem : node = N1addr ∨ node = N2addr := by
          simp only [GetAclRulesForNode.taggedNodes, indexS, ite_self] at hn
          split_ifs at hn
          · simpa using hn
          · exact Or.inl (List.mem_singleton.1 hn)
          · exact Or.inr (List.mem_singleton.1 hn)
          · exact absurd hn (List.not_mem_nil _)
        rcases hmem with h | h
        · rw [h] at hx
          exact absurd hx (by decide)
        · exact h)).1⟩

/-! ## C9, C10: the evaluator reads from a cold cache -/

/-- C9: the store holds the disabled `netA.all-users` and the enabled user
policy `netA.eng-db` (group `eng` to tag `db`); `alice` is in group `eng` and
`N1` carries `db`.  With caching enabled and an empty cache,
`IsUserAllowedToCommunicate("alice", N1)` returns `(false, [])`: the `GetAcl`
of `GetDefaultPolicy` leaves `netA.all-users` as the only record of the cache,
and the list reads that follow return the cache.  With caching disabled the
same call returns `(true, [eng-db])`. -/
theorem C9_cold_cache_denies_user :
    mapGet (registryCold true).aclsTable "netA.eng-db" = some engdb ∧
      userPolicyGrants engdb
        { UserName := "alice", PlatformRoleID := "service-user", NetworkRoles := [],
          UserGroups := ["eng"] } "netA" N1.Tags ∧
      worldS2.GetUser "alice" =
        some { UserName := "alice", PlatformRoleID := "service-user", NetworkRoles := [],
               UserGroups := ["eng"] } ∧
      ((registryCold true).GetDefaultPolicy "netA" UserPolicy).1 = (allUsers false, none) ∧
      ((registryCold true).GetDefaultPolicy "netA" UserPolicy).2.aclCacheMap =
        [("netA.all-users", allUsers false)] ∧
      ((registryCold true).IsUserAllowedToCommunicate worldS2 "alice" N1).1 = (false, []) ∧
      ((registryCold false).IsUserAllowedToCommunicate worldS2 "alice" N1).1 =
        (true, [engdb]) := by
  refine ⟨by decide, by unfold userPolicyGrants srcNamesUser; decide, by decide, by decide,
    by decide, by decide, by decide⟩

/-- C10: the store holds the disabled canonical default `netA.all-users` and
the enabled user policy `netA.any-user` with `"*"` in `Src` and in `Dst`.
With caching enabled and an empty cache, `GetDefaultPolicy("netA",
UserPolicy)` returns the disabled canonical default: its `GetAcl` leaves the
default as the only record of the cache, and `ListAclsByNetwork` returns the
cache.  With caching disabled it returns `netA.any-user`. -/
theorem C10_cold_cache_hides_custom_default :
    mapGet (registryCustomAll true).aclsTable "netA.all-users" = some (allUsers false) ∧
      mapGet (registryCustomAll true).aclsTable "netA.any-user" = some anyUser ∧
      anyUser.NetworkID = "netA" ∧ anyUser.RuleType = UserPolicy ∧ anyUser.Enabled = true ∧
      hasWildcard anyUser.Src ∧ hasWildcard anyUser.Dst ∧
      ((registryCustomAll true).GetAcl "netA.all-users").2.ListAcls.1 = [allUsers false] ∧
      ((registryCustomAll true).GetDefaultPolicy "netA" UserPolicy).1 =
        (allUsers false, none) ∧
      ((registryCustomAll false).GetDefaultPolicy "netA" UserPolicy).1 = (anyUser, none) := by
  refine ⟨by decide, by decide, rfl, rfl, rfl, by decide, by decide, by decide, by decide,
    by decide⟩

/-! ## C28: `UpdateDeviceTag` after a read on a cold cache -/

/-- C28: the store holds the device policies `netA.webdb` and `netA.appdb` of
`netA`, both with `{DeviceAclID, db}` in `Dst`.  With caching enabled and an
empty cache, after `GetAcl("netA.webdb")` the call `UpdateDeviceTag("db",
"database", "netA")` re-tags `netA.webdb`, its upsert succeeding, and leaves
`netA.appdb` stored with `db`: the list read returns the cache, which holds
`netA.webdb` only.  With caching disabled both policies are re-tagged. -/
theorem C28_cold_cache_keeps_old_tag :
    mapGet (registryTwo true).aclsTable "netA.appdb" = some appdb ∧
      appdb.NetworkID = "netA" ∧ appdb.RuleType = DevicePolicy ∧
      ⟨DeviceAclID, "db"⟩ ∈ appdb.Dst ∧
      (((registryTwo true).GetAcl "netA.webdb").2.UpdateDeviceTag "db" "database" "netA").fault
        = none ∧
      mapGet (((registryTwo true).GetAcl "netA.webdb").2.UpdateDeviceTag "db" "database"
        "netA").aclsTable "netA.webdb" = some (webdb.retagged "db" "database") ∧
      mapGet (((registryTwo true).GetAcl "netA.webdb").2.UpdateDeviceTag "db" "database"
        "netA").aclsTable "netA.appdb" = some appdb ∧
      mapGet (((registryTwo false).GetAcl "netA.webdb").2.UpdateDeviceTag "db" "database"
        "netA").aclsTable "netA.appdb" = some (appdb.retagged "db" "database") ∧
      appdb.retagged "db" "database" ≠ appdb := by
  refine ⟨by decide, rfl, rfl, by decide, by decide, by decide, by decide, by decide,
    by decide⟩

/-! ## C25: a target whose `Tags` map is nil -/

/-- C25: in scenario S1 the only enabled device policy of `netA` is the
bidirectional `netA.all-nodes` with `"*"` on both sides, and the index holds
`N0`, `N1` and `N2` under `"*"`.  For the target `N0`, whose `Tags` map is nil,
`GetAclRulesForNode` panics at line 992 and returns no rule list; with an empty
map in place of the nil map it returns the list `10.0.0.1/32, 10.0.0.2/32`
under `netA.all-nodes`, and `N1` gets `10.0.0.2/32, 10.0.0.3/32`.  The
evaluator, which only reads the tags, answers true for `N0` and `N2`. -/
theorem C25_nil_tags_panic :
    (∀ q ∈ listDevicePolicies worldS1 "netA", q.Enabled = true → q = allNodes true) ∧
      N0nil.TagsNil = true ∧ N0nil.Tags = [] ∧
      GetAclRulesForNode.run worldS1 indexS0 N0nil = none ∧
      (GetAclRulesForNode.run worldS1 indexS0 { N0nil with TagsNil := false }).map
          (fun rules => ipListOf rules "netA.all-nodes") =
        some [host4 10 0 0 1, host4 10 0 0 2] ∧
      (GetAclRulesForNode.run worldS1 indexS0 N1addr).map
          (fun rules => ipListOf rules "netA.all-nodes") =
        some [host4 10 0 0 2, host4 10 0 0 3] ∧
      IsPeerAllowed worldS1 N0nil N2addr true = true := by
  refine ⟨by decide, rfl, rfl, by decide, by decide, by decide, by decide⟩

/-! ## C21: the results of `UniqueIPNetList` -/

theorem sortIPNets.not_less_iff (a b : IPNet) :
    sortIPNets.less b a = false ↔ sortKey a ≤ sortKey b := by
  rw [← not_lt, ← sortIPNets.less_iff]
  simp

theorem UniqueIPNetList.outcome_perm (cidr : IPNet → String) (l out : List IPNet)
    (h : UniqueIPNetList.outcome cidr l out) : out.Perm (UniqueIPNetList cidr l) := by
  rw [UniqueIPNetList_eq, sortIPNets]
  exact h.1.trans (sort.Slice_perm _ _).symm

theorem UniqueIPNetList.outcome_uniqueSorted (cidr : IPNet → String) (l out : List IPNet)
    (h : UniqueIPNetList.outcome cidr l out) : uniqueSorted cidr out := by
  refine ⟨?_, ?_⟩
  · exact ((UniqueIPNetList.outcome_perm cidr l out h).map cidr).nodup_iff.2
      (UniqueIPNetList_uniqueSorted cidr l).1
  · exact h.2.imp (fun hab => (sortIPNets.not_less_iff _ _).1 hab)

/-- The run `UniqueIPNetList` is one of the results. -/
theorem UniqueIPNetList.outcome_run (cidr : IPNet → String) (l : List IPNet) :
    UniqueIPNetList.outcome cidr l (UniqueIPNetList cidr l) := by
  refine ⟨?_, ?_⟩
  · rw [UniqueIPNetList_eq, sortIPNets]
    exact sort.Slice_perm _ _
  · exact (UniqueIPNetList_uniqueSorted cidr l).2.imp
      (fun hab => (sortIPNets.not_less_iff _ _).2 hab)

/-- A list without repeated CIDR strings is the list of values of its own
map. -/
theorem UniqueIPNetList.collect_values_of_nodup (cidr : IPNet → String) (l : List IPNet)
    (hnd : (l.map cidr).Nodup) :
    (UniqueIPNetList.collect cidr [] l).map (fun kv => kv.2) = l := by
  rw [UniqueIPNetList.collect_of_nodup cidr l [] hnd (fun _ _ h => by simp at h)]
  simp [Function.comp_def]

/-- C21: the networks `tieA` and `tieB` have the same address and both masks
have size 0, so `less` separates them in neither direction, while their CIDR
strings differ.  On the list `tieA, tieB` the arrangement `tieA, tieB` is a
result of `UniqueIPNetList` and so is `tieB, tieA`; in particular a second
application to the result `tieA, tieB` can return `tieB, tieA`, which is
another list. -/
theorem C21_tied_entries_in_either_order :
    sortIPNets.less tieA tieB = false ∧ sortIPNets.less tieB tieA = false ∧
      cidrTie tieA ≠ cidrTie tieB ∧
      UniqueIPNetList.outcome cidrTie [tieA, tieB] [tieA, tieB] ∧
      UniqueIPNetList.outcome cidrTie [tieA, tieB] [tieB, tieA] ∧
      [tieB, tieA] ≠ [tieA, tieB] ∧
      UniqueIPNetList cidrTie [tieA, tieB] = [tieA, tieB] ∧
      UniqueIPNetList cidrTie [tieB, tieA] = [tieB, tieA] := by
  refine ⟨by decide, by decide, by decide, by decide, by decide, by decide, by decide,
    by decide⟩

/-- C21, amended: every result `out` of `UniqueIPNetList(l)` holds exactly the
CIDR strings that occur in `l`, each once; every entry of `out` is an entry of
`l` and every entry of `l` has its CIDR string in `out`; a result of
`UniqueIPNetList(out)` holds the entries of `out`, and is `out` itself when no
two entries of `l` with different CIDR strings have the same sort key (the
same address and the same mask size); and the function has a result. -/
theorem C21_unique_list_outcomes (cidr : IPNet → String) (l out : List IPNet)
    (h : UniqueIPNetList.outcome cidr l out) :
    (out.map cidr).Perm ((l.map cidr).dedup) ∧
    (∀ x ∈ out, x ∈ l) ∧
    (∀ x ∈ l, ∃ y ∈ out, cidr y = cidr x) ∧
    (∀ out2, UniqueIPNetList.outcome cidr out out2 → out2.Perm out) ∧
    ((∀ a ∈ l, ∀ b ∈ l, sortKey a = sortKey b → cidr a = cidr b) →
      ∀ out2, UniqueIPNetList.outcome cidr out out2 → out2 = out) ∧
    UniqueIPNetList.outcome cidr l (UniqueIPNetList cidr l) ∧
    UniqueIPNetList.outcome cidr out out := by
  have hperm := UniqueIPNetList.outcome_perm cidr l out h
  have hus := UniqueIPNetList.outcome_uniqueSorted cidr l out h
  have hex := UniqueIPNetList_exact cidr l
  have hval := UniqueIPNetList.collect_values_of_nodup cidr out hus.1
  have hself : UniqueIPNetList.outcome cidr out out :=
    ⟨by rw [hval], hus.2.imp (fun hab => (sortIPNets.not_less_iff _ _).2 hab)⟩
  have hback : ∀ out2, UniqueIPNetList.outcome cidr out out2 → out2.Perm out := by
    intro out2 h2
    have := h2.1
    rw [hval] at this
    exact this
  refine ⟨(hperm.map cidr).trans hex.1, ?_, ?_, hback, ?_,
    UniqueIPNetList.outcome_run cidr l, hself⟩
  · intro x hx
    exact hex.2.1 x (hperm.mem_iff.1 hx)
  · intro x hx
    obtain ⟨y, hy, hc⟩ := hex.2.2.1 x hx
    exact ⟨y, hperm.mem_iff.2 hy, hc⟩
  · intro hkey out2 h2
    refine uniqueSorted_unique cidr out out2 hus (hback out2 h2)
      (h2.2.imp (fun hab => (sortIPNets.not_less_iff _ _).1 hab)) ?_
    intro a ha b hb
    exact hkey a (hex.2.1 a (hperm.mem_iff.1 ha)) b (hex.2.1 b (hperm.mem_iff.1 hb))

/-- C21, amended, on the list `10.0.0.2/32, 10.0.0.1/32, 10.0.0.2/32`: the
arrangement `10.0.0.1/32, 10.0.0.2/32` is a result, it holds the two CIDR
strings of the list, each once, and its entries are entries of the list. -/
theorem C21_unique_list_outcomes_witness :
    UniqueIPNetList.outcome indexS.cidr [host4 10 0 0 2, host4 10 0 0 1, host4 10 0 0 2]
        [host4 10 0 0 1, host4 10 0 0 2] ∧
      ([host4 10 0 0 1, host4 10 0 0 2].map indexS.cidr).Perm
        (([host4 10 0 0 2, host4 10 0 0 1, host4 10 0 0 2].map indexS.cidr).dedup) ∧
      (∀ x ∈ [host4 10 0 0 1, host4 10 0 0 2],
        x ∈ [host4 10 0 0 2, host4 10 0 0 1, host4 10 0 0 2]) :=
  ⟨by decide,
    (C21_unique_list_outcomes indexS.cidr [host4 10 0 0 2, host4 10 0 0 1, host4 10 0 0 2]
      [host4 10 0 0 1, host4 10 0 0 2] (by decide)).1,
    (C21_unique_list_outcomes indexS.cidr [host4 10 0 0 2, host4 10 0 0 1, host4 10 0 0 2]
      [host4 10 0 0 1, host4 10 0 0 2] (by decide)).2.1⟩

/-! ## C38: the re-tagging helpers look at device policies -/

end Netmaker
